import Mathlib

/-!
Verification of the cppfront parser (`src/parse.h`): a shallow embedding of
the recursive-descent parser and its syntax-tree node family, together with
theorems settling the specification claims.

Conventions of the embedding:
* `std::unique_ptr<T>` fields become `Option T` (a null pointer is `none`).
* `std::vector<T>` becomes `List T`, pushed-back in order.
* Borrowed `token const*` pointers that are always initialized from
  `&curr()` become plain `token` values.
* The parser's mutable cursor (`tokens_`, `pos`) and the error sink become
  an explicit state record `PState` threaded through every production.
* The mutually recursive productions take a `fuel : Nat` argument and
  return a distinguished `PRes.oof` when it runs out; termination of the
  C++ code corresponds to sufficiency of a concrete fuel bound.
* `curr()` has the precondition `!done()` (an assert in the source).  The
  embedding makes a call of `curr()` at end-of-input observable: it yields
  the junk token `invalidTok` (whose lexeme `lexeme.Invalid` matches no
  grammar test) and sets the instrumentation flag `curr_end` in the state.
-/

set_option maxHeartbeats 2000000

namespace cpp2

/-- Source position `(lineno, colno)` of a token (from lex.h's interface). -/
structure source_position where
  lineno : Nat
  colno  : Nat
deriving DecidableEq, Repr

/-- The lexeme kinds referenced by parse.h, plus `Invalid`:
the value of an out-of-range token read (which the C++ leaves unspecified;
`Invalid` deliberately matches no test the parser performs). -/
inductive lexeme where
  | Not | PlusPlus | MinusMinus | Caret | Ampersand | Tilde | Dollar
  | Assignment | MultiplyEq | SlashEq | ModuloEq | PlusEq | MinusEq
  | RightShiftEq | LeftShiftEq
  | Identifier | DecimalLiteral | FloatLiteral | StringLiteral
  | CharacterLiteral | BinaryLiteral | HexadecimalLiteral | Keyword
  | LeftParen | RightParen | LeftBracket | RightBracket
  | LeftBrace | RightBrace
  | Dot | Multiply | Slash | Modulo | Plus | Minus
  | LeftShift | RightShift | Spaceship
  | Less | LessEq | Greater | GreaterEq
  | EqualComparison | NotEqualComparison | LogicalAnd | LogicalOr
  | Scope | Colon | Semicolon | Comma
  | Invalid
deriving DecidableEq, Repr

/-- A lexed token: kind, spelling (`to_string()` / `operator==(string)`),
and source position. -/
structure token where
  type : lexeme
  text : String
  pos  : source_position
deriving DecidableEq, Repr

/-- The junk token produced by an out-of-range read. -/
def invalidTok : token := ⟨lexeme.Invalid, "", ⟨0, 0⟩⟩

/-- One diagnostic record `(position, message)` appended to the error sink. -/
structure error where
  pos : source_position
  msg : String
deriving DecidableEq, Repr

/-- `is_prefix_operator` from parse.h. -/
def is_prefix_operator (l : lexeme) : Bool :=
  match l with
  | lexeme.Not => true
  | _ => false

/-- `is_postfix_operator` from parse.h. -/
def is_postfix_operator (l : lexeme) : Bool :=
  match l with
  | lexeme.PlusPlus | lexeme.MinusMinus | lexeme.Caret
  | lexeme.Ampersand | lexeme.Tilde | lexeme.Dollar => true
  | _ => false

/-- `is_assignment_operator` from parse.h. -/
def is_assignment_operator (l : lexeme) : Bool :=
  match l with
  | lexeme.Assignment | lexeme.MultiplyEq | lexeme.SlashEq
  | lexeme.ModuloEq | lexeme.PlusEq | lexeme.MinusEq
  | lexeme.RightShiftEq | lexeme.LeftShiftEq => true
  | _ => false

/-- The parser's per-call mutable state: the borrowed token sequence
`tokens_`, the cursor `pos`, the external error sink, and the
instrumentation flag `curr_end` recording that `curr()` was invoked while
`done()` held (i.e. its assert/precondition was violated). -/
structure PState where
  tokens   : List token
  pos      : Nat
  errors   : List error
  curr_end : Bool
deriving DecidableEq, Repr

/-- Result of running a production with fuel: either the fuel ran out
(`oof`), or a value together with the state after the call. -/
inductive PRes (α : Type) where
  | oof : PRes α
  | ok (a : α) (s : PState) : PRes α
deriving DecidableEq, Repr

/-- `done()`: the cursor sits one past the last token. -/
def doneB (s : PState) : Bool := s.pos == s.tokens.length

/-- The token `curr()` returns: `(*tokens_)[pos]` in range, and the junk
value of an out-of-range read at end. -/
def currTok (s : PState) : token := s.tokens.getD s.pos invalidTok

/-- The state after a `curr()` call: unchanged in range; at end the
`curr_end` instrumentation flag is raised (the source's `assert (!done())`
would have fired). -/
def currFlag (s : PState) : PState :=
  if s.pos < s.tokens.length then s else { s with curr_end := true }

/-- `curr()`: the current token.  Precondition (asserted in the source):
not at end.  At end the read is out of range; the embedding yields
`invalidTok` and raises the `curr_end` flag. -/
def currS (s : PState) : token × PState := (currTok s, currFlag s)

/-- Raw vector indexing at a possibly negative index, as performed by
`(*tokens_)[pos + num]`: in range it is the element, out of range it is an
unspecified value (modelled by `invalidTok`). -/
def getI (l : List token) (i : Int) : token :=
  if h : 0 ≤ i ∧ i.toNat < l.length then l.get ⟨i.toNat, h.2⟩ else invalidTok

/-- `peek(num)`: the source checks only `pos + num < ssize(*tokens_)`
before indexing (there is no lower-bound check). -/
def peek (s : PState) (num : Int) : Option token :=
  if (s.pos : Int) + num < (s.tokens.length : Int) then
    some (getI s.tokens ((s.pos : Int) + num))
  else none

/-- `next()`: advance, saturating at one past the end. -/
def next (s : PState) : PState :=
  { s with pos := min (s.pos + 1) s.tokens.length }

/-- `error(msg)`: appends `(curr().position(), msg + " at " + curr().to_string())`
to the error sink.  It calls `curr()`, so at end-of-input the `curr_end`
flag is raised and the junk position/text are used. -/
def errorS (s : PState) (msg : String) : PState :=
  let (t, s1) := currS s
  { s1 with errors := s1.errors ++ [⟨t.pos, msg ++ " at " ++ t.text⟩] }

/-- Spelling of `peek(-1)->to_string()` in the dangling-operator message
(the call site guarantees the pointer is non-null). -/
def peekBackText (s : PState) : String :=
  match peek s (-1) with
  | some t => t.text
  | none => ""

/-- `passing_style` (the C++ `in` is spelled `in_`, a Lean keyword). -/
inductive passing_style where
  | in_ | inout | out | move | forward
deriving DecidableEq, Repr

/-- This-specifier modifier of `parameter_declaration_node`. -/
inductive param_modifier where
  | none | implicit | virtual_ | override_ | final_
deriving DecidableEq, Repr

/-- `unqualified_id_node`: one borrowed identifier-or-keyword token. -/
inductive unqualified_id_node where
  | mk (identifier : token) : unqualified_id_node
deriving DecidableEq, Repr

/-- `qualified_id_node`: the `::`-joined ids. -/
inductive qualified_id_node where
  | mk (ids : List unqualified_id_node) : qualified_id_node
deriving DecidableEq, Repr

/-- `id_expression_node`: variant `{empty, qualified, unqualified}`. -/
inductive id_expression_node where
  | empty : id_expression_node
  | qualified (q : qualified_id_node) : id_expression_node
  | unqualified (u : unqualified_id_node) : id_expression_node
deriving DecidableEq, Repr

/- The expression-node family.  Each of the ten `binary_expression_node`
template instantiations is a head `expr` (nullable) plus a list of
`(op, expr)` terms over the next-lower term type; the other members mirror
the corresponding structs of parse.h. -/

mutual

/-- `primary_expression_node`: variant `{empty, identifier token, expression_list}`. -/
inductive primary_expression_node where
  | empty : primary_expression_node
  | identifier (tok : token) : primary_expression_node
  | expression_list (l : expression_list_node) : primary_expression_node

/-- `postfix_expression_node`: primary plus postfix terms
`(op, expr_list?)` (the expression-list is used only for `[` / `(`
operators and can be null). -/
inductive postfix_expression_node where
  | mk (expr : Option primary_expression_node)
       (ops : List (token × Option expression_list_node)) : postfix_expression_node

/-- `prefix_expression_node`: prefix operator tokens plus a postfix expression. -/
inductive prefix_expression_node where
  | mk (ops : List token)
       (expr : Option postfix_expression_node) : prefix_expression_node

/-- `binary_expression_node<"is-as", prefix_expression_node>`. -/
inductive is_as_expression_node where
  | mk (expr : Option prefix_expression_node)
       (terms : List (token × Option prefix_expression_node)) : is_as_expression_node

/-- `binary_expression_node<"multiplicative", is_as_expression_node>`. -/
inductive multiplicative_expression_node where
  | mk (expr : Option is_as_expression_node)
       (terms : List (token × Option is_as_expression_node)) : multiplicative_expression_node

/-- `binary_expression_node<"additive", multiplicative_expression_node>`. -/
inductive additive_expression_node where
  | mk (expr : Option multiplicative_expression_node)
       (terms : List (token × Option multiplicative_expression_node)) : additive_expression_node

/-- `binary_expression_node<"shift", additive_expression_node>`. -/
inductive shift_expression_node where
  | mk (expr : Option additive_expression_node)
       (terms : List (token × Option additive_expression_node)) : shift_expression_node

/-- `binary_expression_node<"compare", shift_expression_node>`. -/
inductive compare_expression_node where
  | mk (expr : Option shift_expression_node)
       (terms : List (token × Option shift_expression_node)) : compare_expression_node

/-- `binary_expression_node<"relational", compare_expression_node>`. -/
inductive relational_expression_node where
  | mk (expr : Option compare_expression_node)
       (terms : List (token × Option compare_expression_node)) : relational_expression_node

/-- `binary_expression_node<"equality", relational_expression_node>`. -/
inductive equality_expression_node where
  | mk (expr : Option relational_expression_node)
       (terms : List (token × Option relational_expression_node)) : equality_expression_node

/-- `binary_expression_node<"logical-and", equality_expression_node>`. -/
inductive logical_and_expression_node where
  | mk (expr : Option equality_expression_node)
       (terms : List (token × Option equality_expression_node)) : logical_and_expression_node

/-- `binary_expression_node<"logical-or", logical_and_expression_node>`. -/
inductive logical_or_expression_node where
  | mk (expr : Option logical_and_expression_node)
       (terms : List (token × Option logical_and_expression_node)) : logical_or_expression_node

/-- `binary_expression_node<"assignment", logical_or_expression_node>`. -/
inductive assignment_expression_node where
  | mk (expr : Option logical_or_expression_node)
       (terms : List (token × Option logical_or_expression_node)) : assignment_expression_node

/-- `expression_node`: thin carrier of an assignment-expression. -/
inductive expression_node where
  | mk (expr : Option assignment_expression_node) : expression_node

/-- `expression_list_node`: terms `(passing_style, expression)`;
the expression pointer of a term is nullable. -/
inductive expression_list_node where
  | mk (expressions : List (passing_style × Option expression_node)) : expression_list_node

end

/-- `expression_statement_node`. -/
inductive expression_statement_node where
  | mk (expr : Option expression_node) : expression_statement_node

/- The statement/declaration family. -/

mutual

/-- `statement_node`: tagged variant. -/
inductive statement_node where
  | expression (e : expression_statement_node) : statement_node
  | compound (c : compound_statement_node) : statement_node
  | selection (s : selection_statement_node) : statement_node
  | declaration (d : declaration_node) : statement_node

/-- `compound_statement_node`: remembered `{` position and the statements. -/
inductive compound_statement_node where
  | mk (pos : source_position) (statements : List statement_node) : compound_statement_node

/-- `selection_statement_node`. -/
inductive selection_statement_node where
  | mk (is_constexpr : Bool) (identifier : token)
       (expression : Option expression_node)
       (true_branch : Option compound_statement_node)
       (false_branch : Option compound_statement_node) : selection_statement_node

/-- The `type` variant of `declaration_node`:
`{function: parameter_declaration_list, object: id_expression}`. -/
inductive declaration_type where
  | function (l : parameter_declaration_list_node) : declaration_type
  | object (i : id_expression_node) : declaration_type

/-- `declaration_node`. -/
inductive declaration_node where
  | mk (identifier : Option unqualified_id_node)
       (type : declaration_type)
       (initializer : Option statement_node) : declaration_node

/-- `parameter_declaration_node`. -/
inductive parameter_declaration_node where
  | mk (pos : source_position) (pass : passing_style) (mod : param_modifier)
       (declaration : Option declaration_node) : parameter_declaration_node

/-- `parameter_declaration_list_node` (elements are pushed only when
non-null, so the list holds the nodes directly). -/
inductive parameter_declaration_list_node where
  | mk (pos_open_paren pos_close_paren : source_position)
       (parameters : List parameter_declaration_node) : parameter_declaration_list_node

end

/-- `translation_unit_node` (declarations are pushed only when non-null). -/
inductive translation_unit_node where
  | mk (declarations : List declaration_node) : translation_unit_node

/-- Field accessor. -/
def expression_list_node.expressions : expression_list_node → List (passing_style × Option expression_node)
  | .mk e => e

/-- Field accessor. -/
def postfix_expression_node.expr : postfix_expression_node → Option primary_expression_node
  | .mk e _ => e

/-- Field accessor. -/
def postfix_expression_node.ops : postfix_expression_node → List (token × Option expression_list_node)
  | .mk _ o => o

/-- Field accessor. -/
def expression_node.expr : expression_node → Option assignment_expression_node
  | .mk e => e

/-- Field accessor. -/
def selection_statement_node.is_constexpr : selection_statement_node → Bool
  | .mk c _ _ _ _ => c

/-- Field accessor. -/
def selection_statement_node.true_branch : selection_statement_node → Option compound_statement_node
  | .mk _ _ _ t _ => t

/-- Field accessor. -/
def selection_statement_node.false_branch : selection_statement_node → Option compound_statement_node
  | .mk _ _ _ _ f => f

/-- Field accessor. -/
def compound_statement_node.pos : compound_statement_node → source_position
  | .mk p _ => p

/-- Field accessor. -/
def compound_statement_node.statements : compound_statement_node → List statement_node
  | .mk _ st => st

/-- Field accessor. -/
def declaration_node.identifier : declaration_node → Option unqualified_id_node
  | .mk i _ _ => i

/-- Field accessor. -/
def declaration_node.type : declaration_node → declaration_type
  | .mk _ t _ => t

/-- Field accessor. -/
def declaration_node.initializer : declaration_node → Option statement_node
  | .mk _ _ i => i

/-- Field accessor. -/
def translation_unit_node.declarations : translation_unit_node → List declaration_node
  | .mk d => d

/-- The literal-or-identifier-or-keyword test opening `primary_expression`. -/
def literal_or_id (t : token) : Bool :=
  t.type == lexeme.Identifier || t.type == lexeme.DecimalLiteral ||
  t.type == lexeme.FloatLiteral || t.type == lexeme.StringLiteral ||
  t.type == lexeme.CharacterLiteral || t.type == lexeme.BinaryLiteral ||
  t.type == lexeme.HexadecimalLiteral || t.type == lexeme.Keyword

/-- The `while` condition of the postfix chain. -/
def postfix_chain_op (t : token) : Bool :=
  is_postfix_operator t.type || t.type == lexeme.LeftBracket ||
  t.type == lexeme.LeftParen || t.type == lexeme.Dot

/-- Operator predicate of the is-as layer. -/
def is_as_op (t : token) : Bool :=
  t.type == lexeme.Keyword && (t.text == "is" || t.text == "as")

/-- Operator predicate of the multiplicative layer. -/
def multiplicative_op (t : token) : Bool :=
  t.type == lexeme.Multiply || t.type == lexeme.Slash || t.type == lexeme.Modulo

/-- Operator predicate of the additive layer. -/
def additive_op (t : token) : Bool :=
  t.type == lexeme.Plus || t.type == lexeme.Minus

/-- Operator predicate of the shift layer. -/
def shift_op (t : token) : Bool :=
  t.type == lexeme.LeftShift || t.type == lexeme.RightShift

/-- Operator predicate of the compare layer. -/
def compare_op (t : token) : Bool :=
  t.type == lexeme.Spaceship

/-- Operator predicate of the relational layer. -/
def relational_op (t : token) : Bool :=
  t.type == lexeme.Less || t.type == lexeme.LessEq ||
  t.type == lexeme.Greater || t.type == lexeme.GreaterEq

/-- Operator predicate of the equality layer. -/
def equality_op (t : token) : Bool :=
  t.type == lexeme.EqualComparison || t.type == lexeme.NotEqualComparison

/-- Operator predicate of the logical-and layer. -/
def logical_and_op (t : token) : Bool :=
  t.type == lexeme.LogicalAnd

/-- Operator predicate of the logical-or layer. -/
def logical_or_op (t : token) : Bool :=
  t.type == lexeme.LogicalOr

/-- Operator predicate of the assignment layer. -/
def assignment_op (t : token) : Bool :=
  is_assignment_operator t.type

/-- `unqualified_id`: one identifier-or-keyword token, else no match
(consuming nothing). -/
def unqualified_id (s : PState) : Option unqualified_id_node × PState :=
  let (t, s1) := currS s
  if !(t.type == lexeme.Identifier) && !(t.type == lexeme.Keyword) then
    (none, s1)
  else
    (some (unqualified_id_node.mk t), next s1)

/- The mutually recursive expression productions, with fuel.  Each
`..._terms` function is the operator-collection `while` loop of the
generic `binary_expression` body, carried out for that instantiation:
consume the operator, parse the right-hand term, report
"invalid expression after <op>" and return the partial term list if it is
null, else push and continue. -/

mutual

/-- `primary_expression`. -/
def primary_expression (fuel : Nat) (s : PState) : PRes (Option primary_expression_node) :=
match fuel with
| 0 => .oof
| fuel + 1 =>
  let (t, s) := currS s
  if literal_or_id t then
    .ok (some (primary_expression_node.identifier t)) (next s)
  else if t.type == lexeme.LeftParen then
    let s := next s
    match expression_list fuel s with
    | .oof => .oof
    | .ok none s =>
      let s := errorS s "unexpected text - ( is not followed by an expression-list"
      .ok none (next s)
    | .ok (some el) s =>
      let (t2, s) := currS s
      if !(t2.type == lexeme.RightParen) then
        let s := errorS s "unexpected text - expression-list is not terminated by )"
        .ok none (next s)
      else
        .ok (some (primary_expression_node.expression_list el)) (next s)
  else
    .ok none s

/-- The postfix-operator chain (`while` loop) of `postfix_expression`. -/
def postfix_tail (fuel : Nat) (s : PState)
    (acc : List (token × Option expression_list_node)) :
    PRes (List (token × Option expression_list_node)) :=
match fuel with
| 0 => .oof
| fuel + 1 =>
  let (t, s) := currS s
  if postfix_chain_op t then
    let s := next s
    match t.type with
    | lexeme.LeftBracket =>
      match expression_list fuel s with
      | .oof => .oof
      | .ok el s =>
        let s := if el.isNone then
            errorS s "subscript expression [ ] must not be empty" else s
        let (t2, s) := currS s
        let s := if !(t2.type == lexeme.RightBracket) then
            errorS s "unexpected text - [ is not properly matched by ]" else s
        postfix_tail fuel (next s) (acc ++ [(t, el)])
    | lexeme.LeftParen =>
      match expression_list fuel s with
      | .oof => .oof
      | .ok el s =>
        let (t2, s) := currS s
        let s := if !(t2.type == lexeme.RightParen) then
            errorS s "unexpected text - ( is not properly matched by )" else s
        postfix_tail fuel (next s) (acc ++ [(t, el)])
    | _ =>
      postfix_tail fuel s (acc ++ [(t, none)])
  else
    .ok acc s

/-- `postfix_expression`. -/
def postfix_expression (fuel : Nat) (s : PState) : PRes (Option postfix_expression_node) :=
match fuel with
| 0 => .oof
| fuel + 1 =>
  match primary_expression fuel s with
  | .oof => .oof
  | .ok none s => .ok none s
  | .ok (some p) s =>
    match postfix_tail fuel s [] with
    | .oof => .oof
    | .ok ops s => .ok (some (postfix_expression_node.mk (some p) ops)) s

/-- The prefix-operator collection loop of `prefix_expression`. -/
def prefix_ops (fuel : Nat) (s : PState) (acc : List token) :
    PRes (List token) :=
match fuel with
| 0 => .oof
| fuel + 1 =>
  let (t, s) := currS s
  if is_prefix_operator t.type then
    prefix_ops fuel (next s) (acc ++ [t])
  else
    .ok acc s

/-- `prefix_expression`.  On a failing postfix expression the collected
prefix operators stay consumed (no backtrack in the source). -/
def prefix_expression (fuel : Nat) (s : PState) : PRes (Option prefix_expression_node) :=
match fuel with
| 0 => .oof
| fuel + 1 =>
  match prefix_ops fuel s [] with
  | .oof => .oof
  | .ok ops s =>
    match postfix_expression fuel s with
    | .oof => .oof
    | .ok none s => .ok none s
    | .ok (some pe) s =>
      .ok (some (prefix_expression_node.mk ops (some pe))) s

/-- Operator loop of the is-as layer. -/
def is_as_terms (fuel : Nat) (s : PState)
    (acc : List (token × Option prefix_expression_node)) :
    PRes (List (token × Option prefix_expression_node)) :=
match fuel with
| 0 => .oof
| fuel + 1 =>
  let (t, s) := currS s
  if is_as_op t then
    let s := next s
    match prefix_expression fuel s with
    | .oof => .oof
    | .ok none s =>
      let s := errorS s ("invalid expression after " ++ peekBackText s)
      .ok acc s
    | .ok (some e) s => is_as_terms fuel s (acc ++ [(t, some e)])
  else .ok acc s

/-- `is_as_expression`. -/
def is_as_expression (fuel : Nat) (s : PState) : PRes (Option is_as_expression_node) :=
match fuel with
| 0 => .oof
| fuel + 1 =>
  match prefix_expression fuel s with
  | .oof => .oof
  | .ok none s => .ok none s
  | .ok (some h) s =>
    match is_as_terms fuel s [] with
    | .oof => .oof
    | .ok ts s => .ok (some (is_as_expression_node.mk (some h) ts)) s

/-- Operator loop of the multiplicative layer. -/
def multiplicative_terms (fuel : Nat) (s : PState)
    (acc : List (token × Option is_as_expression_node)) :
    PRes (List (token × Option is_as_expression_node)) :=
match fuel with
| 0 => .oof
| fuel + 1 =>
  let (t, s) := currS s
  if multiplicative_op t then
    let s := next s
    match is_as_expression fuel s with
    | .oof => .oof
    | .ok none s =>
      let s := errorS s ("invalid expression after " ++ peekBackText s)
      .ok acc s
    | .ok (some e) s => multiplicative_terms fuel s (acc ++ [(t, some e)])
  else .ok acc s

/-- `multiplicative_expression`. -/
def multiplicative_expression (fuel : Nat) (s : PState) : PRes (Option multiplicative_expression_node) :=
match fuel with
| 0 => .oof
| fuel + 1 =>
  match is_as_expression fuel s with
  | .oof => .oof
  | .ok none s => .ok none s
  | .ok (some h) s =>
    match multiplicative_terms fuel s [] with
    | .oof => .oof
    | .ok ts s => .ok (some (multiplicative_expression_node.mk (some h) ts)) s

/-- Operator loop of the additive layer. -/
def additive_terms (fuel : Nat) (s : PState)
    (acc : List (token × Option multiplicative_expression_node)) :
    PRes (List (token × Option multiplicative_expression_node)) :=
match fuel with
| 0 => .oof
| fuel + 1 =>
  let (t, s) := currS s
  if additive_op t then
    let s := next s
    match multiplicative_expression fuel s with
    | .oof => .oof
    | .ok none s =>
      let s := errorS s ("invalid expression after " ++ peekBackText s)
      .ok acc s
    | .ok (some e) s => additive_terms fuel s (acc ++ [(t, some e)])
  else .ok acc s

/-- `additive_expression`. -/
def additive_expression (fuel : Nat) (s : PState) : PRes (Option additive_expression_node) :=
match fuel with
| 0 => .oof
| fuel + 1 =>
  match multiplicative_expression fuel s with
  | .oof => .oof
  | .ok none s => .ok none s
  | .ok (some h) s =>
    match additive_terms fuel s [] with
    | .oof => .oof
    | .ok ts s => .ok (some (additive_expression_node.mk (some h) ts)) s

/-- Operator loop of the shift layer. -/
def shift_terms (fuel : Nat) (s : PState)
    (acc : List (token × Option additive_expression_node)) :
    PRes (List (token × Option additive_expression_node)) :=
match fuel with
| 0 => .oof
| fuel + 1 =>
  let (t, s) := currS s
  if shift_op t then
    let s := next s
    match additive_expression fuel s with
    | .oof => .oof
    | .ok none s =>
      let s := errorS s ("invalid expression after " ++ peekBackText s)
      .ok acc s
    | .ok (some e) s => shift_terms fuel s (acc ++ [(t, some e)])
  else .ok acc s

/-- `shift_expression`. -/
def shift_expression (fuel : Nat) (s : PState) : PRes (Option shift_expression_node) :=
match fuel with
| 0 => .oof
| fuel + 1 =>
  match additive_expression fuel s with
  | .oof => .oof
  | .ok none s => .ok none s
  | .ok (some h) s =>
    match shift_terms fuel s [] with
    | .oof => .oof
    | .ok ts s => .ok (some (shift_expression_node.mk (some h) ts)) s

/-- Operator loop of the compare layer. -/
def compare_terms (fuel : Nat) (s : PState)
    (acc : List (token × Option shift_expression_node)) :
    PRes (List (token × Option shift_expression_node)) :=
match fuel with
| 0 => .oof
| fuel + 1 =>
  let (t, s) := currS s
  if compare_op t then
    let s := next s
    match shift_expression fuel s with
    | .oof => .oof
    | .ok none s =>
      let s := errorS s ("invalid expression after " ++ peekBackText s)
      .ok acc s
    | .ok (some e) s => compare_terms fuel s (acc ++ [(t, some e)])
  else .ok acc s

/-- `compare_expression`. -/
def compare_expression (fuel : Nat) (s : PState) : PRes (Option compare_expression_node) :=
match fuel with
| 0 => .oof
| fuel + 1 =>
  match shift_expression fuel s with
  | .oof => .oof
  | .ok none s => .ok none s
  | .ok (some h) s =>
    match compare_terms fuel s [] with
    | .oof => .oof
    | .ok ts s => .ok (some (compare_expression_node.mk (some h) ts)) s

/-- Operator loop of the relational layer. -/
def relational_terms (fuel : Nat) (s : PState)
    (acc : List (token × Option compare_expression_node)) :
    PRes (List (token × Option compare_expression_node)) :=
match fuel with
| 0 => .oof
| fuel + 1 =>
  let (t, s) := currS s
  if relational_op t then
    let s := next s
    match compare_expression fuel s with
    | .oof => .oof
    | .ok none s =>
      let s := errorS s ("invalid expression after " ++ peekBackText s)
      .ok acc s
    | .ok (some e) s => relational_terms fuel s (acc ++ [(t, some e)])
  else .ok acc s

/-- `relational_expression`. -/
def relational_expression (fuel : Nat) (s : PState) : PRes (Option relational_expression_node) :=
match fuel with
| 0 => .oof
| fuel + 1 =>
  match compare_expression fuel s with
  | .oof => .oof
  | .ok none s => .ok none s
  | .ok (some h) s =>
    match relational_terms fuel s [] with
    | .oof => .oof
    | .ok ts s => .ok (some (relational_expression_node.mk (some h) ts)) s

/-- Operator loop of the equality layer. -/
def equality_terms (fuel : Nat) (s : PState)
    (acc : List (token × Option relational_expression_node)) :
    PRes (List (token × Option relational_expression_node)) :=
match fuel with
| 0 => .oof
| fuel + 1 =>
  let (t, s) := currS s
  if equality_op t then
    let s := next s
    match relational_expression fuel s with
    | .oof => .oof
    | .ok none s =>
      let s := errorS s ("invalid expression after " ++ peekBackText s)
      .ok acc s
    | .ok (some e) s => equality_terms fuel s (acc ++ [(t, some e)])
  else .ok acc s

/-- `equality_expression`. -/
def equality_expression (fuel : Nat) (s : PState) : PRes (Option equality_expression_node) :=
match fuel with
| 0 => .oof
| fuel + 1 =>
  match relational_expression fuel s with
  | .oof => .oof
  | .ok none s => .ok none s
  | .ok (some h) s =>
    match equality_terms fuel s [] with
    | .oof => .oof
    | .ok ts s => .ok (some (equality_expression_node.mk (some h) ts)) s

/-- Operator loop of the logical-and layer. -/
def logical_and_terms (fuel : Nat) (s : PState)
    (acc : List (token × Option equality_expression_node)) :
    PRes (List (token × Option equality_expression_node)) :=
match fuel with
| 0 => .oof
| fuel + 1 =>
  let (t, s) := currS s
  if logical_and_op t then
    let s := next s
    match equality_expression fuel s with
    | .oof => .oof
    | .ok none s =>
      let s := errorS s ("invalid expression after " ++ peekBackText s)
      .ok acc s
    | .ok (some e) s => logical_and_terms fuel s (acc ++ [(t, some e)])
  else .ok acc s

/-- `logical_and_expression` (its term is the equality layer: the bitwise
layers are commented out in the source). -/
def logical_and_expression (fuel : Nat) (s : PState) : PRes (Option logical_and_expression_node) :=
match fuel with
| 0 => .oof
| fuel + 1 =>
  match equality_expression fuel s with
  | .oof => .oof
  | .ok none s => .ok none s
  | .ok (some h) s =>
    match logical_and_terms fuel s [] with
    | .oof => .oof
    | .ok ts s => .ok (some (logical_and_expression_node.mk (some h) ts)) s

/-- Operator loop of the logical-or layer. -/
def logical_or_terms (fuel : Nat) (s : PState)
    (acc : List (token × Option logical_and_expression_node)) :
    PRes (List (token × Option logical_and_expression_node)) :=
match fuel with
| 0 => .oof
| fuel + 1 =>
  let (t, s) := currS s
  if logical_or_op t then
    let s := next s
    match logical_and_expression fuel s with
    | .oof => .oof
    | .ok none s =>
      let s := errorS s ("invalid expression after " ++ peekBackText s)
      .ok acc s
    | .ok (some e) s => logical_or_terms fuel s (acc ++ [(t, some e)])
  else .ok acc s

/-- `logical_or_expression`. -/
def logical_or_expression (fuel : Nat) (s : PState) : PRes (Option logical_or_expression_node) :=
match fuel with
| 0 => .oof
| fuel + 1 =>
  match logical_and_expression fuel s with
  | .oof => .oof
  | .ok none s => .ok none s
  | .ok (some h) s =>
    match logical_or_terms fuel s [] with
    | .oof => .oof
    | .ok ts s => .ok (some (logical_or_expression_node.mk (some h) ts)) s

/-- Operator loop of the assignment layer. -/
def assignment_terms (fuel : Nat) (s : PState)
    (acc : List (token × Option logical_or_expression_node)) :
    PRes (List (token × Option logical_or_expression_node)) :=
match fuel with
| 0 => .oof
| fuel + 1 =>
  let (t, s) := currS s
  if assignment_op t then
    let s := next s
    match logical_or_expression fuel s with
    | .oof => .oof
    | .ok none s =>
      let s := errorS s ("invalid expression after " ++ peekBackText s)
      .ok acc s
    | .ok (some e) s => assignment_terms fuel s (acc ++ [(t, some e)])
  else .ok acc s

/-- `assignment_expression`. -/
def assignment_expression (fuel : Nat) (s : PState) : PRes (Option assignment_expression_node) :=
match fuel with
| 0 => .oof
| fuel + 1 =>
  match logical_or_expression fuel s with
  | .oof => .oof
  | .ok none s => .ok none s
  | .ok (some h) s =>
    match assignment_terms fuel s [] with
    | .oof => .oof
    | .ok ts s => .ok (some (assignment_expression_node.mk (some h) ts)) s

/-- `expression`. -/
def expression (fuel : Nat) (s : PState) : PRes (Option expression_node) :=
match fuel with
| 0 => .oof
| fuel + 1 =>
  match assignment_expression fuel s with
  | .oof => .oof
  | .ok none s => .ok none s
  | .ok (some a) s => .ok (some (expression_node.mk (some a))) s

/-- The comma loop of `expression_list`: the pushed expression is NOT
null-checked in the source. -/
def expression_list_tail (fuel : Nat) (s : PState)
    (acc : List (passing_style × Option expression_node)) :
    PRes (List (passing_style × Option expression_node)) :=
match fuel with
| 0 => .oof
| fuel + 1 =>
  let (t, s) := currS s
  if t.type == lexeme.Comma then
    let s := next s
    let (t2, s) := currS s
    let (pass, s) :=
      if t2.type == lexeme.Identifier && t2.text == "out" then
        (passing_style.out, next s)
      else (passing_style.in_, s)
    match expression fuel s with
    | .oof => .oof
    | .ok x s => expression_list_tail fuel s (acc ++ [(pass, x)])
  else .ok acc s

/-- `expression_list`: on a failing first expression the cursor is rewound
to the entry position. -/
def expression_list (fuel : Nat) (s : PState) : PRes (Option expression_list_node) :=
match fuel with
| 0 => .oof
| fuel + 1 =>
  let start_pos := s.pos
  let (t, s) := currS s
  let (pass, s) :=
    if t.type == lexeme.Identifier && t.text == "out" then
      (passing_style.out, next s)
    else (passing_style.in_, s)
  match expression fuel s with
  | .oof => .oof
  | .ok none s => .ok none { s with pos := start_pos }
  | .ok (some x) s =>
    match expression_list_tail fuel s [(pass, some x)] with
    | .oof => .oof
    | .ok es s => .ok (some (expression_list_node.mk es)) s

end

/-- The `(:: unqualified_id)+` loop of `qualified_id`: a `::` not followed
by a nested name reports an error and yields null (the cursor stays where
the error was found — no rewind on this path). -/
def qualified_tail (fuel : Nat) (s : PState) (acc : List unqualified_id_node) :
    PRes (Option qualified_id_node) :=
match fuel with
| 0 => .oof
| fuel + 1 =>
  let (t, s) := currS s
  if t.type == lexeme.Scope then
    let s := next s
    let (id, s) := unqualified_id s
    match id with
    | none =>
      let s := errorS s "invalid text, :: should be followed by a nested name"
      .ok none s
    | some i => qualified_tail fuel s (acc ++ [i])
  else .ok (some (qualified_id_node.mk acc)) s

/-- `qualified_id`: if the lead unqualified-id is missing or not followed
by `::`, the cursor is rewound to the entry position and the parse yields
null. -/
def qualified_id (fuel : Nat) (s : PState) : PRes (Option qualified_id_node) :=
match fuel with
| 0 => .oof
| fuel + 1 =>
  let start_pos := s.pos
  let (id, s) := unqualified_id s
  match id with
  | none => .ok none { s with pos := start_pos }
  | some id0 =>
    let (t, s) := currS s
    if !(t.type == lexeme.Scope) then .ok none { s with pos := start_pos }
    else qualified_tail fuel s [id0]

/-- `id_expression`: qualified first, then unqualified, else null. -/
def id_expression (fuel : Nat) (s : PState) : PRes (Option id_expression_node) :=
match fuel with
| 0 => .oof
| fuel + 1 =>
  match qualified_id fuel s with
  | .oof => .oof
  | .ok (some q) s => .ok (some (id_expression_node.qualified q)) s
  | .ok none s =>
    match unqualified_id s with
    | (some u, s) => .ok (some (id_expression_node.unqualified u)) s
    | (none, s) => .ok none s

/-- `expression_statement`. -/
def expression_statement (semicolon_required : Bool) (fuel : Nat) (s : PState) :
    PRes (Option expression_statement_node) :=
match fuel with
| 0 => .oof
| fuel + 1 =>
  match expression fuel s with
  | .oof => .oof
  | .ok none s => .ok none s
  | .ok (some e) s =>
    let (t, s) := currS s
    if semicolon_required && !(t.type == lexeme.Semicolon) then
      let s := errorS s "expression-statement does not end with semicolon"
      .ok none s
    else
      let (t2, s) := currS s
      if t2.type == lexeme.Semicolon then
        .ok (some (expression_statement_node.mk (some e))) (next s)
      else
        .ok (some (expression_statement_node.mk (some e))) s

/-- The passing-style block of `parameter_declaration` (its first `if`
chain): one of `in/inout/out/move/forward` as an identifier is consumed,
anything else leaves the default `in`. -/
def param_pass (t : token) (s : PState) : passing_style × PState :=
  if t.type == lexeme.Identifier then
    if t.text == "in" then (passing_style.in_, next s)
    else if t.text == "inout" then (passing_style.inout, next s)
    else if t.text == "out" then (passing_style.out, next s)
    else if t.text == "move" then (passing_style.move, next s)
    else if t.text == "forward" then (passing_style.forward, next s)
    else (passing_style.in_, s)
  else (passing_style.in_, s)

/-- The this-specifier block of `parameter_declaration` (its second `if`
chain). -/
def param_mod (t : token) (s : PState) : param_modifier × PState :=
  if t.type == lexeme.Identifier then
    if t.text == "implicit" then (param_modifier.implicit, next s)
    else if t.text == "virtual" then (param_modifier.virtual_, next s)
    else if t.text == "override" then (param_modifier.override_, next s)
    else if t.text == "final" then (param_modifier.final_, next s)
    else (param_modifier.none, s)
  else (param_modifier.none, s)

/- The mutually recursive statement and declaration productions. -/

mutual

/-- `selection_statement`. -/
def selection_statement (fuel : Nat) (s : PState) : PRes (Option selection_statement_node) :=
match fuel with
| 0 => .oof
| fuel + 1 =>
  let (t, s) := currS s
  if !(t.type == lexeme.Keyword && t.text == "if") then .ok none s
  else
    let idtok := t
    let s := next s
    let (t2, s) := currS s
    let (isce, s) :=
      if t2.type == lexeme.Keyword && t2.text == "constexpr" then (true, next s)
      else (false, s)
    match expression fuel s with
    | .oof => .oof
    | .ok none s =>
      let s := errorS s "invalid if condition"
      .ok none s
    | .ok (some e) s =>
      match compound_statement fuel s with
      | .oof => .oof
      | .ok none s =>
        let s := errorS s "invalid if branch body"
        .ok none s
      | .ok (some tb) s =>
        let (t3, s) := currS s
        if !(t3.type == lexeme.Keyword && t3.text == "else") then
          .ok (some (selection_statement_node.mk isce idtok (some e) (some tb)
                (some (compound_statement_node.mk ⟨0, 0⟩ [])))) s
        else
          let s := next s
          match compound_statement fuel s with
          | .oof => .oof
          | .ok none s =>
            let s := errorS s "invalid else branch body"
            .ok none s
          | .ok (some fb) s =>
            .ok (some (selection_statement_node.mk isce idtok (some e) (some tb) (some fb))) s

/-- `statement`: dispatch order selection, compound, declaration,
expression-statement; attempts are tried from wherever the previous
attempt left the cursor. -/
def statement (semicolon_required : Bool) (fuel : Nat) (s : PState) :
    PRes (Option statement_node) :=
match fuel with
| 0 => .oof
| fuel + 1 =>
  match selection_statement fuel s with
  | .oof => .oof
  | .ok (some sel) s => .ok (some (statement_node.selection sel)) s
  | .ok none s =>
    match compound_statement fuel s with
    | .oof => .oof
    | .ok (some c) s => .ok (some (statement_node.compound c)) s
    | .ok none s =>
      match declaration true fuel s with
      | .oof => .oof
      | .ok (some d) s => .ok (some (statement_node.declaration d)) s
      | .ok none s =>
        match expression_statement semicolon_required fuel s with
        | .oof => .oof
        | .ok (some e) s => .ok (some (statement_node.expression e)) s
        | .ok none s => .ok none s

/-- The statement-seq loop of `compound_statement`: a failing inner
statement reports an error and aborts the whole compound (null). -/
def compound_tail (fuel : Nat) (s : PState) (pos0 : source_position)
    (acc : List statement_node) : PRes (Option compound_statement_node) :=
match fuel with
| 0 => .oof
| fuel + 1 =>
  let (t, s) := currS s
  if !(t.type == lexeme.RightBrace) then
    match statement true fuel s with
    | .oof => .oof
    | .ok none s =>
      let s := errorS s "invalid statement in compound-statement"
      .ok none s
    | .ok (some st) s => compound_tail fuel s pos0 (acc ++ [st])
  else
    .ok (some (compound_statement_node.mk pos0 acc)) (next s)

/-- `compound_statement`. -/
def compound_statement (fuel : Nat) (s : PState) : PRes (Option compound_statement_node) :=
match fuel with
| 0 => .oof
| fuel + 1 =>
  let (t, s) := currS s
  if !(t.type == lexeme.LeftBrace) then .ok none s
  else
    let s := next s
    compound_tail fuel s t.pos []

/-- `parameter_declaration`. -/
def parameter_declaration (fuel : Nat) (s : PState) :
    PRes (Option parameter_declaration_node) :=
match fuel with
| 0 => .oof
| fuel + 1 =>
  let (t0, s) := currS s
  let pos0 := t0.pos
  let (t1, s) := currS s
  let (pass, s) := param_pass t1 s
  let (t2, s) := currS s
  let (mod, s) := param_mod t2 s
  match declaration false fuel s with
  | .oof => .oof
  | .ok none s => .ok none s
  | .ok (some d) s =>
    .ok (some (parameter_declaration_node.mk pos0 pass mod (some d))) s

/-- The comma loop of `parameter_declaration_list`, together with the
closing-paren checks that follow it. -/
def pdl_tail (fuel : Nat) (s : PState) (openp : source_position)
    (acc : List parameter_declaration_node) :
    PRes (Option parameter_declaration_list_node) :=
match fuel with
| 0 => .oof
| fuel + 1 =>
  match parameter_declaration fuel s with
  | .oof => .oof
  | .ok none s =>
    let (t, s) := currS s
    if !(t.type == lexeme.RightParen) then
      let s := errorS s "invalid parameter list"
      .ok none (next s)
    else
      .ok (some (parameter_declaration_list_node.mk openp t.pos acc)) (next s)
  | .ok (some p) s =>
    let acc := acc ++ [p]
    let (t, s) := currS s
    if t.type == lexeme.RightParen then
      .ok (some (parameter_declaration_list_node.mk openp t.pos acc)) (next s)
    else if !(t.type == lexeme.Comma) then
      let s := errorS s "expected , in parameter list"
      .ok none s
    else
      pdl_tail fuel (next s) openp acc

/-- `parameter_declaration_list`. -/
def parameter_declaration_list (fuel : Nat) (s : PState) :
    PRes (Option parameter_declaration_list_node) :=
match fuel with
| 0 => .oof
| fuel + 1 =>
  let (t, s) := currS s
  if !(t.type == lexeme.LeftParen) then .ok none s
  else
    let s := next s
    pdl_tail fuel s t.pos []

/-- `declaration`: the only rewind is the missing-`:` lead failure (and
the no-consumption failure of the lead unqualified-id); the
missing-semicolon and ill-formed-initializer failures leave the cursor
advanced. -/
def declaration (semicolon_required : Bool) (fuel : Nat) (s : PState) :
    PRes (Option declaration_node) :=
match fuel with
| 0 => .oof
| fuel + 1 =>
  if doneB s then .ok none s
  else
    let start_pos := s.pos
    let (id, s) := unqualified_id s
    match id with
    | none => .ok none s
    | some id0 =>
      let (t, s) := currS s
      if !(t.type == lexeme.Colon) then .ok none { s with pos := start_pos }
      else
        let s := next s
        match parameter_declaration_list fuel s with
        | .oof => .oof
        | .ok (some l) s =>
          declaration_finish semicolon_required fuel id0 (declaration_type.function l) s
        | .ok none s =>
          match id_expression fuel s with
          | .oof => .oof
          | .ok (some ie) s =>
            declaration_finish semicolon_required fuel id0 (declaration_type.object ie) s
          | .ok none s =>
            declaration_finish semicolon_required fuel id0
              (declaration_type.object id_expression_node.empty) s

/-- The tail of `declaration` after `identifier :` and the optional type
have been parsed: the optional `=` initializer, or the semicolon
handling. -/
def declaration_finish (semicolon_required : Bool) (fuel : Nat)
    (id0 : unqualified_id_node) (ty : declaration_type) (s : PState) :
    PRes (Option declaration_node) :=
match fuel with
| 0 => .oof
| fuel + 1 =>
  let (t2, s) := currS s
  if t2.type == lexeme.Assignment then
    let s := next s
    match statement semicolon_required fuel s with
    | .oof => .oof
    | .ok none s =>
      let s := errorS s "ill-formed initializer"
      .ok none (next s)
    | .ok (some st) s =>
      .ok (some (declaration_node.mk (some id0) ty (some st))) s
  else
    let (t3, s) := currS s
    if t3.type == lexeme.Semicolon then
      .ok (some (declaration_node.mk (some id0) ty none)) (next s)
    else if semicolon_required then
      let s := errorS s "missing semicolon at end of declaration"
      .ok none s
    else
      .ok (some (declaration_node.mk (some id0) ty none)) s

end

/-- The declaration-seq loop of `translation_unit`. -/
def tu_tail (fuel : Nat) (s : PState) (acc : List declaration_node) :
    PRes (List declaration_node) :=
match fuel with
| 0 => .oof
| fuel + 1 =>
  match declaration true fuel s with
  | .oof => .oof
  | .ok none s => .ok acc s
  | .ok (some d) s => tu_tail fuel s (acc ++ [d])

/-- `translation_unit`. -/
def translation_unit (fuel : Nat) (s : PState) : PRes translation_unit_node :=
match fuel with
| 0 => .oof
| fuel + 1 =>
  match tu_tail fuel s [] with
  | .oof => .oof
  | .ok ds s => .ok (translation_unit_node.mk ds) s

/-- The state a `parse(tokens)` call starts from: cursor at 0, and (for a
freshly constructed parser) an empty error sink. -/
def initState (tokens : List token) : PState := ⟨tokens, 0, [], false⟩

/-- `parser::parse`: run `translation_unit`, then return false iff
end-of-input was not reached (reporting "unexpected text"); the returned
tree is the section's translation unit (a fresh parser's `parse_tree`
after the splice).  The final `PState` carries the error sink. -/
def parse (tokens : List token) (fuel : Nat) : PRes (Bool × translation_unit_node) :=
  match translation_unit fuel (initState tokens) with
  | .oof => .oof
  | .ok tu s =>
    if !(doneB s) then
      let s := errorS s "unexpected text at end of Cpp2 code section"
      .ok (false, tu) s
    else
      .ok (true, tu) s

/-!  Rendering the expression tree back to a fully grouped spelling.
A layer with a non-empty term list prints as `(head op t1 op t2 ...)`;
a layer with no terms prints as its head.  A null child (possible, since
the struct fields are nullable) prints as `<null>`.  This makes the
grouping imposed by the layered grammar directly readable. -/

mutual

/-- Render a primary expression. -/
def renderPrimary : primary_expression_node → String
  | .empty => "<empty>"
  | .identifier t => t.text
  | .expression_list l => "(" ++ renderExprList l ++ ")"

/-- Render an expression-list (comma separated). -/
def renderExprList : expression_list_node → String
  | .mk es => renderElTerms es

/-- Render expression-list terms. -/
def renderElTerms : List (passing_style × Option expression_node) → String
  | [] => ""
  | [(_, none)] => "<null>"
  | [(_, some e)] => renderExpr e
  | (_, none) :: rest => "<null>" ++ ", " ++ renderElTerms rest
  | (_, some e) :: rest => renderExpr e ++ ", " ++ renderElTerms rest

/-- Render a postfix expression. -/
def renderPostfix : postfix_expression_node → String
  | .mk none _ => "<null>"
  | .mk (some p) ops => renderPrimary p ++ renderPostfixOps ops

/-- Render the postfix terms. -/
def renderPostfixOps : List (token × Option expression_list_node) → String
  | [] => ""
  | (op, none) :: rest => op.text ++ renderPostfixOps rest
  | (op, some l) :: rest => op.text ++ renderExprList l ++ op.text ++ renderPostfixOps rest

/-- Render a prefix expression. -/
def renderPrefix : prefix_expression_node → String
  | .mk ops none => String.join (ops.map token.text) ++ "<null>"
  | .mk ops (some pe) => String.join (ops.map token.text) ++ renderPostfix pe

/-- Render the is-as layer. -/
def renderIsAs : is_as_expression_node → String
  | .mk none _ => "<null>"
  | .mk (some h) [] => renderPrefix h
  | .mk (some h) ts => "(" ++ renderPrefix h ++ renderIsAsTerms ts ++ ")"

/-- Render is-as terms. -/
def renderIsAsTerms : List (token × Option prefix_expression_node) → String
  | [] => ""
  | (op, none) :: rest => " " ++ op.text ++ " " ++ "<null>" ++ renderIsAsTerms rest
  | (op, some e) :: rest => " " ++ op.text ++ " " ++ renderPrefix e ++ renderIsAsTerms rest

/-- Render the multiplicative layer. -/
def renderMultiplicative : multiplicative_expression_node → String
  | .mk none _ => "<null>"
  | .mk (some h) [] => renderIsAs h
  | .mk (some h) ts => "(" ++ renderIsAs h ++ renderMultiplicativeTerms ts ++ ")"

/-- Render multiplicative terms. -/
def renderMultiplicativeTerms : List (token × Option is_as_expression_node) → String
  | [] => ""
  | (op, none) :: rest => " " ++ op.text ++ " " ++ "<null>" ++ renderMultiplicativeTerms rest
  | (op, some e) :: rest => " " ++ op.text ++ " " ++ renderIsAs e ++ renderMultiplicativeTerms rest

/-- Render the additive layer. -/
def renderAdditive : additive_expression_node → String
  | .mk none _ => "<null>"
  | .mk (some h) [] => renderMultiplicative h
  | .mk (some h) ts => "(" ++ renderMultiplicative h ++ renderAdditiveTerms ts ++ ")"

/-- Render additive terms. -/
def renderAdditiveTerms : List (token × Option multiplicative_expression_node) → String
  | [] => ""
  | (op, none) :: rest => " " ++ op.text ++ " " ++ "<null>" ++ renderAdditiveTerms rest
  | (op, some e) :: rest => " " ++ op.text ++ " " ++ renderMultiplicative e ++ renderAdditiveTerms rest

/-- Render the shift layer. -/
def renderShift : shift_expression_node → String
  | .mk none _ => "<null>"
  | .mk (some h) [] => renderAdditive h
  | .mk (some h) ts => "(" ++ renderAdditive h ++ renderShiftTerms ts ++ ")"

/-- Render shift terms. -/
def renderShiftTerms : List (token × Option additive_expression_node) → String
  | [] => ""
  | (op, none) :: rest => " " ++ op.text ++ " " ++ "<null>" ++ renderShiftTerms rest
  | (op, some e) :: rest => " " ++ op.text ++ " " ++ renderAdditive e ++ renderShiftTerms rest

/-- Render the compare layer. -/
def renderCompare : compare_expression_node → String
  | .mk none _ => "<null>"
  | .mk (some h) [] => renderShift h
  | .mk (some h) ts => "(" ++ renderShift h ++ renderCompareTerms ts ++ ")"

/-- Render compare terms. -/
def renderCompareTerms : List (token × Option shift_expression_node) → String
  | [] => ""
  | (op, none) :: rest => " " ++ op.text ++ " " ++ "<null>" ++ renderCompareTerms rest
  | (op, some e) :: rest => " " ++ op.text ++ " " ++ renderShift e ++ renderCompareTerms rest

/-- Render the relational layer. -/
def renderRelational : relational_expression_node → String
  | .mk none _ => "<null>"
  | .mk (some h) [] => renderCompare h
  | .mk (some h) ts => "(" ++ renderCompare h ++ renderRelationalTerms ts ++ ")"

/-- Render relational terms. -/
def renderRelationalTerms : List (token × Option compare_expression_node) → String
  | [] => ""
  | (op, none) :: rest => " " ++ op.text ++ " " ++ "<null>" ++ renderRelationalTerms rest
  | (op, some e) :: rest => " " ++ op.text ++ " " ++ renderCompare e ++ renderRelationalTerms rest

/-- Render the equality layer. -/
def renderEquality : equality_expression_node → String
  | .mk none _ => "<null>"
  | .mk (some h) [] => renderRelational h
  | .mk (some h) ts => "(" ++ renderRelational h ++ renderEqualityTerms ts ++ ")"

/-- Render equality terms. -/
def renderEqualityTerms : List (token × Option relational_expression_node) → String
  | [] => ""
  | (op, none) :: rest => " " ++ op.text ++ " " ++ "<null>" ++ renderEqualityTerms rest
  | (op, some e) :: rest => " " ++ op.text ++ " " ++ renderRelational e ++ renderEqualityTerms rest

/-- Render the logical-and layer. -/
def renderLogicalAnd : logical_and_expression_node → String
  | .mk none _ => "<null>"
  | .mk (some h) [] => renderEquality h
  | .mk (some h) ts => "(" ++ renderEquality h ++ renderLogicalAndTerms ts ++ ")"

/-- Render logical-and terms. -/
def renderLogicalAndTerms : List (token × Option equality_expression_node) → String
  | [] => ""
  | (op, none) :: rest => " " ++ op.text ++ " " ++ "<null>" ++ renderLogicalAndTerms rest
  | (op, some e) :: rest => " " ++ op.text ++ " " ++ renderEquality e ++ renderLogicalAndTerms rest

/-- Render the logical-or layer. -/
def renderLogicalOr : logical_or_expression_node → String
  | .mk none _ => "<null>"
  | .mk (some h) [] => renderLogicalAnd h
  | .mk (some h) ts => "(" ++ renderLogicalAnd h ++ renderLogicalOrTerms ts ++ ")"

/-- Render logical-or terms. -/
def renderLogicalOrTerms : List (token × Option logical_and_expression_node) → String
  | [] => ""
  | (op, none) :: rest => " " ++ op.text ++ " " ++ "<null>" ++ renderLogicalOrTerms rest
  | (op, some e) :: rest => " " ++ op.text ++ " " ++ renderLogicalAnd e ++ renderLogicalOrTerms rest

/-- Render the assignment layer. -/
def renderAssignment : assignment_expression_node → String
  | .mk none _ => "<null>"
  | .mk (some h) [] => renderLogicalOr h
  | .mk (some h) ts => "(" ++ renderLogicalOr h ++ renderAssignmentTerms ts ++ ")"

/-- Render assignment terms. -/
def renderAssignmentTerms : List (token × Option logical_or_expression_node) → String
  | [] => ""
  | (op, none) :: rest => " " ++ op.text ++ " " ++ "<null>" ++ renderAssignmentTerms rest
  | (op, some e) :: rest => " " ++ op.text ++ " " ++ renderLogicalOr e ++ renderAssignmentTerms rest

/-- Render a full expression. -/
def renderExpr : expression_node → String
  | .mk none => "<null>"
  | .mk (some a) => renderAssignment a

end

/-!  The visitor protocol.  A visitor only ever observes the sequence of
`start(node, depth)`, `end(node, depth)` and `start(token, depth)` calls
that `visit` performs, so the protocol is modelled by the trace of those
calls; each node kind is tagged with the name its printing visitor uses.
A `visit` through a null child on which the source `assert`s is modelled
as producing no events for that child (the assert would have fired). -/
inductive VEvent where
  | start (tag : String) (depth : Nat) : VEvent
  | fin (tag : String) (depth : Nat) : VEvent
  | tok (text : String) (depth : Nat) : VEvent
deriving DecidableEq, Repr

/-- `token::visit`: tokens get a `start` call and no `end`. -/
def token.visit (t : token) (depth : Nat) : List VEvent := [.tok t.text depth]

/-- `unqualified_id_node::visit`. -/
def unqualified_id_node.visit : unqualified_id_node → Nat → List VEvent
  | .mk t, depth =>
    [.start "unqualified-id" depth] ++ token.visit t (depth + 1) ++ [.fin "unqualified-id" depth]

/-- The child loop of `qualified_id_node::visit`. -/
def qualified_id_list_visit : List unqualified_id_node → Nat → List VEvent
  | [], _ => []
  | x :: rest, depth => x.visit (depth + 1) ++ qualified_id_list_visit rest depth

/-- `qualified_id_node::visit`. -/
def qualified_id_node.visit : qualified_id_node → Nat → List VEvent
  | .mk ids, depth =>
    [.start "qualified-id" depth] ++ qualified_id_list_visit ids depth ++ [.fin "qualified-id" depth]

/-- `id_expression_node::visit`: the active variant alternative is visited
through the `visit<I>(v, depth)` helper, which descends at `depth + 1`. -/
def id_expression_node.visit : id_expression_node → Nat → List VEvent
  | .empty, depth => [.start "id-expression" depth, .fin "id-expression" depth]
  | .qualified q, depth =>
    [.start "id-expression" depth] ++ q.visit (depth + 1) ++ [.fin "id-expression" depth]
  | .unqualified u, depth =>
    [.start "id-expression" depth] ++ u.visit (depth + 1) ++ [.fin "id-expression" depth]

mutual

/-- `primary_expression_node::visit` (the variant helper descends at
`depth + 1` from the passed `depth`). -/
def primary_expression_node.visit : primary_expression_node → Nat → List VEvent
  | .empty, depth => [.start "primary-expression" depth, .fin "primary-expression" depth]
  | .identifier t, depth =>
    [.start "primary-expression" depth] ++ token.visit t (depth + 1) ++
      [.fin "primary-expression" depth]
  | .expression_list l, depth =>
    [.start "primary-expression" depth] ++ expression_list_node.visit l (depth + 1) ++
      [.fin "primary-expression" depth]

/-- `expression_list_node::visit`. -/
def expression_list_node.visit : expression_list_node → Nat → List VEvent
  | .mk es, depth =>
    [.start "expression-list" depth] ++ expression_list_terms_visit es depth ++
      [.fin "expression-list" depth]

/-- The term loop of `expression_list_node::visit` (each term's
expression is asserted non-null, then visited at `depth + 1`). -/
def expression_list_terms_visit :
    List (passing_style × Option expression_node) → Nat → List VEvent
  | [], _ => []
  | (_, none) :: rest, depth => expression_list_terms_visit rest depth
  | (_, some e) :: rest, depth =>
    expression_node.visit e (depth + 1) ++ expression_list_terms_visit rest depth

/-- `postfix_expression_node::visit`. -/
def postfix_expression_node.visit : postfix_expression_node → Nat → List VEvent
  | .mk none ops, depth =>
    [.start "postfix-expression" depth] ++ postfix_ops_visit ops depth ++
      [.fin "postfix-expression" depth]
  | .mk (some p) ops, depth =>
    [.start "postfix-expression" depth] ++ p.visit (depth + 1) ++
      postfix_ops_visit ops depth ++ [.fin "postfix-expression" depth]

/-- The term loop of `postfix_expression_node::visit`: the operator token
gets a `start` at `depth + 1`; a present expression-list is visited at
`depth + 1`. -/
def postfix_ops_visit : List (token × Option expression_list_node) → Nat → List VEvent
  | [], _ => []
  | (op, none) :: rest, depth => token.visit op (depth + 1) ++ postfix_ops_visit rest depth
  | (op, some l) :: rest, depth =>
    token.visit op (depth + 1) ++ expression_list_node.visit l (depth + 1) ++
      postfix_ops_visit rest depth

/-- `prefix_expression_node::visit`. -/
def prefix_expression_node.visit : prefix_expression_node → Nat → List VEvent
  | .mk ops none, depth =>
    [.start "prefix-expression" depth] ++ prefix_ops_visit ops depth ++
      [.fin "prefix-expression" depth]
  | .mk ops (some pe), depth =>
    [.start "prefix-expression" depth] ++ prefix_ops_visit ops depth ++
      pe.visit (depth + 1) ++ [.fin "prefix-expression" depth]

/-- The operator loop of `prefix_expression_node::visit`. -/
def prefix_ops_visit : List token → Nat → List VEvent
  | [], _ => []
  | op :: rest, depth => token.visit op (depth + 1) ++ prefix_ops_visit rest depth

/-- `binary_expression_node<"is-as">::visit`: start, head at `depth + 1`,
then for each term the operator token and the term expression at
`depth + 1`, then end. -/
def is_as_expression_node.visit : is_as_expression_node → Nat → List VEvent
  | .mk none ts, depth =>
    [.start "is-as-expression" depth] ++ is_as_terms_visit ts depth ++
      [.fin "is-as-expression" depth]
  | .mk (some h) ts, depth =>
    [.start "is-as-expression" depth] ++ h.visit (depth + 1) ++
      is_as_terms_visit ts depth ++ [.fin "is-as-expression" depth]

/-- Term loop of the is-as layer's visit. -/
def is_as_terms_visit : List (token × Option prefix_expression_node) → Nat → List VEvent
  | [], _ => []
  | (op, none) :: rest, depth => token.visit op (depth + 1) ++ is_as_terms_visit rest depth
  | (op, some e) :: rest, depth =>
    token.visit op (depth + 1) ++ e.visit (depth + 1) ++ is_as_terms_visit rest depth

/-- `binary_expression_node<"multiplicative">::visit`. -/
def multiplicative_expression_node.visit : multiplicative_expression_node → Nat → List VEvent
  | .mk none ts, depth =>
    [.start "multiplicative-expression" depth] ++ multiplicative_terms_visit ts depth ++
      [.fin "multiplicative-expression" depth]
  | .mk (some h) ts, depth =>
    [.start "multiplicative-expression" depth] ++ h.visit (depth + 1) ++
      multiplicative_terms_visit ts depth ++ [.fin "multiplicative-expression" depth]

/-- Term loop of the multiplicative layer's visit. -/
def multiplicative_terms_visit : List (token × Option is_as_expression_node) → Nat → List VEvent
  | [], _ => []
  | (op, none) :: rest, depth =>
    token.visit op (depth + 1) ++ multiplicative_terms_visit rest depth
  | (op, some e) :: rest, depth =>
    token.visit op (depth + 1) ++ e.visit (depth + 1) ++ multiplicative_terms_visit rest depth

/-- `binary_expression_node<"additive">::visit`. -/
def additive_expression_node.visit : additive_expression_node → Nat → List VEvent
  | .mk none ts, depth =>
    [.start "additive-expression" depth] ++ additive_terms_visit ts depth ++
      [.fin "additive-expression" depth]
  | .mk (some h) ts, depth =>
    [.start "additive-expression" depth] ++ h.visit (depth + 1) ++
      additive_terms_visit ts depth ++ [.fin "additive-expression" depth]

/-- Term loop of the additive layer's visit. -/
def additive_terms_visit : List (token × Option multiplicative_expression_node) → Nat → List VEvent
  | [], _ => []
  | (op, none) :: rest, depth => token.visit op (depth + 1) ++ additive_terms_visit rest depth
  | (op, some e) :: rest, depth =>
    token.visit op (depth + 1) ++ e.visit (depth + 1) ++ additive_terms_visit rest depth

/-- `binary_expression_node<"shift">::visit`. -/
def shift_expression_node.visit : shift_expression_node → Nat → List VEvent
  | .mk none ts, depth =>
    [.start "shift-expression" depth] ++ shift_terms_visit ts depth ++
      [.fin "shift-expression" depth]
  | .mk (some h) ts, depth =>
    [.start "shift-expression" depth] ++ h.visit (depth + 1) ++
      shift_terms_visit ts depth ++ [.fin "shift-expression" depth]

/-- Term loop of the shift layer's visit. -/
def shift_terms_visit : List (token × Option additive_expression_node) → Nat → List VEvent
  | [], _ => []
  | (op, none) :: rest, depth => token.visit op (depth + 1) ++ shift_terms_visit rest depth
  | (op, some e) :: rest, depth =>
    token.visit op (depth + 1) ++ e.visit (depth + 1) ++ shift_terms_visit rest depth

/-- `binary_expression_node<"compare">::visit`. -/
def compare_expression_node.visit : compare_expression_node → Nat → List VEvent
  | .mk none ts, depth =>
    [.start "compare-expression" depth] ++ compare_terms_visit ts depth ++
      [.fin "compare-expression" depth]
  | .mk (some h) ts, depth =>
    [.start "compare-expression" depth] ++ h.visit (depth + 1) ++
      compare_terms_visit ts depth ++ [.fin "compare-expression" depth]

/-- Term loop of the compare layer's visit. -/
def compare_terms_visit : List (token × Option shift_expression_node) → Nat → List VEvent
  | [], _ => []
  | (op, none) :: rest, depth => token.visit op (depth + 1) ++ compare_terms_visit rest depth
  | (op, some e) :: rest, depth =>
    token.visit op (depth + 1) ++ e.visit (depth + 1) ++ compare_terms_visit rest depth

/-- `binary_expression_node<"relational">::visit`. -/
def relational_expression_node.visit : relational_expression_node → Nat → List VEvent
  | .mk none ts, depth =>
    [.start "relational-expression" depth] ++ relational_terms_visit ts depth ++
      [.fin "relational-expression" depth]
  | .mk (some h) ts, depth =>
    [.start "relational-expression" depth] ++ h.visit (depth + 1) ++
      relational_terms_visit ts depth ++ [.fin "relational-expression" depth]

/-- Term loop of the relational layer's visit. -/
def relational_terms_visit : List (token × Option compare_expression_node) → Nat → List VEvent
  | [], _ => []
  | (op, none) :: rest, depth => token.visit op (depth + 1) ++ relational_terms_visit rest depth
  | (op, some e) :: rest, depth =>
    token.visit op (depth + 1) ++ e.visit (depth + 1) ++ relational_terms_visit rest depth

/-- `binary_expression_node<"equality">::visit`. -/
def equality_expression_node.visit : equality_expression_node → Nat → List VEvent
  | .mk none ts, depth =>
    [.start "equality-expression" depth] ++ equality_terms_visit ts depth ++
      [.fin "equality-expression" depth]
  | .mk (some h) ts, depth =>
    [.start "equality-expression" depth] ++ h.visit (depth + 1) ++
      equality_terms_visit ts depth ++ [.fin "equality-expression" depth]

/-- Term loop of the equality layer's visit. -/
def equality_terms_visit : List (token × Option relational_expression_node) → Nat → List VEvent
  | [], _ => []
  | (op, none) :: rest, depth => token.visit op (depth + 1) ++ equality_terms_visit rest depth
  | (op, some e) :: rest, depth =>
    token.visit op (depth + 1) ++ e.visit (depth + 1) ++ equality_terms_visit rest depth

/-- `binary_expression_node<"logical-and">::visit`. -/
def logical_and_expression_node.visit : logical_and_expression_node → Nat → List VEvent
  | .mk none ts, depth =>
    [.start "logical-and-expression" depth] ++ logical_and_terms_visit ts depth ++
      [.fin "logical-and-expression" depth]
  | .mk (some h) ts, depth =>
    [.start "logical-and-expression" depth] ++ h.visit (depth + 1) ++
      logical_and_terms_visit ts depth ++ [.fin "logical-and-expression" depth]

/-- Term loop of the logical-and layer's visit. -/
def logical_and_terms_visit : List (token × Option equality_expression_node) → Nat → List VEvent
  | [], _ => []
  | (op, none) :: rest, depth => token.visit op (depth + 1) ++ logical_and_terms_visit rest depth
  | (op, some e) :: rest, depth =>
    token.visit op (depth + 1) ++ e.visit (depth + 1) ++ logical_and_terms_visit rest depth

/-- `binary_expression_node<"logical-or">::visit`. -/
def logical_or_expression_node.visit : logical_or_expression_node → Nat → List VEvent
  | .mk none ts, depth =>
    [.start "logical-or-expression" depth] ++ logical_or_terms_visit ts depth ++
      [.fin "logical-or-expression" depth]
  | .mk (some h) ts, depth =>
    [.start "logical-or-expression" depth] ++ h.visit (depth + 1) ++
      logical_or_terms_visit ts depth ++ [.fin "logical-or-expression" depth]

/-- Term loop of the logical-or layer's visit. -/
def logical_or_terms_visit : List (token × Option logical_and_expression_node) → Nat → List VEvent
  | [], _ => []
  | (op, none) :: rest, depth => token.visit op (depth + 1) ++ logical_or_terms_visit rest depth
  | (op, some e) :: rest, depth =>
    token.visit op (depth + 1) ++ e.visit (depth + 1) ++ logical_or_terms_visit rest depth

/-- `binary_expression_node<"assignment">::visit`. -/
def assignment_expression_node.visit : assignment_expression_node → Nat → List VEvent
  | .mk none ts, depth =>
    [.start "assignment-expression" depth] ++ assignment_terms_visit ts depth ++
      [.fin "assignment-expression" depth]
  | .mk (some h) ts, depth =>
    [.start "assignment-expression" depth] ++ h.visit (depth + 1) ++
      assignment_terms_visit ts depth ++ [.fin "assignment-expression" depth]

/-- Term loop of the assignment layer's visit. -/
def assignment_terms_visit : List (token × Option logical_or_expression_node) → Nat → List VEvent
  | [], _ => []
  | (op, none) :: rest, depth => token.visit op (depth + 1) ++ assignment_terms_visit rest depth
  | (op, some e) :: rest, depth =>
    token.visit op (depth + 1) ++ e.visit (depth + 1) ++ assignment_terms_visit rest depth

/-- `expression_node::visit`. -/
def expression_node.visit : expression_node → Nat → List VEvent
  | .mk none, depth => [.start "expression" depth, .fin "expression" depth]
  | .mk (some a), depth =>
    [.start "expression" depth] ++ a.visit (depth + 1) ++ [.fin "expression" depth]

end

/-- `expression_statement_node::visit`. -/
def expression_statement_node.visit : expression_statement_node → Nat → List VEvent
  | .mk none, depth => [.start "expression-statement" depth, .fin "expression-statement" depth]
  | .mk (some e), depth =>
    [.start "expression-statement" depth] ++ e.visit (depth + 1) ++
      [.fin "expression-statement" depth]

mutual

/-- `statement_node::visit` (the variant helper descends at `depth + 1`
from the passed `depth`). -/
def statement_node.visit : statement_node → Nat → List VEvent
  | .expression e, depth =>
    [.start "statement" depth] ++ e.visit (depth + 1) ++ [.fin "statement" depth]
  | .compound c, depth =>
    [.start "statement" depth] ++ compound_statement_node.visit c (depth + 1) ++
      [.fin "statement" depth]
  | .selection sel, depth =>
    [.start "statement" depth] ++ selection_statement_node.visit sel (depth + 1) ++
      [.fin "statement" depth]
  | .declaration d, depth =>
    [.start "statement" depth] ++ declaration_node.visit d (depth + 1) ++
      [.fin "statement" depth]

/-- `compound_statement_node::visit`. -/
def compound_statement_node.visit : compound_statement_node → Nat → List VEvent
  | .mk _ sts, depth =>
    [.start "compound-statement" depth] ++ statements_visit sts depth ++
      [.fin "compound-statement" depth]

/-- The statement loop of `compound_statement_node::visit`. -/
def statements_visit : List statement_node → Nat → List VEvent
  | [], _ => []
  | st :: rest, depth => statement_node.visit st (depth + 1) ++ statements_visit rest depth

/-- `selection_statement_node::visit`: the `if` token, the condition, the
true branch at `depth + 1`; the false branch (visited only if non-null)
also at `depth + 1`.  The asserted-non-null children produce no events
when null (the assert would have fired). -/
def selection_statement_node.visit : selection_statement_node → Nat → List VEvent
  | .mk _ idtok e tb fb, depth =>
    [.start "selection-statement" depth] ++ token.visit idtok (depth + 1) ++
      (match e with | none => [] | some e0 => e0.visit (depth + 1)) ++
      (match tb with | none => [] | some t0 => compound_statement_node.visit t0 (depth + 1)) ++
      (match fb with | none => [] | some f0 => compound_statement_node.visit f0 (depth + 1)) ++
      [.fin "selection-statement" depth]

/-- `declaration_node::visit`: the identifier is visited at `depth + 1`;
the type variant goes through `visit<I>(v, depth + 1)` whose body descends
at one more level, so the type child is visited at `depth + 2`; a present
initializer is visited at `depth + 1`. -/
def declaration_node.visit : declaration_node → Nat → List VEvent
  | .mk id ty init, depth =>
    [.start "declaration" depth] ++
      (match id with | none => [] | some u => u.visit (depth + 1)) ++
      (match ty with
       | .function l => parameter_declaration_list_node.visit l (depth + 2)
       | .object i => i.visit (depth + 2)) ++
      (match init with | none => [] | some st => statement_node.visit st (depth + 1)) ++
      [.fin "declaration" depth]

/-- `parameter_declaration_node::visit`. -/
def parameter_declaration_node.visit : parameter_declaration_node → Nat → List VEvent
  | .mk _ _ _ d, depth =>
    [.start "parameter-declaration" depth] ++
      (match d with | none => [] | some d0 => declaration_node.visit d0 (depth + 1)) ++
      [.fin "parameter-declaration" depth]

/-- `parameter_declaration_list_node::visit`. -/
def parameter_declaration_list_node.visit : parameter_declaration_list_node → Nat → List VEvent
  | .mk _ _ ps, depth =>
    [.start "parameter-declaration-list" depth] ++ parameters_visit ps depth ++
      [.fin "parameter-declaration-list" depth]

/-- The parameter loop of `parameter_declaration_list_node::visit`. -/
def parameters_visit : List parameter_declaration_node → Nat → List VEvent
  | [], _ => []
  | p :: rest, depth => parameter_declaration_node.visit p (depth + 1) ++ parameters_visit rest depth

end

/-- The declaration loop of `translation_unit_node::visit`. -/
def declarations_visit : List declaration_node → Nat → List VEvent
  | [], _ => []
  | d :: rest, depth => d.visit (depth + 1) ++ declarations_visit rest depth

/-- `translation_unit_node::visit`. -/
def translation_unit_node.visit : translation_unit_node → Nat → List VEvent
  | .mk ds, depth =>
    [.start "translation-unit" depth] ++ declarations_visit ds depth ++
      [.fin "translation-unit" depth]

/-!  Concrete token sequences used as test inputs.  All tokens sit on
line 1; the column is the position in the source line. -/

/-- Build a token on line 1. -/
def mkTok (ty : lexeme) (text : String) (c : Nat) : token := ⟨ty, text, ⟨1, c⟩⟩

/-- An identifier token. -/
def tId (s : String) (c : Nat) : token := mkTok lexeme.Identifier s c

/-- A keyword token. -/
def tKw (s : String) (c : Nat) : token := mkTok lexeme.Keyword s c

/-- `x : int = a + ;` — the trailing `+` has no operand, so a diagnostic
is reported, yet the cursor reaches end-of-input. -/
def toks_error_but_done : List token :=
  [tId "x" 1, mkTok lexeme.Colon ":" 3, tKw "int" 5, mkTok lexeme.Assignment "=" 9,
   tId "a" 11, mkTok lexeme.Plus "+" 13, mkTok lexeme.Semicolon ";" 15]

/-- A single identifier: `x`. -/
def toks_single_identifier : List token := [tId "x" 1]

/-- `a , )` — an expression-list whose post-comma expression fails. -/
def toks_trailing_comma : List token :=
  [tId "a" 1, mkTok lexeme.Comma "," 2, mkTok lexeme.RightParen ")" 3]

/-- `x : int = a + b * c ;` — initializer mixing precedence levels. -/
def toks_mixed_prec : List token :=
  [tId "x" 1, mkTok lexeme.Colon ":" 3, tKw "int" 5, mkTok lexeme.Assignment "=" 9,
   tId "a" 11, mkTok lexeme.Plus "+" 13, tId "b" 15, mkTok lexeme.Multiply "*" 17,
   tId "c" 19, mkTok lexeme.Semicolon ";" 21]

/-- `x : int ;` — a plain object declaration. -/
def toks_x_int_semi : List token :=
  [tId "x" 1, mkTok lexeme.Colon ":" 3, tKw "int" 5, mkTok lexeme.Semicolon ";" 9]

/-- `if a { }` — selection statement without an `else`. -/
def toks_if : List token :=
  [tKw "if" 1, tId "a" 4, mkTok lexeme.LeftBrace "\x7b" 6, mkTok lexeme.RightBrace "\x7d" 8]

/-- `if a { } else { }` — selection statement with an `else`. -/
def toks_if_else : List token :=
  toks_if ++ [tKw "else" 10, mkTok lexeme.LeftBrace "\x7b" 15, mkTok lexeme.RightBrace "\x7d" 17]

/-- `a . b` — a postfix dot followed by an identifier. -/
def toks_dot : List token :=
  [tId "a" 1, mkTok lexeme.Dot "." 2, tId "b" 3]

/-- `a :: +` — a qualified-id whose `::` is followed by junk. -/
def toks_scope_junk : List token :=
  [tId "a" 1, mkTok lexeme.Scope "::" 2, mkTok lexeme.Plus "+" 4]

/-- `a +` — a failing qualified-id lead (no `::` after the id). -/
def toks_id_plus : List token :=
  [tId "a" 1, mkTok lexeme.Plus "+" 3]

/-- A one-token state for the `peek` claims. -/
def s_single : PState := initState [tId "a" 1]

/-!  Executable projections of parse results, used to state concrete
facts about runs of the parser. -/

/-- The boolean `parse` returned, when it completed. -/
def parse_returned : PRes (Bool × translation_unit_node) → Option Bool
  | .ok (b, _) _ => some b
  | .oof => none

/-- How many diagnostics the error sink holds after `parse`. -/
def parse_error_count : PRes (Bool × translation_unit_node) → Option Nat
  | .ok _ s => some s.errors.length
  | .oof => none

/-- Whether `curr()` was ever invoked at end-of-input during `parse`. -/
def parse_curr_end : PRes (Bool × translation_unit_node) → Option Bool
  | .ok _ s => some s.curr_end
  | .oof => none

/-- Render of the sole declaration's expression-statement initializer. -/
def parse_init_render : PRes (Bool × translation_unit_node) → Option String
  | .ok (_, tu) _ =>
    match tu.declarations with
    | [d] =>
      match d.initializer with
      | some (statement_node.expression (expression_statement_node.mk (some e))) =>
        some (renderExpr e)
      | _ => none
    | _ => none
  | .oof => none

/-- The visit trace of the first parsed declaration, started at depth 0. -/
def parse_first_decl_trace : PRes (Bool × translation_unit_node) → List VEvent
  | .ok (_, tu) _ =>
    match tu.declarations with
    | d :: _ => d.visit 0
    | [] => []
  | .oof => []

/-- Presence (`isSome`) of each term's expression in a returned
expression-list. -/
def el_terms_present : PRes (Option expression_list_node) → Option (List Bool)
  | .ok (some (.mk es)) _ =>
    some (es.map (fun (p : passing_style × Option expression_node) => p.2.isSome))
  | _ => none

/-- The false-branch of a returned selection statement. -/
def sel_false_branch : PRes (Option selection_statement_node) →
    Option (Option compound_statement_node)
  | .ok (some n) _ => some n.false_branch
  | _ => none

/-- Operator spellings with expression-list presence, and the final cursor
position, of a returned postfix expression. -/
def pf_ops_and_pos : PRes (Option postfix_expression_node) →
    Option (List (String × Bool) × Nat)
  | .ok (some n) s =>
    some (n.ops.map (fun (p : token × Option expression_list_node) =>
      (p.1.text, p.2.isSome)), s.pos)
  | _ => none

/-- Final cursor position and diagnostic count of a failed qualified-id. -/
def qid_fail_state : PRes (Option qualified_id_node) → Option (Nat × Nat)
  | .ok none s => some (s.pos, s.errors.length)
  | _ => none

/-- The cursor position a completed `parse` ends at. -/
def parse_final_pos : PRes (Bool × translation_unit_node) → Option Nat
  | .ok _ s => some s.pos
  | .oof => none

/-- Whether every `.` postfix operator of a returned postfix expression
carries a null expression-list. -/
def pf_dot_null : PRes (Option postfix_expression_node) → Option Bool
  | .ok (some n) _ =>
    some (n.ops.all (fun (p : token × Option expression_list_node) =>
      !(p.1.type == lexeme.Dot) || p.2.isNone))
  | _ => none


/-- What every production preserves or grows: a completed call leaves the
token sequence unchanged, moves the cursor forward but never past the end,
and only appends diagnostics. -/
def stateLe (s s' : PState) : Prop :=
  s'.tokens = s.tokens ∧ s.pos ≤ s'.pos ∧ s'.pos ≤ s'.tokens.length ∧
    s.errors.length ≤ s'.errors.length

/-- `stateLe` is reflexive on in-range states. -/
theorem stateLe_refl {s : PState} (h : s.pos ≤ s.tokens.length) : stateLe s s :=
  ⟨rfl, le_refl _, h, le_refl _⟩

/-- `stateLe` composes. -/
theorem stateLe_trans {a b c : PState} (h1 : stateLe a b) (h2 : stateLe b c) : stateLe a c := by
  obtain ⟨t1, p1, l1, e1⟩ := h1
  obtain ⟨t2, p2, l2, e2⟩ := h2
  exact ⟨t2.trans t1, p1.trans p2, l2, e1.trans e2⟩

/-- A `curr()` call only touches the instrumentation flag. -/
theorem currFlag_fields (s : PState) :
    (currFlag s).tokens = s.tokens ∧ (currFlag s).pos = s.pos ∧
    (currFlag s).errors = s.errors := by
  unfold currFlag; split <;> exact ⟨rfl, rfl, rfl⟩

/-- Composition through a `curr()` call. -/
theorem stateLe_currFlag {a s : PState} (h : stateLe a s) : stateLe a (currFlag s) := by
  obtain ⟨t, p, l, e⟩ := h
  obtain ⟨t2, p2, e2⟩ := currFlag_fields s
  exact ⟨t2.trans t, p2 ▸ p, by rw [t2, p2]; exact l, e2 ▸ e⟩

/-- Composition through `next()`. -/
theorem stateLe_next {a s : PState} (h : stateLe a s) : stateLe a (next s) := by
  obtain ⟨t, p, l, e⟩ := h
  refine ⟨t, ?_, ?_, e⟩
  · exact p.trans (le_min (Nat.le_succ _) l)
  · exact min_le_right _ _

/-- Composition through `error(msg)`. -/
theorem stateLe_errorS {a s : PState} (msg : String) (h : stateLe a s) :
    stateLe a (errorS s msg) := by
  obtain ⟨t, p, l, e⟩ := h
  obtain ⟨t2, p2, e2⟩ := currFlag_fields s
  unfold errorS currS
  refine ⟨t2.trans t, p2 ▸ p, by simp [t2, p2]; exact l, ?_⟩
  simp [e2]
  omega

/-- Composition through a backtrack `pos = start_pos`. -/
theorem stateLe_backtrack {a s : PState} (h : stateLe a s) :
    stateLe a { s with pos := a.pos } := by
  obtain ⟨t, p, l, e⟩ := h
  exact ⟨t, le_refl _, p.trans l, e⟩

/-- Composition through `if b then errorS s msg else s`. -/
theorem stateLe_condError {a s : PState} {b : Bool} {msg : String}
    (h : stateLe a s) : stateLe a (if b = true then errorS s msg else s) := by
  split
  · exact stateLe_errorS _ h
  · exact h

/-- Composition through the passing-style pair construction
`(if b then (p, next s) else (q, s)).2`. -/
theorem stateLe_sndPassIf {a s : PState} {b : Bool} {p q : passing_style}
    (h : stateLe a s) :
    stateLe a (((if b = true then (p, next s) else (q, s)) : passing_style × PState).2) := by
  split
  · exact stateLe_next h
  · exact h

/-- `unqualified_id` is monotone. -/
theorem unqualified_id_mono {a s : PState} (h : stateLe a s) :
    stateLe a (unqualified_id s).2 := by
  unfold unqualified_id
  simp only [currS]
  split
  · exact stateLe_currFlag h
  · exact stateLe_next (stateLe_currFlag h)


/-- Monotonicity of every expression-grammar production: a completed
call leaves the token sequence unchanged, moves the cursor forward but
not past the end, and only appends diagnostics. -/
theorem expr_mono : ∀ fuel : Nat,
    (∀ s, s.pos ≤ s.tokens.length → ∀ r s', primary_expression fuel s = .ok r s' → stateLe s s') ∧
    (∀ s acc, s.pos ≤ s.tokens.length → ∀ r s', postfix_tail fuel s acc = .ok r s' → stateLe s s') ∧
    (∀ s, s.pos ≤ s.tokens.length → ∀ r s', postfix_expression fuel s = .ok r s' → stateLe s s') ∧
    (∀ s acc, s.pos ≤ s.tokens.length → ∀ r s', prefix_ops fuel s acc = .ok r s' → stateLe s s') ∧
    (∀ s, s.pos ≤ s.tokens.length → ∀ r s', prefix_expression fuel s = .ok r s' → stateLe s s') ∧
    (∀ s acc, s.pos ≤ s.tokens.length → ∀ r s', is_as_terms fuel s acc = .ok r s' → stateLe s s') ∧
    (∀ s, s.pos ≤ s.tokens.length → ∀ r s', is_as_expression fuel s = .ok r s' → stateLe s s') ∧
    (∀ s acc, s.pos ≤ s.tokens.length → ∀ r s', multiplicative_terms fuel s acc = .ok r s' → stateLe s s') ∧
    (∀ s, s.pos ≤ s.tokens.length → ∀ r s', multiplicative_expression fuel s = .ok r s' → stateLe s s') ∧
    (∀ s acc, s.pos ≤ s.tokens.length → ∀ r s', additive_terms fuel s acc = .ok r s' → stateLe s s') ∧
    (∀ s, s.pos ≤ s.tokens.length → ∀ r s', additive_expression fuel s = .ok r s' → stateLe s s') ∧
    (∀ s acc, s.pos ≤ s.tokens.length → ∀ r s', shift_terms fuel s acc = .ok r s' → stateLe s s') ∧
    (∀ s, s.pos ≤ s.tokens.length → ∀ r s', shift_expression fuel s = .ok r s' → stateLe s s') ∧
    (∀ s acc, s.pos ≤ s.tokens.length → ∀ r s', compare_terms fuel s acc = .ok r s' → stateLe s s') ∧
    (∀ s, s.pos ≤ s.tokens.length → ∀ r s', compare_expression fuel s = .ok r s' → stateLe s s') ∧
    (∀ s acc, s.pos ≤ s.tokens.length → ∀ r s', relational_terms fuel s acc = .ok r s' → stateLe s s') ∧
    (∀ s, s.pos ≤ s.tokens.length → ∀ r s', relational_expression fuel s = .ok r s' → stateLe s s') ∧
    (∀ s acc, s.pos ≤ s.tokens.length → ∀ r s', equality_terms fuel s acc = .ok r s' → stateLe s s') ∧
    (∀ s, s.pos ≤ s.tokens.length → ∀ r s', equality_expression fuel s = .ok r s' → stateLe s s') ∧
    (∀ s acc, s.pos ≤ s.tokens.length → ∀ r s', logical_and_terms fuel s acc = .ok r s' → stateLe s s') ∧
    (∀ s, s.pos ≤ s.tokens.length → ∀ r s', logical_and_expression fuel s = .ok r s' → stateLe s s') ∧
    (∀ s acc, s.pos ≤ s.tokens.length → ∀ r s', logical_or_terms fuel s acc = .ok r s' → stateLe s s') ∧
    (∀ s, s.pos ≤ s.tokens.length → ∀ r s', logical_or_expression fuel s = .ok r s' → stateLe s s') ∧
    (∀ s acc, s.pos ≤ s.tokens.length → ∀ r s', assignment_terms fuel s acc = .ok r s' → stateLe s s') ∧
    (∀ s, s.pos ≤ s.tokens.length → ∀ r s', assignment_expression fuel s = .ok r s' → stateLe s s') ∧
    (∀ s, s.pos ≤ s.tokens.length → ∀ r s', expression fuel s = .ok r s' → stateLe s s') ∧
    (∀ s acc, s.pos ≤ s.tokens.length → ∀ r s', expression_list_tail fuel s acc = .ok r s' → stateLe s s') ∧
    (∀ s, s.pos ≤ s.tokens.length → ∀ r s', expression_list fuel s = .ok r s' → stateLe s s') := by
  intro fuel
  induction fuel with
  | zero =>
    refine ⟨?_, ?_, ?_, ?_, ?_, ?_, ?_, ?_, ?_, ?_, ?_, ?_, ?_, ?_, ?_, ?_, ?_, ?_, ?_, ?_, ?_, ?_, ?_, ?_, ?_, ?_, ?_, ?_⟩ <;>
      intros <;> simp_all [primary_expression, postfix_tail, postfix_expression, prefix_ops, prefix_expression, is_as_terms, is_as_expression, multiplicative_terms, multiplicative_expression, additive_terms, additive_expression, shift_terms, shift_expression, compare_terms, compare_expression, relational_terms, relational_expression, equality_terms, equality_expression, logical_and_terms, logical_and_expression, logical_or_terms, logical_or_expression, assignment_terms, assignment_expression, expression, expression_list_tail, expression_list]
  | succ fuel ih =>
    obtain ⟨ih1, ih2, ih3, ih4, ih5, ih6, ih7, ih8, ih9, ih10, ih11, ih12, ih13, ih14, ih15, ih16, ih17, ih18, ih19, ih20, ih21, ih22, ih23, ih24, ih25, ih26, ih27, ih28⟩ := ih
    refine ⟨?_, ?_, ?_, ?_, ?_, ?_, ?_, ?_, ?_, ?_, ?_, ?_, ?_, ?_, ?_, ?_, ?_, ?_, ?_, ?_, ?_, ?_, ?_, ?_, ?_, ?_, ?_, ?_⟩
    · -- primary_expression
      intro s hs r s' h
      rw [primary_expression] at h
      simp only [currS] at h
      have base : stateLe s (currFlag s) := stateLe_currFlag (stateLe_refl hs)
      split at h
      · cases h; exact stateLe_next base
      · split at h
        · cases hel : expression_list fuel (next (currFlag s)) with
          | oof => rw [hel] at h; exact PRes.noConfusion h
          | ok el s1 =>
            rw [hel] at h
            have le1 : stateLe s s1 :=
              stateLe_trans (stateLe_next base)
                (ih28 _ (stateLe_next base).2.2.1 _ _ hel)
            cases el with
            | none =>
              simp only at h
              cases h; exact stateLe_next (stateLe_errorS _ le1)
            | some l =>
              simp only [currS] at h
              split at h
              · cases h; exact stateLe_next (stateLe_errorS _ (stateLe_currFlag le1))
              · cases h; exact stateLe_next (stateLe_currFlag le1)
        · cases h; exact base
    · -- postfix_tail
      intro s acc hs r s' h
      rw [postfix_tail] at h
      simp only [currS] at h
      have base : stateLe s (next (currFlag s)) :=
        stateLe_next (stateLe_currFlag (stateLe_refl hs))
      split at h
      · split at h
        · -- LeftBracket
          cases hel : expression_list fuel (next (currFlag s)) with
          | oof => rw [hel] at h; exact PRes.noConfusion h
          | ok el s1 =>
            rw [hel] at h
            simp only at h
            have le1 : stateLe s s1 :=
              stateLe_trans base (ih28 _ base.2.2.1 _ _ hel)
            refine stateLe_trans ?_ (ih2 _ _ ?_ _ _ h)
            · exact stateLe_next (stateLe_condError (stateLe_currFlag (stateLe_condError le1)))
            · exact (stateLe_next (stateLe_condError (stateLe_currFlag (stateLe_condError le1)))).2.2.1
        · -- LeftParen
          cases hel : expression_list fuel (next (currFlag s)) with
          | oof => rw [hel] at h; exact PRes.noConfusion h
          | ok el s1 =>
            rw [hel] at h
            simp only at h
            have le1 : stateLe s s1 :=
              stateLe_trans base (ih28 _ base.2.2.1 _ _ hel)
            refine stateLe_trans ?_ (ih2 _ _ ?_ _ _ h)
            · exact stateLe_next (stateLe_condError (stateLe_currFlag le1))
            · exact (stateLe_next (stateLe_condError (stateLe_currFlag le1))).2.2.1
        · -- other postfix operator
          exact stateLe_trans base (ih2 _ _ base.2.2.1 _ _ h)
      · cases h; exact stateLe_currFlag (stateLe_refl hs)
    · -- postfix_expression
      intro s hs r s' h
      rw [postfix_expression] at h
      cases hp : primary_expression fuel s with
      | oof => rw [hp] at h; exact PRes.noConfusion h
      | ok p s1 =>
        rw [hp] at h
        have le1 : stateLe s s1 := ih1 _ hs _ _ hp
        cases p with
        | none => simp only at h; cases h; exact le1
        | some p0 =>
          simp only at h
          cases ht : postfix_tail fuel s1 [] with
          | oof => rw [ht] at h; exact PRes.noConfusion h
          | ok ops s2 =>
            rw [ht] at h; simp only at h; cases h
            exact stateLe_trans le1 (ih2 _ _ le1.2.2.1 _ _ ht)
    · -- prefix_ops
      intro s acc hs r s' h
      rw [prefix_ops] at h
      simp only [currS] at h
      split at h
      · have base : stateLe s (next (currFlag s)) :=
          stateLe_next (stateLe_currFlag (stateLe_refl hs))
        exact stateLe_trans base (ih4 _ _ base.2.2.1 _ _ h)
      · cases h; exact stateLe_currFlag (stateLe_refl hs)
    · -- prefix_expression
      intro s hs r s' h
      rw [prefix_expression] at h
      cases ho : prefix_ops fuel s [] with
      | oof => rw [ho] at h; exact PRes.noConfusion h
      | ok ops s1 =>
        rw [ho] at h; simp only at h
        have le1 : stateLe s s1 := ih4 _ _ hs _ _ ho
        cases hp : postfix_expression fuel s1 with
        | oof => rw [hp] at h; exact PRes.noConfusion h
        | ok pe s2 =>
          rw [hp] at h
          have le2 : stateLe s s2 := stateLe_trans le1 (ih3 _ le1.2.2.1 _ _ hp)
          cases pe with
          | none => simp only at h; cases h; exact le2
          | some pe0 => simp only at h; cases h; exact le2
    · -- is_as_terms
      intro s acc hs r s' h
      rw [is_as_terms] at h
      simp only [currS] at h
      split at h
      · have base : stateLe s (next (currFlag s)) :=
          stateLe_next (stateLe_currFlag (stateLe_refl hs))
        cases ht : prefix_expression fuel (next (currFlag s)) with
        | oof => rw [ht] at h; exact PRes.noConfusion h
        | ok e s1 =>
          rw [ht] at h
          have le1 : stateLe s s1 := stateLe_trans base (ih5 _ base.2.2.1 _ _ ht)
          cases e with
          | none => simp only at h; cases h; exact stateLe_errorS _ le1
          | some e0 =>
            simp only at h
            exact stateLe_trans le1 (ih6 _ _ le1.2.2.1 _ _ h)
      · cases h; exact stateLe_currFlag (stateLe_refl hs)
    · -- is_as_expression
      intro s hs r s' h
      rw [is_as_expression] at h
      cases ht : prefix_expression fuel s with
      | oof => rw [ht] at h; exact PRes.noConfusion h
      | ok hd s1 =>
        rw [ht] at h
        have le1 : stateLe s s1 := ih5 _ hs _ _ ht
        cases hd with
        | none => simp only at h; cases h; exact le1
        | some h0 =>
          simp only at h
          cases hts : is_as_terms fuel s1 [] with
          | oof => rw [hts] at h; exact PRes.noConfusion h
          | ok ts s2 =>
            rw [hts] at h; simp only at h; cases h
            exact stateLe_trans le1 (ih6 _ _ le1.2.2.1 _ _ hts)
    · -- multiplicative_terms
      intro s acc hs r s' h
      rw [multiplicative_terms] at h
      simp only [currS] at h
      split at h
      · have base : stateLe s (next (currFlag s)) :=
          stateLe_next (stateLe_currFlag (stateLe_refl hs))
        cases ht : is_as_expression fuel (next (currFlag s)) with
        | oof => rw [ht] at h; exact PRes.noConfusion h
        | ok e s1 =>
          rw [ht] at h
          have le1 : stateLe s s1 := stateLe_trans base (ih7 _ base.2.2.1 _ _ ht)
          cases e with
          | none => simp only at h; cases h; exact stateLe_errorS _ le1
          | some e0 =>
            simp only at h
            exact stateLe_trans le1 (ih8 _ _ le1.2.2.1 _ _ h)
      · cases h; exact stateLe_currFlag (stateLe_refl hs)
    · -- multiplicative_expression
      intro s hs r s' h
      rw [multiplicative_expression] at h
      cases ht : is_as_expression fuel s with
      | oof => rw [ht] at h; exact PRes.noConfusion h
      | ok hd s1 =>
        rw [ht] at h
        have le1 : stateLe s s1 := ih7 _ hs _ _ ht
        cases hd with
        | none => simp only at h; cases h; exact le1
        | some h0 =>
          simp only at h
          cases hts : multiplicative_terms fuel s1 [] with
          | oof => rw [hts] at h; exact PRes.noConfusion h
          | ok ts s2 =>
            rw [hts] at h; simp only at h; cases h
            exact stateLe_trans le1 (ih8 _ _ le1.2.2.1 _ _ hts)
    · -- additive_terms
      intro s acc hs r s' h
      rw [additive_terms] at h
      simp only [currS] at h
      split at h
      · have base : stateLe s (next (currFlag s)) :=
          stateLe_next (stateLe_currFlag (stateLe_refl hs))
        cases ht : multiplicative_expression fuel (next (currFlag s)) with
        | oof => rw [ht] at h; exact PRes.noConfusion h
        | ok e s1 =>
          rw [ht] at h
          have le1 : stateLe s s1 := stateLe_trans base (ih9 _ base.2.2.1 _ _ ht)
          cases e with
          | none => simp only at h; cases h; exact stateLe_errorS _ le1
          | some e0 =>
            simp only at h
            exact stateLe_trans le1 (ih10 _ _ le1.2.2.1 _ _ h)
      · cases h; exact stateLe_currFlag (stateLe_refl hs)
    · -- additive_expression
      intro s hs r s' h
      rw [additive_expression] at h
      cases ht : multiplicative_expression fuel s with
      | oof => rw [ht] at h; exact PRes.noConfusion h
      | ok hd s1 =>
        rw [ht] at h
        have le1 : stateLe s s1 := ih9 _ hs _ _ ht
        cases hd with
        | none => simp only at h; cases h; exact le1
        | some h0 =>
          simp only at h
          cases hts : additive_terms fuel s1 [] with
          | oof => rw [hts] at h; exact PRes.noConfusion h
          | ok ts s2 =>
            rw [hts] at h; simp only at h; cases h
            exact stateLe_trans le1 (ih10 _ _ le1.2.2.1 _ _ hts)
    · -- shift_terms
      intro s acc hs r s' h
      rw [shift_terms] at h
      simp only [currS] at h
      split at h
      · have base : stateLe s (next (currFlag s)) :=
          stateLe_next (stateLe_currFlag (stateLe_refl hs))
        cases ht : additive_expression fuel (next (currFlag s)) with
        | oof => rw [ht] at h; exact PRes.noConfusion h
        | ok e s1 =>
          rw [ht] at h
          have le1 : stateLe s s1 := stateLe_trans base (ih11 _ base.2.2.1 _ _ ht)
          cases e with
          | none => simp only at h; cases h; exact stateLe_errorS _ le1
          | some e0 =>
            simp only at h
            exact stateLe_trans le1 (ih12 _ _ le1.2.2.1 _ _ h)
      · cases h; exact stateLe_currFlag (stateLe_refl hs)
    · -- shift_expression
      intro s hs r s' h
      rw [shift_expression] at h
      cases ht : additive_expression fuel s with
      | oof => rw [ht] at h; exact PRes.noConfusion h
      | ok hd s1 =>
        rw [ht] at h
        have le1 : stateLe s s1 := ih11 _ hs _ _ ht
        cases hd with
        | none => simp only at h; cases h; exact le1
        | some h0 =>
          simp only at h
          cases hts : shift_terms fuel s1 [] with
          | oof => rw [hts] at h; exact PRes.noConfusion h
          | ok ts s2 =>
            rw [hts] at h; simp only at h; cases h
            exact stateLe_trans le1 (ih12 _ _ le1.2.2.1 _ _ hts)
    · -- compare_terms
      intro s acc hs r s' h
      rw [compare_terms] at h
      simp only [currS] at h
      split at h
      · have base : stateLe s (next (currFlag s)) :=
          stateLe_next (stateLe_currFlag (stateLe_refl hs))
        cases ht : shift_expression fuel (next (currFlag s)) with
        | oof => rw [ht] at h; exact PRes.noConfusion h
        | ok e s1 =>
          rw [ht] at h
          have le1 : stateLe s s1 := stateLe_trans base (ih13 _ base.2.2.1 _ _ ht)
          cases e with
          | none => simp only at h; cases h; exact stateLe_errorS _ le1
          | some e0 =>
            simp only at h
            exact stateLe_trans le1 (ih14 _ _ le1.2.2.1 _ _ h)
      · cases h; exact stateLe_currFlag (stateLe_refl hs)
    · -- compare_expression
      intro s hs r s' h
      rw [compare_expression] at h
      cases ht : shift_expression fuel s with
      | oof => rw [ht] at h; exact PRes.noConfusion h
      | ok hd s1 =>
        rw [ht] at h
        have le1 : stateLe s s1 := ih13 _ hs _ _ ht
        cases hd with
        | none => simp only at h; cases h; exact le1
        | some h0 =>
          simp only at h
          cases hts : compare_terms fuel s1 [] with
          | oof => rw [hts] at h; exact PRes.noConfusion h
          | ok ts s2 =>
            rw [hts] at h; simp only at h; cases h
            exact stateLe_trans le1 (ih14 _ _ le1.2.2.1 _ _ hts)
    · -- relational_terms
      intro s acc hs r s' h
      rw [relational_terms] at h
      simp only [currS] at h
      split at h
      · have base : stateLe s (next (currFlag s)) :=
          stateLe_next (stateLe_currFlag (stateLe_refl hs))
        cases ht : compare_expression fuel (next (currFlag s)) with
        | oof => rw [ht] at h; exact PRes.noConfusion h
        | ok e s1 =>
          rw [ht] at h
          have le1 : stateLe s s1 := stateLe_trans base (ih15 _ base.2.2.1 _ _ ht)
          cases e with
          | none => simp only at h; cases h; exact stateLe_errorS _ le1
          | some e0 =>
            simp only at h
            exact stateLe_trans le1 (ih16 _ _ le1.2.2.1 _ _ h)
      · cases h; exact stateLe_currFlag (stateLe_refl hs)
    · -- relational_expression
      intro s hs r s' h
      rw [relational_expression] at h
      cases ht : compare_expression fuel s with
      | oof => rw [ht] at h; exact PRes.noConfusion h
      | ok hd s1 =>
        rw [ht] at h
        have le1 : stateLe s s1 := ih15 _ hs _ _ ht
        cases hd with
        | none => simp only at h; cases h; exact le1
        | some h0 =>
          simp only at h
          cases hts : relational_terms fuel s1 [] with
          | oof => rw [hts] at h; exact PRes.noConfusion h
          | ok ts s2 =>
            rw [hts] at h; simp only at h; cases h
            exact stateLe_trans le1 (ih16 _ _ le1.2.2.1 _ _ hts)
    · -- equality_terms
      intro s acc hs r s' h
      rw [equality_terms] at h
      simp only [currS] at h
      split at h
      · have base : stateLe s (next (currFlag s)) :=
          stateLe_next (stateLe_currFlag (stateLe_refl hs))
        cases ht : relational_expression fuel (next (currFlag s)) with
        | oof => rw [ht] at h; exact PRes.noConfusion h
        | ok e s1 =>
          rw [ht] at h
          have le1 : stateLe s s1 := stateLe_trans base (ih17 _ base.2.2.1 _ _ ht)
          cases e with
          | none => simp only at h; cases h; exact stateLe_errorS _ le1
          | some e0 =>
            simp only at h
            exact stateLe_trans le1 (ih18 _ _ le1.2.2.1 _ _ h)
      · cases h; exact stateLe_currFlag (stateLe_refl hs)
    · -- equality_expression
      intro s hs r s' h
      rw [equality_expression] at h
      cases ht : relational_expression fuel s with
      | oof => rw [ht] at h; exact PRes.noConfusion h
      | ok hd s1 =>
        rw [ht] at h
        have le1 : stateLe s s1 := ih17 _ hs _ _ ht
        cases hd with
        | none => simp only at h; cases h; exact le1
        | some h0 =>
          simp only at h
          cases hts : equality_terms fuel s1 [] with
          | oof => rw [hts] at h; exact PRes.noConfusion h
          | ok ts s2 =>
            rw [hts] at h; simp only at h; cases h
            exact stateLe_trans le1 (ih18 _ _ le1.2.2.1 _ _ hts)
    · -- logical_and_terms
      intro s acc hs r s' h
      rw [logical_and_terms] at h
      simp only [currS] at h
      split at h
      · have base : stateLe s (next (currFlag s)) :=
          stateLe_next (stateLe_currFlag (stateLe_refl hs))
        cases ht : equality_expression fuel (next (currFlag s)) with
        | oof => rw [ht] at h; exact PRes.noConfusion h
        | ok e s1 =>
          rw [ht] at h
          have le1 : stateLe s s1 := stateLe_trans base (ih19 _ base.2.2.1 _ _ ht)
          cases e with
          | none => simp only at h; cases h; exact stateLe_errorS _ le1
          | some e0 =>
            simp only at h
            exact stateLe_trans le1 (ih20 _ _ le1.2.2.1 _ _ h)
      · cases h; exact stateLe_currFlag (stateLe_refl hs)
    · -- logical_and_expression
      intro s hs r s' h
      rw [logical_and_expression] at h
      cases ht : equality_expression fuel s with
      | oof => rw [ht] at h; exact PRes.noConfusion h
      | ok hd s1 =>
        rw [ht] at h
        have le1 : stateLe s s1 := ih19 _ hs _ _ ht
        cases hd with
        | none => simp only at h; cases h; exact le1
        | some h0 =>
          simp only at h
          cases hts : logical_and_terms fuel s1 [] with
          | oof => rw [hts] at h; exact PRes.noConfusion h
          | ok ts s2 =>
            rw [hts] at h; simp only at h; cases h
            exact stateLe_trans le1 (ih20 _ _ le1.2.2.1 _ _ hts)
    · -- logical_or_terms
      intro s acc hs r s' h
      rw [logical_or_terms] at h
      simp only [currS] at h
      split at h
      · have base : stateLe s (next (currFlag s)) :=
          stateLe_next (stateLe_currFlag (stateLe_refl hs))
        cases ht : logical_and_expression fuel (next (currFlag s)) with
        | oof => rw [ht] at h; exact PRes.noConfusion h
        | ok e s1 =>
          rw [ht] at h
          have le1 : stateLe s s1 := stateLe_trans base (ih21 _ base.2.2.1 _ _ ht)
          cases e with
          | none => simp only at h; cases h; exact stateLe_errorS _ le1
          | some e0 =>
            simp only at h
            exact stateLe_trans le1 (ih22 _ _ le1.2.2.1 _ _ h)
      · cases h; exact stateLe_currFlag (stateLe_refl hs)
    · -- logical_or_expression
      intro s hs r s' h
      rw [logical_or_expression] at h
      cases ht : logical_and_expression fuel s with
      | oof => rw [ht] at h; exact PRes.noConfusion h
      | ok hd s1 =>
        rw [ht] at h
        have le1 : stateLe s s1 := ih21 _ hs _ _ ht
        cases hd with
        | none => simp only at h; cases h; exact le1
        | some h0 =>
          simp only at h
          cases hts : logical_or_terms fuel s1 [] with
          | oof => rw [hts] at h; exact PRes.noConfusion h
          | ok ts s2 =>
            rw [hts] at h; simp only at h; cases h
            exact stateLe_trans le1 (ih22 _ _ le1.2.2.1 _ _ hts)
    · -- assignment_terms
      intro s acc hs r s' h
      rw [assignment_terms] at h
      simp only [currS] at h
      split at h
      · have base : stateLe s (next (currFlag s)) :=
          stateLe_next (stateLe_currFlag (stateLe_refl hs))
        cases ht : logical_or_expression fuel (next (currFlag s)) with
        | oof => rw [ht] at h; exact PRes.noConfusion h
        | ok e s1 =>
          rw [ht] at h
          have le1 : stateLe s s1 := stateLe_trans base (ih23 _ base.2.2.1 _ _ ht)
          cases e with
          | none => simp only at h; cases h; exact stateLe_errorS _ le1
          | some e0 =>
            simp only at h
            exact stateLe_trans le1 (ih24 _ _ le1.2.2.1 _ _ h)
      · cases h; exact stateLe_currFlag (stateLe_refl hs)
    · -- assignment_expression
      intro s hs r s' h
      rw [assignment_expression] at h
      cases ht : logical_or_expression fuel s with
      | oof => rw [ht] at h; exact PRes.noConfusion h
      | ok hd s1 =>
        rw [ht] at h
        have le1 : stateLe s s1 := ih23 _ hs _ _ ht
        cases hd with
        | none => simp only at h; cases h; exact le1
        | some h0 =>
          simp only at h
          cases hts : assignment_terms fuel s1 [] with
          | oof => rw [hts] at h; exact PRes.noConfusion h
          | ok ts s2 =>
            rw [hts] at h; simp only at h; cases h
            exact stateLe_trans le1 (ih24 _ _ le1.2.2.1 _ _ hts)
    · -- expression
      intro s hs r s' h
      rw [expression] at h
      cases ha : assignment_expression fuel s with
      | oof => rw [ha] at h; exact PRes.noConfusion h
      | ok a0 s1 =>
        rw [ha] at h
        have le1 : stateLe s s1 := ih25 _ hs _ _ ha
        cases a0 with
        | none => simp only at h; cases h; exact le1
        | some a1 => simp only at h; cases h; exact le1
    · -- expression_list_tail
      intro s acc hs r s' h
      rw [expression_list_tail] at h
      simp only [currS] at h
      split at h
      · -- comma seen
        split at h
        · exact PRes.noConfusion h
        · rename_i x s1 heq
          have le1 : stateLe s s1 := by
            refine stateLe_trans ?_ (ih26 _ ?_ _ _ heq)
            · exact stateLe_sndPassIf (stateLe_currFlag (stateLe_next (stateLe_currFlag (stateLe_refl hs))))
            · exact (stateLe_sndPassIf (stateLe_currFlag (stateLe_next (stateLe_currFlag (stateLe_refl hs))))).2.2.1
          exact stateLe_trans le1 (ih27 _ _ le1.2.2.1 _ _ h)
      · cases h; exact stateLe_currFlag (stateLe_refl hs)
    · -- expression_list
      intro s hs r s' h
      rw [expression_list] at h
      simp only [currS] at h
      split at h
      · exact PRes.noConfusion h
      · -- first expression failed: backtrack
        rename_i s1 heq
        have le1 : stateLe s s1 := by
          refine stateLe_trans ?_ (ih26 _ ?_ _ _ heq)
          · exact stateLe_sndPassIf (stateLe_currFlag (stateLe_refl hs))
          · exact (stateLe_sndPassIf (stateLe_currFlag (stateLe_refl hs))).2.2.1
        cases h; exact stateLe_backtrack le1
      · rename_i x s1 heq
        have le1 : stateLe s s1 := by
          refine stateLe_trans ?_ (ih26 _ ?_ _ _ heq)
          · exact stateLe_sndPassIf (stateLe_currFlag (stateLe_refl hs))
          · exact (stateLe_sndPassIf (stateLe_currFlag (stateLe_refl hs))).2.2.1
        split at h
        · exact PRes.noConfusion h
        · rename_i es s2 heq2; cases h
          exact stateLe_trans le1 (ih27 _ _ le1.2.2.1 _ _ heq2)


/-- Monotonicity of `primary_expression`. -/
theorem primary_expression_mono (fuel : Nat) :
    ∀ s, s.pos ≤ s.tokens.length → ∀ r s', primary_expression fuel s = .ok r s' → stateLe s s' :=
  (expr_mono fuel).1

/-- Monotonicity of `postfix_tail`. -/
theorem postfix_tail_mono (fuel : Nat) :
    ∀ s acc, s.pos ≤ s.tokens.length → ∀ r s', postfix_tail fuel s acc = .ok r s' → stateLe s s' :=
  (expr_mono fuel).2.1

/-- Monotonicity of `postfix_expression`. -/
theorem postfix_expression_mono (fuel : Nat) :
    ∀ s, s.pos ≤ s.tokens.length → ∀ r s', postfix_expression fuel s = .ok r s' → stateLe s s' :=
  (expr_mono fuel).2.2.1

/-- Monotonicity of `prefix_ops`. -/
theorem prefix_ops_mono (fuel : Nat) :
    ∀ s acc, s.pos ≤ s.tokens.length → ∀ r s', prefix_ops fuel s acc = .ok r s' → stateLe s s' :=
  (expr_mono fuel).2.2.2.1

/-- Monotonicity of `prefix_expression`. -/
theorem prefix_expression_mono (fuel : Nat) :
    ∀ s, s.pos ≤ s.tokens.length → ∀ r s', prefix_expression fuel s = .ok r s' → stateLe s s' :=
  (expr_mono fuel).2.2.2.2.1

/-- Monotonicity of `is_as_terms`. -/
theorem is_as_terms_mono (fuel : Nat) :
    ∀ s acc, s.pos ≤ s.tokens.length → ∀ r s', is_as_terms fuel s acc = .ok r s' → stateLe s s' :=
  (expr_mono fuel).2.2.2.2.2.1

/-- Monotonicity of `is_as_expression`. -/
theorem is_as_expression_mono (fuel : Nat) :
    ∀ s, s.pos ≤ s.tokens.length → ∀ r s', is_as_expression fuel s = .ok r s' → stateLe s s' :=
  (expr_mono fuel).2.2.2.2.2.2.1

/-- Monotonicity of `multiplicative_terms`. -/
theorem multiplicative_terms_mono (fuel : Nat) :
    ∀ s acc, s.pos ≤ s.tokens.length → ∀ r s', multiplicative_terms fuel s acc = .ok r s' → stateLe s s' :=
  (expr_mono fuel).2.2.2.2.2.2.2.1

/-- Monotonicity of `multiplicative_expression`. -/
theorem multiplicative_expression_mono (fuel : Nat) :
    ∀ s, s.pos ≤ s.tokens.length → ∀ r s', multiplicative_expression fuel s = .ok r s' → stateLe s s' :=
  (expr_mono fuel).2.2.2.2.2.2.2.2.1

/-- Monotonicity of `additive_terms`. -/
theorem additive_terms_mono (fuel : Nat) :
    ∀ s acc, s.pos ≤ s.tokens.length → ∀ r s', additive_terms fuel s acc = .ok r s' → stateLe s s' :=
  (expr_mono fuel).2.2.2.2.2.2.2.2.2.1

/-- Monotonicity of `additive_expression`. -/
theorem additive_expression_mono (fuel : Nat) :
    ∀ s, s.pos ≤ s.tokens.length → ∀ r s', additive_expression fuel s = .ok r s' → stateLe s s' :=
  (expr_mono fuel).2.2.2.2.2.2.2.2.2.2.1

/-- Monotonicity of `shift_terms`. -/
theorem shift_terms_mono (fuel : Nat) :
    ∀ s acc, s.pos ≤ s.tokens.length → ∀ r s', shift_terms fuel s acc = .ok r s' → stateLe s s' :=
  (expr_mono fuel).2.2.2.2.2.2.2.2.2.2.2.1

/-- Monotonicity of `shift_expression`. -/
theorem shift_expression_mono (fuel : Nat) :
    ∀ s, s.pos ≤ s.tokens.length → ∀ r s', shift_expression fuel s = .ok r s' → stateLe s s' :=
  (expr_mono fuel).2.2.2.2.2.2.2.2.2.2.2.2.1

/-- Monotonicity of `compare_terms`. -/
theorem compare_terms_mono (fuel : Nat) :
    ∀ s acc, s.pos ≤ s.tokens.length → ∀ r s', compare_terms fuel s acc = .ok r s' → stateLe s s' :=
  (expr_mono fuel).2.2.2.2.2.2.2.2.2.2.2.2.2.1

/-- Monotonicity of `compare_expression`. -/
theorem compare_expression_mono (fuel : Nat) :
    ∀ s, s.pos ≤ s.tokens.length → ∀ r s', compare_expression fuel s = .ok r s' → stateLe s s' :=
  (expr_mono fuel).2.2.2.2.2.2.2.2.2.2.2.2.2.2.1

/-- Monotonicity of `relational_terms`. -/
theorem relational_terms_mono (fuel : Nat) :
    ∀ s acc, s.pos ≤ s.tokens.length → ∀ r s', relational_terms fuel s acc = .ok r s' → stateLe s s' :=
  (expr_mono fuel).2.2.2.2.2.2.2.2.2.2.2.2.2.2.2.1

/-- Monotonicity of `relational_expression`. -/
theorem relational_expression_mono (fuel : Nat) :
    ∀ s, s.pos ≤ s.tokens.length → ∀ r s', relational_expression fuel s = .ok r s' → stateLe s s' :=
  (expr_mono fuel).2.2.2.2.2.2.2.2.2.2.2.2.2.2.2.2.1

/-- Monotonicity of `equality_terms`. -/
theorem equality_terms_mono (fuel : Nat) :
    ∀ s acc, s.pos ≤ s.tokens.length → ∀ r s', equality_terms fuel s acc = .ok r s' → stateLe s s' :=
  (expr_mono fuel).2.2.2.2.2.2.2.2.2.2.2.2.2.2.2.2.2.1

/-- Monotonicity of `equality_expression`. -/
theorem equality_expression_mono (fuel : Nat) :
    ∀ s, s.pos ≤ s.tokens.length → ∀ r s', equality_expression fuel s = .ok r s' → stateLe s s' :=
  (expr_mono fuel).2.2.2.2.2.2.2.2.2.2.2.2.2.2.2.2.2.2.1

/-- Monotonicity of `logical_and_terms`. -/
theorem logical_and_terms_mono (fuel : Nat) :
    ∀ s acc, s.pos ≤ s.tokens.length → ∀ r s', logical_and_terms fuel s acc = .ok r s' → stateLe s s' :=
  (expr_mono fuel).2.2.2.2.2.2.2.2.2.2.2.2.2.2.2.2.2.2.2.1

/-- Monotonicity of `logical_and_expression`. -/
theorem logical_and_expression_mono (fuel : Nat) :
    ∀ s, s.pos ≤ s.tokens.length → ∀ r s', logical_and_expression fuel s = .ok r s' → stateLe s s' :=
  (expr_mono fuel).2.2.2.2.2.2.2.2.2.2.2.2.2.2.2.2.2.2.2.2.1

/-- Monotonicity of `logical_or_terms`. -/
theorem logical_or_terms_mono (fuel : Nat) :
    ∀ s acc, s.pos ≤ s.tokens.length → ∀ r s', logical_or_terms fuel s acc = .ok r s' → stateLe s s' :=
  (expr_mono fuel).2.2.2.2.2.2.2.2.2.2.2.2.2.2.2.2.2.2.2.2.2.1

/-- Monotonicity of `logical_or_expression`. -/
theorem logical_or_expression_mono (fuel : Nat) :
    ∀ s, s.pos ≤ s.tokens.length → ∀ r s', logical_or_expression fuel s = .ok r s' → stateLe s s' :=
  (expr_mono fuel).2.2.2.2.2.2.2.2.2.2.2.2.2.2.2.2.2.2.2.2.2.2.1

/-- Monotonicity of `assignment_terms`. -/
theorem assignment_terms_mono (fuel : Nat) :
    ∀ s acc, s.pos ≤ s.tokens.length → ∀ r s', assignment_terms fuel s acc = .ok r s' → stateLe s s' :=
  (expr_mono fuel).2.2.2.2.2.2.2.2.2.2.2.2.2.2.2.2.2.2.2.2.2.2.2.1

/-- Monotonicity of `assignment_expression`. -/
theorem assignment_expression_mono (fuel : Nat) :
    ∀ s, s.pos ≤ s.tokens.length → ∀ r s', assignment_expression fuel s = .ok r s' → stateLe s s' :=
  (expr_mono fuel).2.2.2.2.2.2.2.2.2.2.2.2.2.2.2.2.2.2.2.2.2.2.2.2.1

/-- Monotonicity of `expression`. -/
theorem expression_mono (fuel : Nat) :
    ∀ s, s.pos ≤ s.tokens.length → ∀ r s', expression fuel s = .ok r s' → stateLe s s' :=
  (expr_mono fuel).2.2.2.2.2.2.2.2.2.2.2.2.2.2.2.2.2.2.2.2.2.2.2.2.2.1

/-- Monotonicity of `expression_list_tail`. -/
theorem expression_list_tail_mono (fuel : Nat) :
    ∀ s acc, s.pos ≤ s.tokens.length → ∀ r s', expression_list_tail fuel s acc = .ok r s' → stateLe s s' :=
  (expr_mono fuel).2.2.2.2.2.2.2.2.2.2.2.2.2.2.2.2.2.2.2.2.2.2.2.2.2.2.1

/-- Monotonicity of `expression_list`. -/
theorem expression_list_mono (fuel : Nat) :
    ∀ s, s.pos ≤ s.tokens.length → ∀ r s', expression_list fuel s = .ok r s' → stateLe s s' :=
  (expr_mono fuel).2.2.2.2.2.2.2.2.2.2.2.2.2.2.2.2.2.2.2.2.2.2.2.2.2.2.2

/-- Generic composition through the pair construction
`(if b then (p, next s) else (q, s)).2` (used for the `constexpr` flag). -/
theorem stateLe_sndIf {a s : PState} {b : Bool} {γ : Type} {p q : γ}
    (h : stateLe a s) :
    stateLe a (((if b = true then (p, next s) else (q, s)) : γ × PState).2) := by
  split
  · exact stateLe_next h
  · exact h

/-- Monotonicity of the passing-style block. -/
theorem param_pass_mono {a s : PState} (t : token) (h : stateLe a s) :
    stateLe a (param_pass t s).2 := by
  unfold param_pass
  repeat' split
  all_goals first
    | exact stateLe_next h
    | exact h

/-- Monotonicity of the this-specifier block. -/
theorem param_mod_mono {a s : PState} (t : token) (h : stateLe a s) :
    stateLe a (param_mod t s).2 := by
  unfold param_mod
  repeat' split
  all_goals first
    | exact stateLe_next h
    | exact h

/-- Monotonicity of `qualified_tail` and `qualified_id`. -/
theorem qualified_mono : ∀ fuel : Nat,
    (∀ s acc, s.pos ≤ s.tokens.length → ∀ r s',
      qualified_tail fuel s acc = .ok r s' → stateLe s s') ∧
    (∀ s, s.pos ≤ s.tokens.length → ∀ r s',
      qualified_id fuel s = .ok r s' → stateLe s s') := by
  intro fuel
  induction fuel with
  | zero =>
    constructor
    · intro s acc hs r s' h; simp [qualified_tail] at h
    · intro s hs r s' h; simp [qualified_id] at h
  | succ fuel ih =>
    obtain ⟨iht, ihq⟩ := ih
    constructor
    · intro s acc hs r s' h
      rw [qualified_tail] at h
      simp only [currS] at h
      split at h
      · cases hu : unqualified_id (next (currFlag s)) with
        | mk id s2 =>
          rw [hu] at h
          have le2 : stateLe s s2 := by
            have t := unqualified_id_mono
              (stateLe_next (stateLe_currFlag (stateLe_refl hs))) (s := next (currFlag s))
            rw [hu] at t; exact t
          cases id with
          | none => simp only at h; cases h; exact stateLe_errorS _ le2
          | some i =>
            simp only at h
            exact stateLe_trans le2 (iht _ _ le2.2.2.1 _ _ h)
      · cases h; exact stateLe_currFlag (stateLe_refl hs)
    · intro s hs r s' h
      rw [qualified_id] at h
      cases hu : unqualified_id s with
      | mk id s1 =>
        rw [hu] at h
        have le1 : stateLe s s1 := by
          have t := unqualified_id_mono (stateLe_refl hs) (s := s)
          rw [hu] at t; exact t
        cases id with
        | none => simp only at h; cases h; exact stateLe_backtrack le1
        | some id0 =>
          simp only [currS] at h
          split at h
          · cases h; exact stateLe_backtrack (stateLe_currFlag le1)
          · exact stateLe_trans (stateLe_currFlag le1)
              (iht _ _ (stateLe_currFlag le1).2.2.1 _ _ h)

/-- Monotonicity of `qualified_id`. -/
theorem qualified_id_mono (fuel : Nat) :
    ∀ s, s.pos ≤ s.tokens.length → ∀ r s',
      qualified_id fuel s = .ok r s' → stateLe s s' :=
  (qualified_mono fuel).2

/-- Monotonicity of `id_expression`. -/
theorem id_expression_mono (fuel : Nat) :
    ∀ s, s.pos ≤ s.tokens.length → ∀ r s',
      id_expression fuel s = .ok r s' → stateLe s s' := by
  cases fuel with
  | zero => intro s hs r s' h; simp [id_expression] at h
  | succ fuel =>
    intro s hs r s' h
    rw [id_expression] at h
    cases hq : qualified_id fuel s with
    | oof => rw [hq] at h; exact PRes.noConfusion h
    | ok q s1 =>
      rw [hq] at h
      have le1 : stateLe s s1 := qualified_id_mono fuel _ hs _ _ hq
      cases q with
      | some q0 => simp only at h; cases h; exact le1
      | none =>
        simp only at h
        cases hu : unqualified_id s1 with
        | mk u s2 =>
          rw [hu] at h
          have le2 : stateLe s s2 := by
            have t := unqualified_id_mono le1 (s := s1)
            rw [hu] at t; exact t
          cases u with
          | some u0 => simp only at h; cases h; exact le2
          | none => simp only at h; cases h; exact le2

/-- Monotonicity of `expression_statement`. -/
theorem expression_statement_mono (fuel : Nat) (sem : Bool) :
    ∀ s, s.pos ≤ s.tokens.length → ∀ r s',
      expression_statement sem fuel s = .ok r s' → stateLe s s' := by
  cases fuel with
  | zero => intro s hs r s' h; simp [expression_statement] at h
  | succ fuel =>
    intro s hs r s' h
    rw [expression_statement] at h
    simp only [currS] at h
    cases hx : expression fuel s with
    | oof => rw [hx] at h; exact PRes.noConfusion h
    | ok e s1 =>
      rw [hx] at h
      have le1 : stateLe s s1 := expression_mono fuel _ hs _ _ hx
      cases e with
      | none => simp only at h; cases h; exact le1
      | some e0 =>
        simp only at h
        split at h
        · cases h; exact stateLe_errorS _ (stateLe_currFlag le1)
        · split at h
          · cases h; exact stateLe_next (stateLe_currFlag (stateLe_currFlag le1))
          · cases h; exact stateLe_currFlag (stateLe_currFlag le1)

/-- Monotonicity of every statement- and declaration-grammar production. -/
theorem stmt_mono : ∀ fuel : Nat,
    (∀ s, s.pos ≤ s.tokens.length → ∀ r s',
      selection_statement fuel s = .ok r s' → stateLe s s') ∧
    (∀ sem s, s.pos ≤ s.tokens.length → ∀ r s',
      statement sem fuel s = .ok r s' → stateLe s s') ∧
    (∀ s pos0 acc, s.pos ≤ s.tokens.length → ∀ r s',
      compound_tail fuel s pos0 acc = .ok r s' → stateLe s s') ∧
    (∀ s, s.pos ≤ s.tokens.length → ∀ r s',
      compound_statement fuel s = .ok r s' → stateLe s s') ∧
    (∀ s, s.pos ≤ s.tokens.length → ∀ r s',
      parameter_declaration fuel s = .ok r s' → stateLe s s') ∧
    (∀ s openp acc, s.pos ≤ s.tokens.length → ∀ r s',
      pdl_tail fuel s openp acc = .ok r s' → stateLe s s') ∧
    (∀ s, s.pos ≤ s.tokens.length → ∀ r s',
      parameter_declaration_list fuel s = .ok r s' → stateLe s s') ∧
    (∀ sem s, s.pos ≤ s.tokens.length → ∀ r s',
      declaration sem fuel s = .ok r s' → stateLe s s') ∧
    (∀ sem id0 ty s, s.pos ≤ s.tokens.length → ∀ r s',
      declaration_finish sem fuel id0 ty s = .ok r s' → stateLe s s') := by
  intro fuel
  induction fuel with
  | zero =>
    refine ⟨?_, ?_, ?_, ?_, ?_, ?_, ?_, ?_, ?_⟩ <;>
      intros <;>
      simp_all [selection_statement, statement, compound_tail, compound_statement,
        parameter_declaration, pdl_tail, parameter_declaration_list, declaration,
        declaration_finish]
  | succ fuel ih =>
    obtain ⟨ih1, ih2, ih3, ih4, ih5, ih6, ih7, ih8, ih9⟩ := ih
    refine ⟨?_, ?_, ?_, ?_, ?_, ?_, ?_, ?_, ?_⟩
    · -- selection_statement
      intro s hs r s' h
      rw [selection_statement] at h
      simp only [currS] at h
      split at h
      · cases h; exact stateLe_currFlag (stateLe_refl hs)
      · split at h
        · exact PRes.noConfusion h
        · rename_i s1 heq
          have le1 : stateLe s s1 := by
            refine stateLe_trans ?_ (expression_mono fuel _ ?_ _ _ heq)
            · exact stateLe_sndIf (stateLe_currFlag (stateLe_next (stateLe_currFlag (stateLe_refl hs))))
            · exact (stateLe_sndIf (stateLe_currFlag (stateLe_next (stateLe_currFlag (stateLe_refl hs))))).2.2.1
          cases h; exact stateLe_errorS _ le1
        · rename_i e s1 heq
          have le1 : stateLe s s1 := by
            refine stateLe_trans ?_ (expression_mono fuel _ ?_ _ _ heq)
            · exact stateLe_sndIf (stateLe_currFlag (stateLe_next (stateLe_currFlag (stateLe_refl hs))))
            · exact (stateLe_sndIf (stateLe_currFlag (stateLe_next (stateLe_currFlag (stateLe_refl hs))))).2.2.1
          split at h
          · exact PRes.noConfusion h
          · rename_i s2 heq2
            have le2 : stateLe s s2 := stateLe_trans le1 (ih4 _ le1.2.2.1 _ _ heq2)
            cases h; exact stateLe_errorS _ le2
          · rename_i tb s2 heq2
            have le2 : stateLe s s2 := stateLe_trans le1 (ih4 _ le1.2.2.1 _ _ heq2)
            split at h
            · cases h; exact stateLe_currFlag le2
            · split at h
              · exact PRes.noConfusion h
              · rename_i s3 heq3
                have le3 : stateLe s s3 := stateLe_trans (stateLe_next (stateLe_currFlag le2))
                  (ih4 _ (stateLe_next (stateLe_currFlag le2)).2.2.1 _ _ heq3)
                cases h; exact stateLe_errorS _ le3
              · rename_i fb s3 heq3
                have le3 : stateLe s s3 := stateLe_trans (stateLe_next (stateLe_currFlag le2))
                  (ih4 _ (stateLe_next (stateLe_currFlag le2)).2.2.1 _ _ heq3)
                cases h; exact le3
    · -- statement
      intro sem s hs r s' h
      rw [statement] at h
      cases h1 : selection_statement fuel s with
      | oof => rw [h1] at h; exact PRes.noConfusion h
      | ok o s1 =>
        rw [h1] at h
        have le1 : stateLe s s1 := ih1 _ hs _ _ h1
        cases o with
        | some sel => simp only at h; cases h; exact le1
        | none =>
          simp only at h
          cases h2 : compound_statement fuel s1 with
          | oof => rw [h2] at h; exact PRes.noConfusion h
          | ok c s2 =>
            rw [h2] at h
            have le2 : stateLe s s2 := stateLe_trans le1 (ih4 _ le1.2.2.1 _ _ h2)
            cases c with
            | some c0 => simp only at h; cases h; exact le2
            | none =>
              simp only at h
              cases h3 : declaration true fuel s2 with
              | oof => rw [h3] at h; exact PRes.noConfusion h
              | ok d s3 =>
                rw [h3] at h
                have le3 : stateLe s s3 := stateLe_trans le2 (ih8 _ _ le2.2.2.1 _ _ h3)
                cases d with
                | some d0 => simp only at h; cases h; exact le3
                | none =>
                  simp only at h
                  cases h4 : expression_statement sem fuel s3 with
                  | oof => rw [h4] at h; exact PRes.noConfusion h
                  | ok e s4 =>
                    rw [h4] at h
                    have le4 : stateLe s s4 := stateLe_trans le3
                      (expression_statement_mono fuel sem _ le3.2.2.1 _ _ h4)
                    cases e with
                    | some e0 => simp only at h; cases h; exact le4
                    | none => simp only at h; cases h; exact le4
    · -- compound_tail
      intro s pos0 acc hs r s' h
      rw [compound_tail] at h
      simp only [currS] at h
      split at h
      · split at h
        · exact PRes.noConfusion h
        · rename_i s1 heq
          have le1 : stateLe s s1 := stateLe_trans (stateLe_currFlag (stateLe_refl hs))
            (ih2 _ _ (stateLe_currFlag (stateLe_refl hs)).2.2.1 _ _ heq)
          cases h; exact stateLe_errorS _ le1
        · rename_i st s1 heq
          have le1 : stateLe s s1 := stateLe_trans (stateLe_currFlag (stateLe_refl hs))
            (ih2 _ _ (stateLe_currFlag (stateLe_refl hs)).2.2.1 _ _ heq)
          exact stateLe_trans le1 (ih3 _ _ _ le1.2.2.1 _ _ h)
      · cases h; exact stateLe_next (stateLe_currFlag (stateLe_refl hs))
    · -- compound_statement
      intro s hs r s' h
      rw [compound_statement] at h
      simp only [currS] at h
      split at h
      · cases h; exact stateLe_currFlag (stateLe_refl hs)
      · exact stateLe_trans (stateLe_next (stateLe_currFlag (stateLe_refl hs)))
          (ih3 _ _ _ (stateLe_next (stateLe_currFlag (stateLe_refl hs))).2.2.1 _ _ h)
    · -- parameter_declaration
      intro s hs r s' h
      rw [parameter_declaration] at h
      simp only [currS] at h
      cases hp : param_pass (currTok (currFlag s)) (currFlag (currFlag s)) with
      | mk pass s1 =>
        rw [hp] at h
        simp only at h
        have le1 : stateLe s s1 := by
          have t := param_pass_mono (currTok (currFlag s))
            (stateLe_currFlag (stateLe_currFlag (stateLe_refl hs)))
          rw [hp] at t; exact t
        cases hm : param_mod (currTok s1) (currFlag s1) with
        | mk mod s2 =>
          rw [hm] at h
          simp only at h
          have le2 : stateLe s s2 := by
            have t := param_mod_mono (currTok s1) (stateLe_currFlag le1)
            rw [hm] at t; exact t
          cases hd : declaration false fuel s2 with
          | oof => rw [hd] at h; exact PRes.noConfusion h
          | ok d s3 =>
            rw [hd] at h
            have le3 : stateLe s s3 := stateLe_trans le2 (ih8 _ _ le2.2.2.1 _ _ hd)
            cases d with
            | none => simp only at h; cases h; exact le3
            | some d0 => simp only at h; cases h; exact le3
    · -- pdl_tail
      intro s openp acc hs r s' h
      rw [pdl_tail] at h
      simp only [currS] at h
      cases hp : parameter_declaration fuel s with
      | oof => rw [hp] at h; exact PRes.noConfusion h
      | ok p s1 =>
        rw [hp] at h
        have le1 : stateLe s s1 := ih5 _ hs _ _ hp
        cases p with
        | none =>
          simp only at h
          split at h
          · cases h; exact stateLe_next (stateLe_errorS _ (stateLe_currFlag le1))
          · cases h; exact stateLe_next (stateLe_currFlag le1)
        | some p0 =>
          simp only at h
          split at h
          · cases h; exact stateLe_next (stateLe_currFlag le1)
          · split at h
            · cases h; exact stateLe_errorS _ (stateLe_currFlag le1)
            · exact stateLe_trans (stateLe_next (stateLe_currFlag le1))
                (ih6 _ _ _ (stateLe_next (stateLe_currFlag le1)).2.2.1 _ _ h)
    · -- parameter_declaration_list
      intro s hs r s' h
      rw [parameter_declaration_list] at h
      simp only [currS] at h
      split at h
      · cases h; exact stateLe_currFlag (stateLe_refl hs)
      · exact stateLe_trans (stateLe_next (stateLe_currFlag (stateLe_refl hs)))
          (ih6 _ _ _ (stateLe_next (stateLe_currFlag (stateLe_refl hs))).2.2.1 _ _ h)
    · -- declaration
      intro sem s hs r s' h
      rw [declaration] at h
      simp only [currS] at h
      split at h
      · cases h; exact stateLe_refl hs
      · cases hu : unqualified_id s with
        | mk id s1 =>
          rw [hu] at h
          have le1 : stateLe s s1 := by
            have t := unqualified_id_mono (stateLe_refl hs) (s := s)
            rw [hu] at t; exact t
          cases id with
          | none => simp only at h; cases h; exact le1
          | some id0 =>
            simp only at h
            split at h
            · cases h; exact stateLe_backtrack (stateLe_currFlag le1)
            · cases hl : parameter_declaration_list fuel (next (currFlag s1)) with
              | oof => rw [hl] at h; exact PRes.noConfusion h
              | ok l s2 =>
                rw [hl] at h
                have le2 : stateLe s s2 := stateLe_trans (stateLe_next (stateLe_currFlag le1))
                  (ih7 _ (stateLe_next (stateLe_currFlag le1)).2.2.1 _ _ hl)
                cases l with
                | some l0 =>
                  simp only at h
                  exact stateLe_trans le2 (ih9 _ _ _ _ le2.2.2.1 _ _ h)
                | none =>
                  simp only at h
                  cases hi : id_expression fuel s2 with
                  | oof => rw [hi] at h; exact PRes.noConfusion h
                  | ok ie s3 =>
                    rw [hi] at h
                    have le3 : stateLe s s3 := stateLe_trans le2
                      (id_expression_mono fuel _ le2.2.2.1 _ _ hi)
                    cases ie with
                    | some ie0 =>
                      simp only at h
                      exact stateLe_trans le3 (ih9 _ _ _ _ le3.2.2.1 _ _ h)
                    | none =>
                      simp only at h
                      exact stateLe_trans le3 (ih9 _ _ _ _ le3.2.2.1 _ _ h)
    · -- declaration_finish
      intro sem id0 ty s hs r s' h
      rw [declaration_finish] at h
      simp only [currS] at h
      split at h
      · split at h
        · exact PRes.noConfusion h
        · rename_i s1 heq
          have le1 : stateLe s s1 := stateLe_trans (stateLe_next (stateLe_currFlag (stateLe_refl hs)))
            (ih2 _ _ (stateLe_next (stateLe_currFlag (stateLe_refl hs))).2.2.1 _ _ heq)
          cases h; exact stateLe_next (stateLe_errorS _ le1)
        · rename_i st s1 heq
          have le1 : stateLe s s1 := stateLe_trans (stateLe_next (stateLe_currFlag (stateLe_refl hs)))
            (ih2 _ _ (stateLe_next (stateLe_currFlag (stateLe_refl hs))).2.2.1 _ _ heq)
          cases h; exact le1
      · split at h
        · cases h; exact stateLe_next (stateLe_currFlag (stateLe_currFlag (stateLe_refl hs)))
        · split at h
          · cases h; exact stateLe_errorS _ (stateLe_currFlag (stateLe_currFlag (stateLe_refl hs)))
          · cases h; exact stateLe_currFlag (stateLe_currFlag (stateLe_refl hs))

/-- Monotonicity of `statement`. -/
theorem statement_mono (fuel : Nat) :
    ∀ sem s, s.pos ≤ s.tokens.length → ∀ r s',
      statement sem fuel s = .ok r s' → stateLe s s' :=
  (stmt_mono fuel).2.1

/-- Monotonicity of `declaration`. -/
theorem declaration_mono (fuel : Nat) :
    ∀ sem s, s.pos ≤ s.tokens.length → ∀ r s',
      declaration sem fuel s = .ok r s' → stateLe s s' :=
  (stmt_mono fuel).2.2.2.2.2.2.2.1

/-- Monotonicity of the translation-unit loop. -/
theorem tu_tail_mono : ∀ fuel : Nat, ∀ s acc, s.pos ≤ s.tokens.length → ∀ r s',
    tu_tail fuel s acc = .ok r s' → stateLe s s' := by
  intro fuel
  induction fuel with
  | zero => intro s acc hs r s' h; simp [tu_tail] at h
  | succ fuel ih =>
    intro s acc hs r s' h
    rw [tu_tail] at h
    cases hd : declaration true fuel s with
    | oof => rw [hd] at h; exact PRes.noConfusion h
    | ok d s1 =>
      rw [hd] at h
      have le1 : stateLe s s1 := declaration_mono fuel _ _ hs _ _ hd
      cases d with
      | none => simp only at h; cases h; exact le1
      | some d0 =>
        simp only at h
        exact stateLe_trans le1 (ih _ _ le1.2.2.1 _ _ h)

/-- Monotonicity of `translation_unit`. -/
theorem translation_unit_mono (fuel : Nat) :
    ∀ s, s.pos ≤ s.tokens.length → ∀ r s',
      translation_unit fuel s = .ok r s' → stateLe s s' := by
  cases fuel with
  | zero => intro s hs r s' h; simp [translation_unit] at h
  | succ fuel =>
    intro s hs r s' h
    rw [translation_unit] at h
    cases ht : tu_tail fuel s [] with
    | oof => rw [ht] at h; exact PRes.noConfusion h
    | ok ds s1 =>
      rw [ht] at h
      cases h
      exact tu_tail_mono fuel _ _ hs _ _ ht

/-- A leaf result is never out-of-fuel. -/
theorem ok_ne_oof {α : Type} {a : α} {s : PState} : (PRes.ok a s) ≠ PRes.oof :=
  fun hh => PRes.noConfusion hh

/-- At or past the end, `curr()` reads the junk token. -/
theorem currTok_at_end {s : PState} (h : s.tokens.length ≤ s.pos) :
    currTok s = invalidTok := by
  unfold currTok
  exact List.getD_eq_default _ _ h

/-- A guard that fails on the junk token and holds on the current token
places the cursor strictly before the end. -/
theorem pos_lt_of_true {s : PState} {p : token → Bool} (hp : p invalidTok = false)
    (h : p (currTok s) = true) : s.pos < s.tokens.length := by
  by_contra hc
  push_neg at hc
  rw [currTok_at_end hc, hp] at h
  exact Bool.noConfusion h

/-- A guard that holds on the junk token and fails on the current token
places the cursor strictly before the end. -/
theorem pos_lt_of_false {s : PState} {p : token → Bool} (hp : p invalidTok = true)
    (h : ¬ p (currTok s) = true) : s.pos < s.tokens.length := by
  by_contra hc
  push_neg at hc
  rw [currTok_at_end hc, hp] at h
  exact h rfl

/-- Advancing after an in-range `curr()` moves the cursor by exactly one. -/
theorem next_currFlag_pos {s : PState} (h : s.pos < s.tokens.length) :
    (next (currFlag s)).pos = s.pos + 1 := by
  obtain ⟨ht, hp, he⟩ := currFlag_fields s
  show min ((currFlag s).pos + 1) (currFlag s).tokens.length = s.pos + 1
  rw [ht, hp]
  exact min_eq_left h

/-- The state after `next` is in range. -/
theorem next_inv (s : PState) : (next s).pos ≤ (next s).tokens.length :=
  min_le_right _ _

/-- A successful `unqualified_id` consumed exactly the current token. -/
theorem unqualified_id_success {s : PState} {u : unqualified_id_node} {s2 : PState}
    (h : unqualified_id s = (some u, s2)) :
    s.pos < s.tokens.length ∧ s2 = next (currFlag s) := by
  unfold unqualified_id at h
  simp only [currS] at h
  split at h
  · exact absurd h (by simp)
  · rename_i hcond
    refine ⟨?_, by cases h; rfl⟩
    by_contra hc
    push_neg at hc
    rw [currTok_at_end hc] at hcond
    exact hcond (by decide)

/-- A successful `primary_expression` consumes at least one token. -/
theorem primary_expression_strict (fuel : Nat) :
    ∀ s, s.pos ≤ s.tokens.length → ∀ n s',
      primary_expression fuel s = .ok (some n) s' → s.pos < s'.pos := by
  cases fuel with
  | zero => intro s hs n s' h; simp [primary_expression] at h
  | succ fuel =>
    intro s hs n s' h
    rw [primary_expression] at h
    simp only [currS] at h
    split at h
    · rename_i hcond
      cases h
      have hlt : s.pos < s.tokens.length := pos_lt_of_true rfl hcond
      rw [next_currFlag_pos hlt]
      omega
    · rename_i hcond
      split at h
      · rename_i hparen
        cases hel : expression_list fuel (next (currFlag s)) with
        | oof => rw [hel] at h; exact PRes.noConfusion h
        | ok el s1 =>
          rw [hel] at h
          have hlt : s.pos < s.tokens.length :=
            pos_lt_of_true (p := fun t => t.type == lexeme.LeftParen) rfl hparen
          have h1 : s.pos < (next (currFlag s)).pos := by
            rw [next_currFlag_pos hlt]; omega
          have le1 : stateLe (next (currFlag s)) s1 :=
            expression_list_mono fuel _ (next_inv _) _ _ hel
          cases el with
          | none => simp only at h; simp at h
          | some l =>
            simp only [currS] at h
            split at h
            · simp at h
            · cases h
              have le2 : stateLe (next (currFlag s)) (next (currFlag s1)) :=
                stateLe_next (stateLe_currFlag le1)
              have := le2.2.1
              omega
      · simp at h

/-- A successful `postfix_expression` consumes at least one token. -/
theorem postfix_expression_strict (fuel : Nat) :
    ∀ s, s.pos ≤ s.tokens.length → ∀ n s',
      postfix_expression fuel s = .ok (some n) s' → s.pos < s'.pos := by
  cases fuel with
  | zero => intro s hs n s' h; simp [postfix_expression] at h
  | succ fuel =>
    intro s hs n s' h
    rw [postfix_expression] at h
    cases hp : primary_expression fuel s with
    | oof => rw [hp] at h; exact PRes.noConfusion h
    | ok p s1 =>
      rw [hp] at h
      cases p with
      | none => simp only at h; simp at h
      | some p0 =>
        simp only at h
        have h1 : s.pos < s1.pos := primary_expression_strict fuel _ hs _ _ hp
        have le1 : stateLe s s1 := primary_expression_mono fuel _ hs _ _ hp
        cases ht : postfix_tail fuel s1 [] with
        | oof => rw [ht] at h; exact PRes.noConfusion h
        | ok ops s2 =>
          rw [ht] at h; simp only at h; cases h
          have le2 : stateLe s1 s' := postfix_tail_mono fuel _ _ le1.2.2.1 _ _ ht
          have := le2.2.1
          omega

/-- A successful `prefix_expression` consumes at least one token. -/
theorem prefix_expression_strict (fuel : Nat) :
    ∀ s, s.pos ≤ s.tokens.length → ∀ n s',
      prefix_expression fuel s = .ok (some n) s' → s.pos < s'.pos := by
  cases fuel with
  | zero => intro s hs n s' h; simp [prefix_expression] at h
  | succ fuel =>
    intro s hs n s' h
    rw [prefix_expression] at h
    cases ho : prefix_ops fuel s [] with
    | oof => rw [ho] at h; exact PRes.noConfusion h
    | ok ops s1 =>
      rw [ho] at h; simp only at h
      have le1 : stateLe s s1 := prefix_ops_mono fuel _ _ hs _ _ ho
      cases hp : postfix_expression fuel s1 with
      | oof => rw [hp] at h; exact PRes.noConfusion h
      | ok pe s2 =>
        rw [hp] at h
        cases pe with
        | none => simp only at h; simp at h
        | some pe0 =>
          simp only at h; cases h
          have h2 : s1.pos < s'.pos := postfix_expression_strict fuel _ le1.2.2.1 _ _ hp
          have := le1.2.1
          omega

/-- A successful `is_as_expression` consumes at least one token. -/
theorem is_as_expression_strict (fuel : Nat) :
    ∀ s, s.pos ≤ s.tokens.length → ∀ n s',
      is_as_expression fuel s = .ok (some n) s' → s.pos < s'.pos := by
  cases fuel with
  | zero => intro s hs n s' h; simp [is_as_expression] at h
  | succ fuel =>
    intro s hs n s' h
    rw [is_as_expression] at h
    cases ht : prefix_expression fuel s with
    | oof => rw [ht] at h; exact PRes.noConfusion h
    | ok hd s1 =>
      rw [ht] at h
      cases hd with
      | none => simp only at h; simp at h
      | some h0 =>
        simp only at h
        have h1 : s.pos < s1.pos := prefix_expression_strict fuel _ hs _ _ ht
        have le1 : stateLe s s1 := prefix_expression_mono fuel _ hs _ _ ht
        cases hts : is_as_terms fuel s1 [] with
        | oof => rw [hts] at h; exact PRes.noConfusion h
        | ok ts s2 =>
          rw [hts] at h; simp only at h; cases h
          have le2 : stateLe s1 s' := is_as_terms_mono fuel _ _ le1.2.2.1 _ _ hts
          have := le2.2.1
          omega

/-- A successful `multiplicative_expression` consumes at least one token. -/
theorem multiplicative_expression_strict (fuel : Nat) :
    ∀ s, s.pos ≤ s.tokens.length → ∀ n s',
      multiplicative_expression fuel s = .ok (some n) s' → s.pos < s'.pos := by
  cases fuel with
  | zero => intro s hs n s' h; simp [multiplicative_expression] at h
  | succ fuel =>
    intro s hs n s' h
    rw [multiplicative_expression] at h
    cases ht : is_as_expression fuel s with
    | oof => rw [ht] at h; exact PRes.noConfusion h
    | ok hd s1 =>
      rw [ht] at h
      cases hd with
      | none => simp only at h; simp at h
      | some h0 =>
        simp only at h
        have h1 : s.pos < s1.pos := is_as_expression_strict fuel _ hs _ _ ht
        have le1 : stateLe s s1 := is_as_expression_mono fuel _ hs _ _ ht
        cases hts : multiplicative_terms fuel s1 [] with
        | oof => rw [hts] at h; exact PRes.noConfusion h
        | ok ts s2 =>
          rw [hts] at h; simp only at h; cases h
          have le2 : stateLe s1 s' := multiplicative_terms_mono fuel _ _ le1.2.2.1 _ _ hts
          have := le2.2.1
          omega

/-- A successful `additive_expression` consumes at least one token. -/
theorem additive_expression_strict (fuel : Nat) :
    ∀ s, s.pos ≤ s.tokens.length → ∀ n s',
      additive_expression fuel s = .ok (some n) s' → s.pos < s'.pos := by
  cases fuel with
  | zero => intro s hs n s' h; simp [additive_expression] at h
  | succ fuel =>
    intro s hs n s' h
    rw [additive_expression] at h
    cases ht : multiplicative_expression fuel s with
    | oof => rw [ht] at h; exact PRes.noConfusion h
    | ok hd s1 =>
      rw [ht] at h
      cases hd with
      | none => simp only at h; simp at h
      | some h0 =>
        simp only at h
        have h1 : s.pos < s1.pos := multiplicative_expression_strict fuel _ hs _ _ ht
        have le1 : stateLe s s1 := multiplicative_expression_mono fuel _ hs _ _ ht
        cases hts : additive_terms fuel s1 [] with
        | oof => rw [hts] at h; exact PRes.noConfusion h
        | ok ts s2 =>
          rw [hts] at h; simp only at h; cases h
          have le2 : stateLe s1 s' := additive_terms_mono fuel _ _ le1.2.2.1 _ _ hts
          have := le2.2.1
          omega

/-- A successful `shift_expression` consumes at least one token. -/
theorem shift_expression_strict (fuel : Nat) :
    ∀ s, s.pos ≤ s.tokens.length → ∀ n s',
      shift_expression fuel s = .ok (some n) s' → s.pos < s'.pos := by
  cases fuel with
  | zero => intro s hs n s' h; simp [shift_expression] at h
  | succ fuel =>
    intro s hs n s' h
    rw [shift_expression] at h
    cases ht : additive_expression fuel s with
    | oof => rw [ht] at h; exact PRes.noConfusion h
    | ok hd s1 =>
      rw [ht] at h
      cases hd with
      | none => simp only at h; simp at h
      | some h0 =>
        simp only at h
        have h1 : s.pos < s1.pos := additive_expression_strict fuel _ hs _ _ ht
        have le1 : stateLe s s1 := additive_expression_mono fuel _ hs _ _ ht
        cases hts : shift_terms fuel s1 [] with
        | oof => rw [hts] at h; exact PRes.noConfusion h
        | ok ts s2 =>
          rw [hts] at h; simp only at h; cases h
          have le2 : stateLe s1 s' := shift_terms_mono fuel _ _ le1.2.2.1 _ _ hts
          have := le2.2.1
          omega

/-- A successful `compare_expression` consumes at least one token. -/
theorem compare_expression_strict (fuel : Nat) :
    ∀ s, s.pos ≤ s.tokens.length → ∀ n s',
      compare_expression fuel s = .ok (some n) s' → s.pos < s'.pos := by
  cases fuel with
  | zero => intro s hs n s' h; simp [compare_expression] at h
  | succ fuel =>
    intro s hs n s' h
    rw [compare_expression] at h
    cases ht : shift_expression fuel s with
    | oof => rw [ht] at h; exact PRes.noConfusion h
    | ok hd s1 =>
      rw [ht] at h
      cases hd with
      | none => simp only at h; simp at h
      | some h0 =>
        simp only at h
        have h1 : s.pos < s1.pos := shift_expression_strict fuel _ hs _ _ ht
        have le1 : stateLe s s1 := shift_expression_mono fuel _ hs _ _ ht
        cases hts : compare_terms fuel s1 [] with
        | oof => rw [hts] at h; exact PRes.noConfusion h
        | ok ts s2 =>
          rw [hts] at h; simp only at h; cases h
          have le2 : stateLe s1 s' := compare_terms_mono fuel _ _ le1.2.2.1 _ _ hts
          have := le2.2.1
          omega

/-- A successful `relational_expression` consumes at least one token. -/
theorem relational_expression_strict (fuel : Nat) :
    ∀ s, s.pos ≤ s.tokens.length → ∀ n s',
      relational_expression fuel s = .ok (some n) s' → s.pos < s'.pos := by
  cases fuel with
  | zero => intro s hs n s' h; simp [relational_expression] at h
  | succ fuel =>
    intro s hs n s' h
    rw [relational_expression] at h
    cases ht : compare_expression fuel s with
    | oof => rw [ht] at h; exact PRes.noConfusion h
    | ok hd s1 =>
      rw [ht] at h
      cases hd with
      | none => simp only at h; simp at h
      | some h0 =>
        simp only at h
        have h1 : s.pos < s1.pos := compare_expression_strict fuel _ hs _ _ ht
        have le1 : stateLe s s1 := compare_expression_mono fuel _ hs _ _ ht
        cases hts : relational_terms fuel s1 [] with
        | oof => rw [hts] at h; exact PRes.noConfusion h
        | ok ts s2 =>
          rw [hts] at h; simp only at h; cases h
          have le2 : stateLe s1 s' := relational_terms_mono fuel _ _ le1.2.2.1 _ _ hts
          have := le2.2.1
          omega

/-- A successful `equality_expression` consumes at least one token. -/
theorem equality_expression_strict (fuel : Nat) :
    ∀ s, s.pos ≤ s.tokens.length → ∀ n s',
      equality_expression fuel s = .ok (some n) s' → s.pos < s'.pos := by
  cases fuel with
  | zero => intro s hs n s' h; simp [equality_expression] at h
  | succ fuel =>
    intro s hs n s' h
    rw [equality_expression] at h
    cases ht : relational_expression fuel s with
    | oof => rw [ht] at h; exact PRes.noConfusion h
    | ok hd s1 =>
      rw [ht] at h
      cases hd with
      | none => simp only at h; simp at h
      | some h0 =>
        simp only at h
        have h1 : s.pos < s1.pos := relational_expression_strict fuel _ hs _ _ ht
        have le1 : stateLe s s1 := relational_expression_mono fuel _ hs _ _ ht
        cases hts : equality_terms fuel s1 [] with
        | oof => rw [hts] at h; exact PRes.noConfusion h
        | ok ts s2 =>
          rw [hts] at h; simp only at h; cases h
          have le2 : stateLe s1 s' := equality_terms_mono fuel _ _ le1.2.2.1 _ _ hts
          have := le2.2.1
          omega

/-- A successful `logical_and_expression` consumes at least one token. -/
theorem logical_and_expression_strict (fuel : Nat) :
    ∀ s, s.pos ≤ s.tokens.length → ∀ n s',
      logical_and_expression fuel s = .ok (some n) s' → s.pos < s'.pos := by
  cases fuel with
  | zero => intro s hs n s' h; simp [logical_and_expression] at h
  | succ fuel =>
    intro s hs n s' h
    rw [logical_and_expression] at h
    cases ht : equality_expression fuel s with
    | oof => rw [ht] at h; exact PRes.noConfusion h
    | ok hd s1 =>
      rw [ht] at h
      cases hd with
      | none => simp only at h; simp at h
      | some h0 =>
        simp only at h
        have h1 : s.pos < s1.pos := equality_expression_strict fuel _ hs _ _ ht
        have le1 : stateLe s s1 := equality_expression_mono fuel _ hs _ _ ht
        cases hts : logical_and_terms fuel s1 [] with
        | oof => rw [hts] at h; exact PRes.noConfusion h
        | ok ts s2 =>
          rw [hts] at h; simp only at h; cases h
          have le2 : stateLe s1 s' := logical_and_terms_mono fuel _ _ le1.2.2.1 _ _ hts
          have := le2.2.1
          omega

/-- A successful `logical_or_expression` consumes at least one token. -/
theorem logical_or_expression_strict (fuel : Nat) :
    ∀ s, s.pos ≤ s.tokens.length → ∀ n s',
      logical_or_expression fuel s = .ok (some n) s' → s.pos < s'.pos := by
  cases fuel with
  | zero => intro s hs n s' h; simp [logical_or_expression] at h
  | succ fuel =>
    intro s hs n s' h
    rw [logical_or_expression] at h
    cases ht : logical_and_expression fuel s with
    | oof => rw [ht] at h; exact PRes.noConfusion h
    | ok hd s1 =>
      rw [ht] at h
      cases hd with
      | none => simp only at h; simp at h
      | some h0 =>
        simp only at h
        have h1 : s.pos < s1.pos := logical_and_expression_strict fuel _ hs _ _ ht
        have le1 : stateLe s s1 := logical_and_expression_mono fuel _ hs _ _ ht
        cases hts : logical_or_terms fuel s1 [] with
        | oof => rw [hts] at h; exact PRes.noConfusion h
        | ok ts s2 =>
          rw [hts] at h; simp only at h; cases h
          have le2 : stateLe s1 s' := logical_or_terms_mono fuel _ _ le1.2.2.1 _ _ hts
          have := le2.2.1
          omega

/-- A successful `assignment_expression` consumes at least one token. -/
theorem assignment_expression_strict (fuel : Nat) :
    ∀ s, s.pos ≤ s.tokens.length → ∀ n s',
      assignment_expression fuel s = .ok (some n) s' → s.pos < s'.pos := by
  cases fuel with
  | zero => intro s hs n s' h; simp [assignment_expression] at h
  | succ fuel =>
    intro s hs n s' h
    rw [assignment_expression] at h
    cases ht : logical_or_expression fuel s with
    | oof => rw [ht] at h; exact PRes.noConfusion h
    | ok hd s1 =>
      rw [ht] at h
      cases hd with
      | none => simp only at h; simp at h
      | some h0 =>
        simp only at h
        have h1 : s.pos < s1.pos := logical_or_expression_strict fuel _ hs _ _ ht
        have le1 : stateLe s s1 := logical_or_expression_mono fuel _ hs _ _ ht
        cases hts : assignment_terms fuel s1 [] with
        | oof => rw [hts] at h; exact PRes.noConfusion h
        | ok ts s2 =>
          rw [hts] at h; simp only at h; cases h
          have le2 : stateLe s1 s' := assignment_terms_mono fuel _ _ le1.2.2.1 _ _ hts
          have := le2.2.1
          omega

/-- A successful `expression` consumes at least one token. -/
theorem expression_strict (fuel : Nat) :
    ∀ s, s.pos ≤ s.tokens.length → ∀ n s',
      expression fuel s = .ok (some n) s' → s.pos < s'.pos := by
  cases fuel with
  | zero => intro s hs n s' h; simp [expression] at h
  | succ fuel =>
    intro s hs n s' h
    rw [expression] at h
    cases ha : assignment_expression fuel s with
    | oof => rw [ha] at h; exact PRes.noConfusion h
    | ok a0 s1 =>
      rw [ha] at h
      cases a0 with
      | none => simp only at h; simp at h
      | some a1 =>
        simp only at h; cases h
        exact assignment_expression_strict fuel _ hs _ _ ha


/-- Monotonicity of `selection_statement`. -/
theorem selection_statement_mono (fuel : Nat) :
    ∀ s, s.pos ≤ s.tokens.length → ∀ r s',
      selection_statement fuel s = .ok r s' → stateLe s s' :=
  (stmt_mono fuel).1

/-- Monotonicity of `compound_tail`. -/
theorem compound_tail_mono (fuel : Nat) :
    ∀ s pos0 acc, s.pos ≤ s.tokens.length → ∀ r s',
      compound_tail fuel s pos0 acc = .ok r s' → stateLe s s' :=
  (stmt_mono fuel).2.2.1

/-- Monotonicity of `compound_statement`. -/
theorem compound_statement_mono (fuel : Nat) :
    ∀ s, s.pos ≤ s.tokens.length → ∀ r s',
      compound_statement fuel s = .ok r s' → stateLe s s' :=
  (stmt_mono fuel).2.2.2.1

/-- Monotonicity of `parameter_declaration`. -/
theorem parameter_declaration_mono (fuel : Nat) :
    ∀ s, s.pos ≤ s.tokens.length → ∀ r s',
      parameter_declaration fuel s = .ok r s' → stateLe s s' :=
  (stmt_mono fuel).2.2.2.2.1

/-- Monotonicity of `pdl_tail`. -/
theorem pdl_tail_mono (fuel : Nat) :
    ∀ s openp acc, s.pos ≤ s.tokens.length → ∀ r s',
      pdl_tail fuel s openp acc = .ok r s' → stateLe s s' :=
  (stmt_mono fuel).2.2.2.2.2.1

/-- Monotonicity of `parameter_declaration_list`. -/
theorem parameter_declaration_list_mono (fuel : Nat) :
    ∀ s, s.pos ≤ s.tokens.length → ∀ r s',
      parameter_declaration_list fuel s = .ok r s' → stateLe s s' :=
  (stmt_mono fuel).2.2.2.2.2.2.1

/-- Monotonicity of `declaration_finish`. -/
theorem declaration_finish_mono (fuel : Nat) :
    ∀ sem id0 ty s, s.pos ≤ s.tokens.length → ∀ r s',
      declaration_finish sem fuel id0 ty s = .ok r s' → stateLe s s' :=
  (stmt_mono fuel).2.2.2.2.2.2.2.2

/-- A successful `expression_statement` consumes at least one token. -/
theorem expression_statement_strict (fuel : Nat) (sem : Bool) :
    ∀ s, s.pos ≤ s.tokens.length → ∀ n s',
      expression_statement sem fuel s = .ok (some n) s' → s.pos < s'.pos := by
  cases fuel with
  | zero => intro s hs n s' h; simp [expression_statement] at h
  | succ fuel =>
    intro s hs n s' h
    rw [expression_statement] at h
    simp only [currS] at h
    cases hx : expression fuel s with
    | oof => rw [hx] at h; exact PRes.noConfusion h
    | ok e s1 =>
      rw [hx] at h
      cases e with
      | none => simp only at h; simp at h
      | some e0 =>
        simp only at h
        have h1 : s.pos < s1.pos := expression_strict fuel _ hs _ _ hx
        have le1 : stateLe s s1 := expression_mono fuel _ hs _ _ hx
        split at h
        · simp at h
        · split at h
          · cases h
            have le2 : stateLe s1 (next (currFlag (currFlag s1))) :=
              stateLe_next (stateLe_currFlag (stateLe_currFlag (stateLe_refl le1.2.2.1)))
            have := le2.2.1
            omega
          · cases h
            have le2 : stateLe s1 (currFlag (currFlag s1)) :=
              stateLe_currFlag (stateLe_currFlag (stateLe_refl le1.2.2.1))
            have := le2.2.1
            omega

/-- A successful `selection_statement` consumes at least one token. -/
theorem selection_statement_strict (fuel : Nat) :
    ∀ s, s.pos ≤ s.tokens.length → ∀ n s',
      selection_statement fuel s = .ok (some n) s' → s.pos < s'.pos := by
  cases fuel with
  | zero => intro s hs n s' h; simp [selection_statement] at h
  | succ fuel =>
    intro s hs n s' h
    rw [selection_statement] at h
    simp only [currS] at h
    split at h
    · simp at h
    · rename_i hcond
      have hlt : s.pos < s.tokens.length :=
        pos_lt_of_false (p := fun t => !(t.type == lexeme.Keyword && t.text == "if"))
          rfl hcond
      have hnx : (next (currFlag s)).pos = s.pos + 1 := next_currFlag_pos hlt
      split at h
      · exact PRes.noConfusion h
      · rename_i s1 heq; simp at h
      · rename_i e s1 heq
        have le1 : stateLe (next (currFlag s)) s1 := by
          refine stateLe_trans ?_ (expression_mono fuel _ ?_ _ _ heq)
          · exact stateLe_sndIf (stateLe_currFlag (stateLe_refl (next_inv _)))
          · exact (stateLe_sndIf (stateLe_currFlag (stateLe_refl (next_inv _)))).2.2.1
        split at h
        · exact PRes.noConfusion h
        · rename_i s2 heq2; simp at h
        · rename_i tb s2 heq2
          have le2 : stateLe (next (currFlag s)) s2 :=
            stateLe_trans le1 (compound_statement_mono fuel _ le1.2.2.1 _ _ heq2)
          split at h
          · cases h
            have h4 := (currFlag_fields s2).2.1
            have := le2.2.1
            omega
          · split at h
            · exact PRes.noConfusion h
            · rename_i s3 heq3; simp at h
            · rename_i fb s3 heq3
              cases h
              have le3 : stateLe (next (currFlag s)) s' :=
                stateLe_trans (stateLe_next (stateLe_currFlag le2))
                  (compound_statement_mono fuel _
                    (stateLe_next (stateLe_currFlag le2)).2.2.1 _ _ heq3)
              have := le3.2.1
              omega

/-- A successful `compound_statement` consumes at least one token. -/
theorem compound_statement_strict (fuel : Nat) :
    ∀ s, s.pos ≤ s.tokens.length → ∀ n s',
      compound_statement fuel s = .ok (some n) s' → s.pos < s'.pos := by
  cases fuel with
  | zero => intro s hs n s' h; simp [compound_statement] at h
  | succ fuel =>
    intro s hs n s' h
    rw [compound_statement] at h
    simp only [currS] at h
    split at h
    · simp at h
    · rename_i hcond
      have hlt : s.pos < s.tokens.length :=
        pos_lt_of_false (p := fun t => !(t.type == lexeme.LeftBrace)) rfl hcond
      have le1 : stateLe (next (currFlag s)) s' :=
        compound_tail_mono fuel _ _ _ (next_inv _) _ _ h
      have h2 : (next (currFlag s)).pos = s.pos + 1 := next_currFlag_pos hlt
      have := le1.2.1
      omega

/-- A successful `declaration` consumes at least one token. -/
theorem declaration_strict (fuel : Nat) (sem : Bool) :
    ∀ s, s.pos ≤ s.tokens.length → ∀ n s',
      declaration sem fuel s = .ok (some n) s' → s.pos < s'.pos := by
  cases fuel with
  | zero => intro s hs n s' h; simp [declaration] at h
  | succ fuel =>
    intro s hs n s' h
    rw [declaration] at h
    split at h
    · simp at h
    · cases hu : unqualified_id s with
      | mk id s1 =>
        rw [hu] at h
        cases id with
        | none => simp only at h; simp at h
        | some id0 =>
          obtain ⟨hlt, hs1⟩ := unqualified_id_success hu
          subst hs1
          simp only [currS] at h
          split at h
          · simp at h
          · have hA : s.pos < (next (currFlag (next (currFlag s)))).pos := by
              have h1 : (next (currFlag s)).pos = s.pos + 1 := next_currFlag_pos hlt
              have h2 : (next (currFlag s)).pos ≤ (next (currFlag (next (currFlag s)))).pos :=
                (stateLe_next (stateLe_currFlag (stateLe_refl (next_inv _)))).2.1
              omega
            cases hl : parameter_declaration_list fuel (next (currFlag (next (currFlag s)))) with
            | oof => rw [hl] at h; exact PRes.noConfusion h
            | ok l s2 =>
              rw [hl] at h
              have le2 : stateLe (next (currFlag (next (currFlag s)))) s2 :=
                parameter_declaration_list_mono fuel _ (next_inv _) _ _ hl
              cases l with
              | some l0 =>
                simp only at h
                have le3 : stateLe s2 s' :=
                  declaration_finish_mono fuel _ _ _ _ le2.2.2.1 _ _ h
                have := le2.2.1
                have := le3.2.1
                omega
              | none =>
                simp only at h
                cases hi : id_expression fuel s2 with
                | oof => rw [hi] at h; exact PRes.noConfusion h
                | ok ie s3 =>
                  rw [hi] at h
                  have le3 : stateLe s2 s3 := id_expression_mono fuel _ le2.2.2.1 _ _ hi
                  cases ie with
                  | some ie0 =>
                    simp only at h
                    have le4 : stateLe s3 s' :=
                      declaration_finish_mono fuel _ _ _ _ le3.2.2.1 _ _ h
                    have := le2.2.1
                    have := le3.2.1
                    have := le4.2.1
                    omega
                  | none =>
                    simp only at h
                    have le4 : stateLe s3 s' :=
                      declaration_finish_mono fuel _ _ _ _ le3.2.2.1 _ _ h
                    have := le2.2.1
                    have := le3.2.1
                    have := le4.2.1
                    omega

/-- A successful `statement` consumes at least one token. -/
theorem statement_strict (fuel : Nat) (sem : Bool) :
    ∀ s, s.pos ≤ s.tokens.length → ∀ n s',
      statement sem fuel s = .ok (some n) s' → s.pos < s'.pos := by
  cases fuel with
  | zero => intro s hs n s' h; simp [statement] at h
  | succ fuel =>
    intro s hs n s' h
    rw [statement] at h
    cases h1 : selection_statement fuel s with
    | oof => rw [h1] at h; exact PRes.noConfusion h
    | ok o s1 =>
      rw [h1] at h
      cases o with
      | some sel =>
        simp only at h; cases h
        exact selection_statement_strict fuel _ hs _ _ h1
      | none =>
        simp only at h
        have le1 : stateLe s s1 := selection_statement_mono fuel _ hs _ _ h1
        cases h2 : compound_statement fuel s1 with
        | oof => rw [h2] at h; exact PRes.noConfusion h
        | ok c s2 =>
          rw [h2] at h
          cases c with
          | some c0 =>
            simp only at h; cases h
            have := compound_statement_strict fuel _ le1.2.2.1 _ _ h2
            have := le1.2.1
            omega
          | none =>
            simp only at h
            have le2 : stateLe s s2 :=
              stateLe_trans le1 (compound_statement_mono fuel _ le1.2.2.1 _ _ h2)
            cases h3 : declaration true fuel s2 with
            | oof => rw [h3] at h; exact PRes.noConfusion h
            | ok d s3 =>
              rw [h3] at h
              cases d with
              | some d0 =>
                simp only at h; cases h
                have := declaration_strict fuel true _ le2.2.2.1 _ _ h3
                have := le2.2.1
                omega
              | none =>
                simp only at h
                have le3 : stateLe s s3 :=
                  stateLe_trans le2 (declaration_mono fuel _ _ le2.2.2.1 _ _ h3)
                cases h4 : expression_statement sem fuel s3 with
                | oof => rw [h4] at h; exact PRes.noConfusion h
                | ok e s4 =>
                  rw [h4] at h
                  cases e with
                  | some e0 =>
                    simp only at h; cases h
                    have := expression_statement_strict fuel sem _ le3.2.2.1 _ _ h4
                    have := le3.2.1
                    omega
                  | none => simp only at h; simp at h

/-- `next` keeps the token sequence. -/
theorem next_tokens (s : PState) : (next s).tokens = s.tokens := rfl

/-- The cursor after `next`. -/
theorem next_pos (s : PState) : (next s).pos = min (s.pos + 1) s.tokens.length := rfl

/-- `curr()` keeps the cursor. -/
theorem currFlag_pos (s : PState) : (currFlag s).pos = s.pos := (currFlag_fields s).2.1

/-- `curr()` keeps the token sequence. -/
theorem currFlag_tokens (s : PState) : (currFlag s).tokens = s.tokens := (currFlag_fields s).1

/-- `error(msg)` keeps the cursor. -/
theorem errorS_pos (s : PState) (m : String) : (errorS s m).pos = s.pos :=
  (currFlag_fields s).2.1

/-- `error(msg)` keeps the token sequence. -/
theorem errorS_tokens (s : PState) (m : String) : (errorS s m).tokens = s.tokens :=
  (currFlag_fields s).1

/-- A conditional `error(msg)` keeps the cursor. -/
theorem condError_pos (b : Bool) (s : PState) (m : String) :
    (if b = true then errorS s m else s).pos = s.pos := by
  split
  · exact errorS_pos s m
  · rfl

/-- A conditional `error(msg)` keeps the token sequence. -/
theorem condError_tokens (b : Bool) (s : PState) (m : String) :
    (if b = true then errorS s m else s).tokens = s.tokens := by
  split
  · exact errorS_tokens s m
  · rfl

/-- Fuel sufficiency for every expression-grammar production: with the
stated linear fuel budget, the production never runs out of fuel. -/
theorem expr_fuel : ∀ fuel : Nat,
    (∀ s, s.pos ≤ s.tokens.length →
      1 + 20 * s.tokens.length ≤ fuel + 20 * s.pos →
      primary_expression fuel s ≠ .oof) ∧
    (∀ s acc, s.pos ≤ s.tokens.length →
      1 + 20 * s.tokens.length ≤ fuel + 20 * s.pos →
      postfix_tail fuel s acc ≠ .oof) ∧
    (∀ s, s.pos ≤ s.tokens.length →
      2 + 20 * s.tokens.length ≤ fuel + 20 * s.pos →
      postfix_expression fuel s ≠ .oof) ∧
    (∀ s acc, s.pos ≤ s.tokens.length →
      1 + 20 * s.tokens.length ≤ fuel + 20 * s.pos →
      prefix_ops fuel s acc ≠ .oof) ∧
    (∀ s, s.pos ≤ s.tokens.length →
      3 + 20 * s.tokens.length ≤ fuel + 20 * s.pos →
      prefix_expression fuel s ≠ .oof) ∧
    (∀ s acc, s.pos ≤ s.tokens.length →
      1 + 20 * s.tokens.length ≤ fuel + 20 * s.pos →
      is_as_terms fuel s acc ≠ .oof) ∧
    (∀ s, s.pos ≤ s.tokens.length →
      4 + 20 * s.tokens.length ≤ fuel + 20 * s.pos →
      is_as_expression fuel s ≠ .oof) ∧
    (∀ s acc, s.pos ≤ s.tokens.length →
      1 + 20 * s.tokens.length ≤ fuel + 20 * s.pos →
      multiplicative_terms fuel s acc ≠ .oof) ∧
    (∀ s, s.pos ≤ s.tokens.length →
      5 + 20 * s.tokens.length ≤ fuel + 20 * s.pos →
      multiplicative_expression fuel s ≠ .oof) ∧
    (∀ s acc, s.pos ≤ s.tokens.length →
      1 + 20 * s.tokens.length ≤ fuel + 20 * s.pos →
      additive_terms fuel s acc ≠ .oof) ∧
    (∀ s, s.pos ≤ s.tokens.length →
      6 + 20 * s.tokens.length ≤ fuel + 20 * s.pos →
      additive_expression fuel s ≠ .oof) ∧
    (∀ s acc, s.pos ≤ s.tokens.length →
      1 + 20 * s.tokens.length ≤ fuel + 20 * s.pos →
      shift_terms fuel s acc ≠ .oof) ∧
    (∀ s, s.pos ≤ s.tokens.length →
      7 + 20 * s.tokens.length ≤ fuel + 20 * s.pos →
      shift_expression fuel s ≠ .oof) ∧
    (∀ s acc, s.pos ≤ s.tokens.length →
      1 + 20 * s.tokens.length ≤ fuel + 20 * s.pos →
      compare_terms fuel s acc ≠ .oof) ∧
    (∀ s, s.pos ≤ s.tokens.length →
      8 + 20 * s.tokens.length ≤ fuel + 20 * s.pos →
      compare_expression fuel s ≠ .oof) ∧
    (∀ s acc, s.pos ≤ s.tokens.length →
      1 + 20 * s.tokens.length ≤ fuel + 20 * s.pos →
      relational_terms fuel s acc ≠ .oof) ∧
    (∀ s, s.pos ≤ s.tokens.length →
      9 + 20 * s.tokens.length ≤ fuel + 20 * s.pos →
      relational_expression fuel s ≠ .oof) ∧
    (∀ s acc, s.pos ≤ s.tokens.length →
      1 + 20 * s.tokens.length ≤ fuel + 20 * s.pos →
      equality_terms fuel s acc ≠ .oof) ∧
    (∀ s, s.pos ≤ s.tokens.length →
      10 + 20 * s.tokens.length ≤ fuel + 20 * s.pos →
      equality_expression fuel s ≠ .oof) ∧
    (∀ s acc, s.pos ≤ s.tokens.length →
      1 + 20 * s.tokens.length ≤ fuel + 20 * s.pos →
      logical_and_terms fuel s acc ≠ .oof) ∧
    (∀ s, s.pos ≤ s.tokens.length →
      11 + 20 * s.tokens.length ≤ fuel + 20 * s.pos →
      logical_and_expression fuel s ≠ .oof) ∧
    (∀ s acc, s.pos ≤ s.tokens.length →
      1 + 20 * s.tokens.length ≤ fuel + 20 * s.pos →
      logical_or_terms fuel s acc ≠ .oof) ∧
    (∀ s, s.pos ≤ s.tokens.length →
      12 + 20 * s.tokens.length ≤ fuel + 20 * s.pos →
      logical_or_expression fuel s ≠ .oof) ∧
    (∀ s acc, s.pos ≤ s.tokens.length →
      1 + 20 * s.tokens.length ≤ fuel + 20 * s.pos →
      assignment_terms fuel s acc ≠ .oof) ∧
    (∀ s, s.pos ≤ s.tokens.length →
      13 + 20 * s.tokens.length ≤ fuel + 20 * s.pos →
      assignment_expression fuel s ≠ .oof) ∧
    (∀ s, s.pos ≤ s.tokens.length →
      14 + 20 * s.tokens.length ≤ fuel + 20 * s.pos →
      expression fuel s ≠ .oof) ∧
    (∀ s acc, s.pos ≤ s.tokens.length →
      1 + 20 * s.tokens.length ≤ fuel + 20 * s.pos →
      expression_list_tail fuel s acc ≠ .oof) ∧
    (∀ s, s.pos ≤ s.tokens.length →
      15 + 20 * s.tokens.length ≤ fuel + 20 * s.pos →
      expression_list fuel s ≠ .oof) := by
  intro fuel
  induction fuel with
  | zero =>
    refine ⟨?_, ?_, ?_, ?_, ?_, ?_, ?_, ?_, ?_, ?_, ?_, ?_, ?_, ?_, ?_, ?_, ?_, ?_, ?_, ?_, ?_, ?_, ?_, ?_, ?_, ?_, ?_, ?_⟩ <;> intros <;> omega
  | succ fuel ih =>
    obtain ⟨ih1, ih2, ih3, ih4, ih5, ih6, ih7, ih8, ih9, ih10, ih11, ih12, ih13, ih14, ih15, ih16, ih17, ih18, ih19, ih20, ih21, ih22, ih23, ih24, ih25, ih26, ih27, ih28⟩ := ih
    refine ⟨?_, ?_, ?_, ?_, ?_, ?_, ?_, ?_, ?_, ?_, ?_, ?_, ?_, ?_, ?_, ?_, ?_, ?_, ?_, ?_, ?_, ?_, ?_, ?_, ?_, ?_, ?_, ?_⟩
    · -- primary_expression
      intro s hs hb
      rw [primary_expression]
      simp only [currS]
      split
      · exact ok_ne_oof
      · split
        · rename_i hcond hparen
          have hlt : s.pos < s.tokens.length :=
            pos_lt_of_true (p := fun t => t.type == lexeme.LeftParen) rfl hparen
          have hxp : (next (currFlag s)).pos = s.pos + 1 := next_currFlag_pos hlt
          have hxt : (next (currFlag s)).tokens.length = s.tokens.length := by
            rw [next_tokens, currFlag_tokens]
          split
          · rename_i heq
            exact absurd heq (ih28 _ (next_inv _) (by omega))
          · exact ok_ne_oof
          · split <;> exact ok_ne_oof
        · exact ok_ne_oof
    · -- postfix_tail
      intro s acc hs hb
      rw [postfix_tail]
      simp only [currS]
      split
      · rename_i hop
        have hlt : s.pos < s.tokens.length := pos_lt_of_true rfl hop
        have hxp : (next (currFlag s)).pos = s.pos + 1 := next_currFlag_pos hlt
        have hxt : (next (currFlag s)).tokens.length = s.tokens.length := by
          rw [next_tokens, currFlag_tokens]
        split
        · split
          · rename_i heq
            exact absurd heq (ih28 _ (next_inv _) (by omega))
          · rename_i el s1 heq
            have le1 : stateLe (next (currFlag s)) s1 :=
              expression_list_mono fuel _ (next_inv _) _ _ heq
            have e1 : s1.tokens.length = s.tokens.length := by
              rw [le1.1, next_tokens, currFlag_tokens]
            have p1 : s.pos + 1 ≤ s1.pos := by have := le1.2.1; omega
            have h2 := le1.2.2.1
            refine ih2 _ _ (next_inv _) ?_
            simp only [next_pos, next_tokens, condError_pos, condError_tokens,
              currFlag_pos, currFlag_tokens]
            omega
        · split
          · rename_i heq
            exact absurd heq (ih28 _ (next_inv _) (by omega))
          · rename_i el s1 heq
            have le1 : stateLe (next (currFlag s)) s1 :=
              expression_list_mono fuel _ (next_inv _) _ _ heq
            have e1 : s1.tokens.length = s.tokens.length := by
              rw [le1.1, next_tokens, currFlag_tokens]
            have p1 : s.pos + 1 ≤ s1.pos := by have := le1.2.1; omega
            have h2 := le1.2.2.1
            refine ih2 _ _ (next_inv _) ?_
            simp only [next_pos, next_tokens, condError_pos, condError_tokens,
              currFlag_pos, currFlag_tokens]
            omega
        · refine ih2 _ _ (next_inv _) ?_
          omega
      · exact ok_ne_oof
    · -- postfix_expression
      intro s hs hb
      rw [postfix_expression]
      split
      · rename_i heq
        exact absurd heq (ih1 _ hs (by omega))
      · exact ok_ne_oof
      · rename_i p0 s1 heq
        have hst : s.pos < s1.pos := primary_expression_strict fuel _ hs _ _ heq
        have le1 : stateLe s s1 := primary_expression_mono fuel _ hs _ _ heq
        have e1 : s1.tokens.length = s.tokens.length := by rw [le1.1]
        split
        · rename_i heq2
          have h2 := le1.2.2.1
          exact absurd heq2 (ih2 _ _ le1.2.2.1 (by omega))
        · exact ok_ne_oof
    · -- prefix_ops
      intro s acc hs hb
      rw [prefix_ops]
      simp only [currS]
      split
      · rename_i hop
        have hlt : s.pos < s.tokens.length :=
          pos_lt_of_true (p := fun t => is_prefix_operator t.type) rfl hop
        have hxp : (next (currFlag s)).pos = s.pos + 1 := next_currFlag_pos hlt
        have hxt : (next (currFlag s)).tokens.length = s.tokens.length := by
          rw [next_tokens, currFlag_tokens]
        refine ih4 _ _ (next_inv _) ?_
        omega
      · exact ok_ne_oof
    · -- prefix_expression
      intro s hs hb
      rw [prefix_expression]
      split
      · rename_i heq
        exact absurd heq (ih4 _ _ hs (by omega))
      · rename_i ops s1 heq
        have le1 : stateLe s s1 := prefix_ops_mono fuel _ _ hs _ _ heq
        have e1 : s1.tokens.length = s.tokens.length := by rw [le1.1]
        have p1 := le1.2.1
        split
        · rename_i heq2
          exact absurd heq2 (ih3 _ le1.2.2.1 (by omega))
        · exact ok_ne_oof
        · exact ok_ne_oof
    · -- is_as_terms
      intro s acc hs hb
      rw [is_as_terms]
      simp only [currS]
      split
      · rename_i hop
        have hlt : s.pos < s.tokens.length := pos_lt_of_true rfl hop
        have hxp : (next (currFlag s)).pos = s.pos + 1 := next_currFlag_pos hlt
        have hxt : (next (currFlag s)).tokens.length = s.tokens.length := by
          rw [next_tokens, currFlag_tokens]
        split
        · rename_i heq
          exact absurd heq (ih5 _ (next_inv _) (by omega))
        · exact ok_ne_oof
        · rename_i e0 s1 heq
          have le1 : stateLe (next (currFlag s)) s1 :=
            prefix_expression_mono fuel _ (next_inv _) _ _ heq
          have e1 : s1.tokens.length = s.tokens.length := by
            rw [le1.1, next_tokens, currFlag_tokens]
          have p1 : s.pos + 1 ≤ s1.pos := by have := le1.2.1; omega
          refine ih6 _ _ le1.2.2.1 ?_
          omega
      · exact ok_ne_oof
    · -- is_as_expression
      intro s hs hb
      rw [is_as_expression]
      split
      · rename_i heq
        exact absurd heq (ih5 _ hs (by omega))
      · exact ok_ne_oof
      · rename_i h0 s1 heq
        have hst : s.pos < s1.pos := prefix_expression_strict fuel _ hs _ _ heq
        have le1 : stateLe s s1 := prefix_expression_mono fuel _ hs _ _ heq
        have e1 : s1.tokens.length = s.tokens.length := by rw [le1.1]
        split
        · rename_i heq2
          have h2 := le1.2.2.1
          exact absurd heq2 (ih6 _ _ le1.2.2.1 (by omega))
        · exact ok_ne_oof
    · -- multiplicative_terms
      intro s acc hs hb
      rw [multiplicative_terms]
      simp only [currS]
      split
      · rename_i hop
        have hlt : s.pos < s.tokens.length := pos_lt_of_true rfl hop
        have hxp : (next (currFlag s)).pos = s.pos + 1 := next_currFlag_pos hlt
        have hxt : (next (currFlag s)).tokens.length = s.tokens.length := by
          rw [next_tokens, currFlag_tokens]
        split
        · rename_i heq
          exact absurd heq (ih7 _ (next_inv _) (by omega))
        · exact ok_ne_oof
        · rename_i e0 s1 heq
          have le1 : stateLe (next (currFlag s)) s1 :=
            is_as_expression_mono fuel _ (next_inv _) _ _ heq
          have e1 : s1.tokens.length = s.tokens.length := by
            rw [le1.1, next_tokens, currFlag_tokens]
          have p1 : s.pos + 1 ≤ s1.pos := by have := le1.2.1; omega
          refine ih8 _ _ le1.2.2.1 ?_
          omega
      · exact ok_ne_oof
    · -- multiplicative_expression
      intro s hs hb
      rw [multiplicative_expression]
      split
      · rename_i heq
        exact absurd heq (ih7 _ hs (by omega))
      · exact ok_ne_oof
      · rename_i h0 s1 heq
        have hst : s.pos < s1.pos := is_as_expression_strict fuel _ hs _ _ heq
        have le1 : stateLe s s1 := is_as_expression_mono fuel _ hs _ _ heq
        have e1 : s1.tokens.length = s.tokens.length := by rw [le1.1]
        split
        · rename_i heq2
          have h2 := le1.2.2.1
          exact absurd heq2 (ih8 _ _ le1.2.2.1 (by omega))
        · exact ok_ne_oof
    · -- additive_terms
      intro s acc hs hb
      rw [additive_terms]
      simp only [currS]
      split
      · rename_i hop
        have hlt : s.pos < s.tokens.length := pos_lt_of_true rfl hop
        have hxp : (next (currFlag s)).pos = s.pos + 1 := next_currFlag_pos hlt
        have hxt : (next (currFlag s)).tokens.length = s.tokens.length := by
          rw [next_tokens, currFlag_tokens]
        split
        · rename_i heq
          exact absurd heq (ih9 _ (next_inv _) (by omega))
        · exact ok_ne_oof
        · rename_i e0 s1 heq
          have le1 : stateLe (next (currFlag s)) s1 :=
            multiplicative_expression_mono fuel _ (next_inv _) _ _ heq
          have e1 : s1.tokens.length = s.tokens.length := by
            rw [le1.1, next_tokens, currFlag_tokens]
          have p1 : s.pos + 1 ≤ s1.pos := by have := le1.2.1; omega
          refine ih10 _ _ le1.2.2.1 ?_
          omega
      · exact ok_ne_oof
    · -- additive_expression
      intro s hs hb
      rw [additive_expression]
      split
      · rename_i heq
        exact absurd heq (ih9 _ hs (by omega))
      · exact ok_ne_oof
      · rename_i h0 s1 heq
        have hst : s.pos < s1.pos := multiplicative_expression_strict fuel _ hs _ _ heq
        have le1 : stateLe s s1 := multiplicative_expression_mono fuel _ hs _ _ heq
        have e1 : s1.tokens.length = s.tokens.length := by rw [le1.1]
        split
        · rename_i heq2
          have h2 := le1.2.2.1
          exact absurd heq2 (ih10 _ _ le1.2.2.1 (by omega))
        · exact ok_ne_oof
    · -- shift_terms
      intro s acc hs hb
      rw [shift_terms]
      simp only [currS]
      split
      · rename_i hop
        have hlt : s.pos < s.tokens.length := pos_lt_of_true rfl hop
        have hxp : (next (currFlag s)).pos = s.pos + 1 := next_currFlag_pos hlt
        have hxt : (next (currFlag s)).tokens.length = s.tokens.length := by
          rw [next_tokens, currFlag_tokens]
        split
        · rename_i heq
          exact absurd heq (ih11 _ (next_inv _) (by omega))
        · exact ok_ne_oof
        · rename_i e0 s1 heq
          have le1 : stateLe (next (currFlag s)) s1 :=
            additive_expression_mono fuel _ (next_inv _) _ _ heq
          have e1 : s1.tokens.length = s.tokens.length := by
            rw [le1.1, next_tokens, currFlag_tokens]
          have p1 : s.pos + 1 ≤ s1.pos := by have := le1.2.1; omega
          refine ih12 _ _ le1.2.2.1 ?_
          omega
      · exact ok_ne_oof
    · -- shift_expression
      intro s hs hb
      rw [shift_expression]
      split
      · rename_i heq
        exact absurd heq (ih11 _ hs (by omega))
      · exact ok_ne_oof
      · rename_i h0 s1 heq
        have hst : s.pos < s1.pos := additive_expression_strict fuel _ hs _ _ heq
        have le1 : stateLe s s1 := additive_expression_mono fuel _ hs _ _ heq
        have e1 : s1.tokens.length = s.tokens.length := by rw [le1.1]
        split
        · rename_i heq2
          have h2 := le1.2.2.1
          exact absurd heq2 (ih12 _ _ le1.2.2.1 (by omega))
        · exact ok_ne_oof
    · -- compare_terms
      intro s acc hs hb
      rw [compare_terms]
      simp only [currS]
      split
      · rename_i hop
        have hlt : s.pos < s.tokens.length := pos_lt_of_true rfl hop
        have hxp : (next (currFlag s)).pos = s.pos + 1 := next_currFlag_pos hlt
        have hxt : (next (currFlag s)).tokens.length = s.tokens.length := by
          rw [next_tokens, currFlag_tokens]
        split
        · rename_i heq
          exact absurd heq (ih13 _ (next_inv _) (by omega))
        · exact ok_ne_oof
        · rename_i e0 s1 heq
          have le1 : stateLe (next (currFlag s)) s1 :=
            shift_expression_mono fuel _ (next_inv _) _ _ heq
          have e1 : s1.tokens.length = s.tokens.length := by
            rw [le1.1, next_tokens, currFlag_tokens]
          have p1 : s.pos + 1 ≤ s1.pos := by have := le1.2.1; omega
          refine ih14 _ _ le1.2.2.1 ?_
          omega
      · exact ok_ne_oof
    · -- compare_expression
      intro s hs hb
      rw [compare_expression]
      split
      · rename_i heq
        exact absurd heq (ih13 _ hs (by omega))
      · exact ok_ne_oof
      · rename_i h0 s1 heq
        have hst : s.pos < s1.pos := shift_expression_strict fuel _ hs _ _ heq
        have le1 : stateLe s s1 := shift_expression_mono fuel _ hs _ _ heq
        have e1 : s1.tokens.length = s.tokens.length := by rw [le1.1]
        split
        · rename_i heq2
          have h2 := le1.2.2.1
          exact absurd heq2 (ih14 _ _ le1.2.2.1 (by omega))
        · exact ok_ne_oof
    · -- relational_terms
      intro s acc hs hb
      rw [relational_terms]
      simp only [currS]
      split
      · rename_i hop
        have hlt : s.pos < s.tokens.length := pos_lt_of_true rfl hop
        have hxp : (next (currFlag s)).pos = s.pos + 1 := next_currFlag_pos hlt
        have hxt : (next (currFlag s)).tokens.length = s.tokens.length := by
          rw [next_tokens, currFlag_tokens]
        split
        · rename_i heq
          exact absurd heq (ih15 _ (next_inv _) (by omega))
        · exact ok_ne_oof
        · rename_i e0 s1 heq
          have le1 : stateLe (next (currFlag s)) s1 :=
            compare_expression_mono fuel _ (next_inv _) _ _ heq
          have e1 : s1.tokens.length = s.tokens.length := by
            rw [le1.1, next_tokens, currFlag_tokens]
          have p1 : s.pos + 1 ≤ s1.pos := by have := le1.2.1; omega
          refine ih16 _ _ le1.2.2.1 ?_
          omega
      · exact ok_ne_oof
    · -- relational_expression
      intro s hs hb
      rw [relational_expression]
      split
      · rename_i heq
        exact absurd heq (ih15 _ hs (by omega))
      · exact ok_ne_oof
      · rename_i h0 s1 heq
        have hst : s.pos < s1.pos := compare_expression_strict fuel _ hs _ _ heq
        have le1 : stateLe s s1 := compare_expression_mono fuel _ hs _ _ heq
        have e1 : s1.tokens.length = s.tokens.length := by rw [le1.1]
        split
        · rename_i heq2
          have h2 := le1.2.2.1
          exact absurd heq2 (ih16 _ _ le1.2.2.1 (by omega))
        · exact ok_ne_oof
    · -- equality_terms
      intro s acc hs hb
      rw [equality_terms]
      simp only [currS]
      split
      · rename_i hop
        have hlt : s.pos < s.tokens.length := pos_lt_of_true rfl hop
        have hxp : (next (currFlag s)).pos = s.pos + 1 := next_currFlag_pos hlt
        have hxt : (next (currFlag s)).tokens.length = s.tokens.length := by
          rw [next_tokens, currFlag_tokens]
        split
        · rename_i heq
          exact absurd heq (ih17 _ (next_inv _) (by omega))
        · exact ok_ne_oof
        · rename_i e0 s1 heq
          have le1 : stateLe (next (currFlag s)) s1 :=
            relational_expression_mono fuel _ (next_inv _) _ _ heq
          have e1 : s1.tokens.length = s.tokens.length := by
            rw [le1.1, next_tokens, currFlag_tokens]
          have p1 : s.pos + 1 ≤ s1.pos := by have := le1.2.1; omega
          refine ih18 _ _ le1.2.2.1 ?_
          omega
      · exact ok_ne_oof
    · -- equality_expression
      intro s hs hb
      rw [equality_expression]
      split
      · rename_i heq
        exact absurd heq (ih17 _ hs (by omega))
      · exact ok_ne_oof
      · rename_i h0 s1 heq
        have hst : s.pos < s1.pos := relational_expression_strict fuel _ hs _ _ heq
        have le1 : stateLe s s1 := relational_expression_mono fuel _ hs _ _ heq
        have e1 : s1.tokens.length = s.tokens.length := by rw [le1.1]
        split
        · rename_i heq2
          have h2 := le1.2.2.1
          exact absurd heq2 (ih18 _ _ le1.2.2.1 (by omega))
        · exact ok_ne_oof
    · -- logical_and_terms
      intro s acc hs hb
      rw [logical_and_terms]
      simp only [currS]
      split
      · rename_i hop
        have hlt : s.pos < s.tokens.length := pos_lt_of_true rfl hop
        have hxp : (next (currFlag s)).pos = s.pos + 1 := next_currFlag_pos hlt
        have hxt : (next (currFlag s)).tokens.length = s.tokens.length := by
          rw [next_tokens, currFlag_tokens]
        split
        · rename_i heq
          exact absurd heq (ih19 _ (next_inv _) (by omega))
        · exact ok_ne_oof
        · rename_i e0 s1 heq
          have le1 : stateLe (next (currFlag s)) s1 :=
            equality_expression_mono fuel _ (next_inv _) _ _ heq
          have e1 : s1.tokens.length = s.tokens.length := by
            rw [le1.1, next_tokens, currFlag_tokens]
          have p1 : s.pos + 1 ≤ s1.pos := by have := le1.2.1; omega
          refine ih20 _ _ le1.2.2.1 ?_
          omega
      · exact ok_ne_oof
    · -- logical_and_expression
      intro s hs hb
      rw [logical_and_expression]
      split
      · rename_i heq
        exact absurd heq (ih19 _ hs (by omega))
      · exact ok_ne_oof
      · rename_i h0 s1 heq
        have hst : s.pos < s1.pos := equality_expression_strict fuel _ hs _ _ heq
        have le1 : stateLe s s1 := equality_expression_mono fuel _ hs _ _ heq
        have e1 : s1.tokens.length = s.tokens.length := by rw [le1.1]
        split
        · rename_i heq2
          have h2 := le1.2.2.1
          exact absurd heq2 (ih20 _ _ le1.2.2.1 (by omega))
        · exact ok_ne_oof
    · -- logical_or_terms
      intro s acc hs hb
      rw [logical_or_terms]
      simp only [currS]
      split
      · rename_i hop
        have hlt : s.pos < s.tokens.length := pos_lt_of_true rfl hop
        have hxp : (next (currFlag s)).pos = s.pos + 1 := next_currFlag_pos hlt
        have hxt : (next (currFlag s)).tokens.length = s.tokens.length := by
          rw [next_tokens, currFlag_tokens]
        split
        · rename_i heq
          exact absurd heq (ih21 _ (next_inv _) (by omega))
        · exact ok_ne_oof
        · rename_i e0 s1 heq
          have le1 : stateLe (next (currFlag s)) s1 :=
            logical_and_expression_mono fuel _ (next_inv _) _ _ heq
          have e1 : s1.tokens.length = s.tokens.length := by
            rw [le1.1, next_tokens, currFlag_tokens]
          have p1 : s.pos + 1 ≤ s1.pos := by have := le1.2.1; omega
          refine ih22 _ _ le1.2.2.1 ?_
          omega
      · exact ok_ne_oof
    · -- logical_or_expression
      intro s hs hb
      rw [logical_or_expression]
      split
      · rename_i heq
        exact absurd heq (ih21 _ hs (by omega))
      · exact ok_ne_oof
      · rename_i h0 s1 heq
        have hst : s.pos < s1.pos := logical_and_expression_strict fuel _ hs _ _ heq
        have le1 : stateLe s s1 := logical_and_expression_mono fuel _ hs _ _ heq
        have e1 : s1.tokens.length = s.tokens.length := by rw [le1.1]
        split
        · rename_i heq2
          have h2 := le1.2.2.1
          exact absurd heq2 (ih22 _ _ le1.2.2.1 (by omega))
        · exact ok_ne_oof
    · -- assignment_terms
      intro s acc hs hb
      rw [assignment_terms]
      simp only [currS]
      split
      · rename_i hop
        have hlt : s.pos < s.tokens.length := pos_lt_of_true rfl hop
        have hxp : (next (currFlag s)).pos = s.pos + 1 := next_currFlag_pos hlt
        have hxt : (next (currFlag s)).tokens.length = s.tokens.length := by
          rw [next_tokens, currFlag_tokens]
        split
        · rename_i heq
          exact absurd heq (ih23 _ (next_inv _) (by omega))
        · exact ok_ne_oof
        · rename_i e0 s1 heq
          have le1 : stateLe (next (currFlag s)) s1 :=
            logical_or_expression_mono fuel _ (next_inv _) _ _ heq
          have e1 : s1.tokens.length = s.tokens.length := by
            rw [le1.1, next_tokens, currFlag_tokens]
          have p1 : s.pos + 1 ≤ s1.pos := by have := le1.2.1; omega
          refine ih24 _ _ le1.2.2.1 ?_
          omega
      · exact ok_ne_oof
    · -- assignment_expression
      intro s hs hb
      rw [assignment_expression]
      split
      · rename_i heq
        exact absurd heq (ih23 _ hs (by omega))
      · exact ok_ne_oof
      · rename_i h0 s1 heq
        have hst : s.pos < s1.pos := logical_or_expression_strict fuel _ hs _ _ heq
        have le1 : stateLe s s1 := logical_or_expression_mono fuel _ hs _ _ heq
        have e1 : s1.tokens.length = s.tokens.length := by rw [le1.1]
        split
        · rename_i heq2
          have h2 := le1.2.2.1
          exact absurd heq2 (ih24 _ _ le1.2.2.1 (by omega))
        · exact ok_ne_oof
    · -- expression
      intro s hs hb
      rw [expression]
      split
      · rename_i heq
        exact absurd heq (ih25 _ hs (by omega))
      · exact ok_ne_oof
      · exact ok_ne_oof
    · -- expression_list_tail
      intro s acc hs hb
      rw [expression_list_tail]
      simp only [currS]
      split
      · rename_i hcomma
        have hlt : s.pos < s.tokens.length :=
          pos_lt_of_true (p := fun t => t.type == lexeme.Comma) rfl hcomma
        have hxp : (next (currFlag s)).pos = s.pos + 1 := next_currFlag_pos hlt
        have hxt : (next (currFlag s)).tokens.length = s.tokens.length := by
          rw [next_tokens, currFlag_tokens]
        split
        · rename_i heq
          refine absurd heq (ih26 _ ?_ ?_)
          · split
            · exact next_inv _
            · rw [currFlag_pos, currFlag_tokens]; exact next_inv _
          · split <;>
              (simp only [next_pos, next_tokens, currFlag_pos, currFlag_tokens]; omega)
        · rename_i x s1 heq
          have le1 : stateLe (currFlag (next (currFlag s))) s1 := by
            refine stateLe_trans ?_ (expression_mono fuel _ ?_ _ _ heq)
            · exact stateLe_sndIf (stateLe_refl (by
                rw [currFlag_pos, currFlag_tokens]; exact next_inv _))
            · exact (stateLe_sndIf (stateLe_refl (by
                rw [currFlag_pos, currFlag_tokens]; exact next_inv _))).2.2.1
          have e1 : s1.tokens.length = s.tokens.length := by
            rw [le1.1, currFlag_tokens, next_tokens, currFlag_tokens]
          have p1 : s.pos + 1 ≤ s1.pos := by
            have := le1.2.1
            rw [currFlag_pos] at this
            omega
          refine ih27 _ _ le1.2.2.1 ?_
          omega
      · exact ok_ne_oof
    · -- expression_list
      intro s hs hb
      rw [expression_list]
      simp only [currS]
      split
      · rename_i heq
        refine absurd heq (ih26 _ ?_ ?_)
        · split
          · exact next_inv _
          · rw [currFlag_pos, currFlag_tokens]; exact hs
        · split <;>
            (simp only [next_pos, next_tokens, currFlag_pos, currFlag_tokens]; omega)
      · exact ok_ne_oof
      · rename_i x s1 heq
        have le1 : stateLe (currFlag s) s1 := by
          refine stateLe_trans ?_ (expression_mono fuel _ ?_ _ _ heq)
          · exact stateLe_sndIf (stateLe_refl (by
              rw [currFlag_pos, currFlag_tokens]; exact hs))
          · exact (stateLe_sndIf (stateLe_refl (by
              rw [currFlag_pos, currFlag_tokens]; exact hs))).2.2.1
        have e1 : s1.tokens.length = s.tokens.length := by
          rw [le1.1, currFlag_tokens]
        have h1 := expression_strict fuel _ ?hA _ _ heq
        case hA =>
          split
          · exact next_inv _
          · rw [currFlag_pos, currFlag_tokens]; exact hs
        have h3 : s.pos < s1.pos := by
          revert h1
          split <;> (simp only [next_pos, next_tokens, currFlag_pos, currFlag_tokens]; omega)
        split
        · rename_i heq2
          exact absurd heq2 (ih27 _ _ le1.2.2.1 (by omega))
        · exact ok_ne_oof

/-- Projection: fuel sufficiency of `expression`. -/
theorem expression_fuel (fuel : Nat) :
    ∀ s, s.pos ≤ s.tokens.length →
      14 + 20 * s.tokens.length ≤ fuel + 20 * s.pos →
      expression fuel s ≠ .oof :=
  (expr_fuel fuel).2.2.2.2.2.2.2.2.2.2.2.2.2.2.2.2.2.2.2.2.2.2.2.2.2.1

/-- Fuel sufficiency of `qualified_tail` and `qualified_id`. -/
theorem qualified_fuel : ∀ fuel : Nat,
    (∀ s acc, s.pos ≤ s.tokens.length →
      1 + 20 * s.tokens.length ≤ fuel + 20 * s.pos →
      qualified_tail fuel s acc ≠ .oof) ∧
    (∀ s, s.pos ≤ s.tokens.length →
      1 + 20 * s.tokens.length ≤ fuel + 20 * s.pos →
      qualified_id fuel s ≠ .oof) := by
  intro fuel
  induction fuel with
  | zero => refine ⟨?_, ?_⟩ <;> intros <;> omega
  | succ fuel ih =>
    obtain ⟨iht, ihq⟩ := ih
    constructor
    · intro s acc hs hb
      rw [qualified_tail]
      simp only [currS]
      split
      · rename_i hsc
        have hlt : s.pos < s.tokens.length :=
          pos_lt_of_true (p := fun t => t.type == lexeme.Scope) rfl hsc
        have hxp : (next (currFlag s)).pos = s.pos + 1 := next_currFlag_pos hlt
        have hxt : (next (currFlag s)).tokens.length = s.tokens.length := by
          rw [next_tokens, currFlag_tokens]
        cases hu : unqualified_id (next (currFlag s)) with
        | mk id s2 =>
          have le2 : stateLe (next (currFlag s)) s2 := by
            have t := unqualified_id_mono (stateLe_refl (next_inv _)) (s := next (currFlag s))
            rw [hu] at t; exact t
          cases id with
          | none => exact ok_ne_oof
          | some i =>
            dsimp only
            have e1 : s2.tokens.length = s.tokens.length := by
              rw [le2.1, next_tokens, currFlag_tokens]
            have p1 : s.pos + 1 ≤ s2.pos := by have := le2.2.1; omega
            refine iht _ _ le2.2.2.1 ?_
            omega
      · exact ok_ne_oof
    · intro s hs hb
      rw [qualified_id]
      cases hu : unqualified_id s with
      | mk id s1 =>
        have le1 : stateLe s s1 := by
          have t := unqualified_id_mono (stateLe_refl hs) (s := s)
          rw [hu] at t; exact t
        cases id with
        | none => exact ok_ne_oof
        | some id0 =>
          dsimp only
          obtain ⟨hlt, hseq⟩ := unqualified_id_success hu
          subst hseq
          simp only [currS]
          split
          · exact ok_ne_oof
          · have hxp : (next (currFlag s)).pos = s.pos + 1 := next_currFlag_pos hlt
            have hxt : (next (currFlag s)).tokens.length = s.tokens.length := by
              rw [next_tokens, currFlag_tokens]
            refine iht _ _ (by rw [currFlag_pos, currFlag_tokens]; exact next_inv _) ?_
            simp only [currFlag_pos, currFlag_tokens]
            omega

/-- Fuel sufficiency of `id_expression`. -/
theorem id_expression_fuel (fuel : Nat) :
    ∀ s, s.pos ≤ s.tokens.length →
      2 + 20 * s.tokens.length ≤ fuel + 20 * s.pos →
      id_expression fuel s ≠ .oof := by
  cases fuel with
  | zero => intros; omega
  | succ fuel =>
    intro s hs hb
    rw [id_expression]
    split
    · rename_i heq
      exact absurd heq ((qualified_fuel fuel).2 _ hs (by omega))
    · exact ok_ne_oof
    · rename_i s1 heq
      cases hu : unqualified_id s1 with
      | mk u s2 =>
        cases u with
        | some u0 => exact ok_ne_oof
        | none => exact ok_ne_oof

/-- Fuel sufficiency of `expression_statement`. -/
theorem expression_statement_fuel (fuel : Nat) (sem : Bool) :
    ∀ s, s.pos ≤ s.tokens.length →
      15 + 20 * s.tokens.length ≤ fuel + 20 * s.pos →
      expression_statement sem fuel s ≠ .oof := by
  cases fuel with
  | zero => intros; omega
  | succ fuel =>
    intro s hs hb
    rw [expression_statement]
    simp only [currS]
    split
    · rename_i heq
      exact absurd heq (expression_fuel fuel _ hs (by omega))
    · exact ok_ne_oof
    · rename_i e0 s1 heq
      split
      · exact ok_ne_oof
      · split <;> exact ok_ne_oof

/-- Invariants of the passing-style block. -/
theorem param_pass_facts (t : token) (s : PState) :
    ((param_pass t s).2).tokens.length = s.tokens.length ∧
    (s.pos ≤ s.tokens.length →
      s.pos ≤ ((param_pass t s).2).pos ∧
      ((param_pass t s).2).pos ≤ s.tokens.length) := by
  unfold param_pass
  repeat' split
  all_goals refine ⟨rfl, fun h => ⟨?_, ?_⟩⟩
  all_goals try dsimp only
  all_goals try simp only [next_pos]
  all_goals omega

/-- Invariants of the this-specifier block. -/
theorem param_mod_facts (t : token) (s : PState) :
    ((param_mod t s).2).tokens.length = s.tokens.length ∧
    (s.pos ≤ s.tokens.length →
      s.pos ≤ ((param_mod t s).2).pos ∧
      ((param_mod t s).2).pos ≤ s.tokens.length) := by
  unfold param_mod
  repeat' split
  all_goals refine ⟨rfl, fun h => ⟨?_, ?_⟩⟩
  all_goals try dsimp only
  all_goals try simp only [next_pos]
  all_goals omega

/-- Fuel sufficiency for every statement- and declaration-grammar
production. -/
theorem stmt_fuel : ∀ fuel : Nat,
    (∀ s, s.pos ≤ s.tokens.length →
      1 + 20 * s.tokens.length ≤ fuel + 20 * s.pos →
      selection_statement fuel s ≠ .oof) ∧
    (∀ sem s, s.pos ≤ s.tokens.length →
      16 + 20 * s.tokens.length ≤ fuel + 20 * s.pos →
      statement sem fuel s ≠ .oof) ∧
    (∀ s pos0 acc, s.pos ≤ s.tokens.length →
      17 + 20 * s.tokens.length ≤ fuel + 20 * s.pos →
      compound_tail fuel s pos0 acc ≠ .oof) ∧
    (∀ s, s.pos ≤ s.tokens.length →
      1 + 20 * s.tokens.length ≤ fuel + 20 * s.pos →
      compound_statement fuel s ≠ .oof) ∧
    (∀ s, s.pos ≤ s.tokens.length →
      2 + 20 * s.tokens.length ≤ fuel + 20 * s.pos →
      parameter_declaration fuel s ≠ .oof) ∧
    (∀ s openp acc, s.pos ≤ s.tokens.length →
      3 + 20 * s.tokens.length ≤ fuel + 20 * s.pos →
      pdl_tail fuel s openp acc ≠ .oof) ∧
    (∀ s, s.pos ≤ s.tokens.length →
      1 + 20 * s.tokens.length ≤ fuel + 20 * s.pos →
      parameter_declaration_list fuel s ≠ .oof) ∧
    (∀ sem s, s.pos ≤ s.tokens.length →
      1 + 20 * s.tokens.length ≤ fuel + 20 * s.pos →
      declaration sem fuel s ≠ .oof) ∧
    (∀ sem id0 ty s, s.pos ≤ s.tokens.length →
      1 + 20 * s.tokens.length ≤ fuel + 20 * s.pos →
      declaration_finish sem fuel id0 ty s ≠ .oof) := by
  intro fuel
  induction fuel with
  | zero =>
    refine ⟨?_, ?_, ?_, ?_, ?_, ?_, ?_, ?_, ?_⟩ <;> intros <;> omega
  | succ fuel ih =>
    obtain ⟨ih1, ih2, ih3, ih4, ih5, ih6, ih7, ih8, ih9⟩ := ih
    refine ⟨?_, ?_, ?_, ?_, ?_, ?_, ?_, ?_, ?_⟩
    · -- selection_statement
      intro s hs hb
      rw [selection_statement]
      simp only [currS]
      split
      · exact ok_ne_oof
      · rename_i hcond
        have hlt : s.pos < s.tokens.length :=
          pos_lt_of_false (p := fun t => !(t.type == lexeme.Keyword && t.text == "if"))
            rfl hcond
        have hxp : (next (currFlag s)).pos = s.pos + 1 := next_currFlag_pos hlt
        have hxt : (next (currFlag s)).tokens.length = s.tokens.length := by
          rw [next_tokens, currFlag_tokens]
        split
        · rename_i heq
          refine absurd heq (expression_fuel fuel _ ?_ ?_)
          · split
            · exact next_inv _
            · rw [currFlag_pos, currFlag_tokens]; exact next_inv _
          · split <;>
              (simp only [next_pos, next_tokens, currFlag_pos, currFlag_tokens]; omega)
        · exact ok_ne_oof
        · rename_i e s1 heq
          have le1 : stateLe (currFlag (next (currFlag s))) s1 := by
            refine stateLe_trans ?_ (expression_mono fuel _ ?_ _ _ heq)
            · exact stateLe_sndIf (stateLe_refl (by
                rw [currFlag_pos, currFlag_tokens]; exact next_inv _))
            · exact (stateLe_sndIf (stateLe_refl (by
                rw [currFlag_pos, currFlag_tokens]; exact next_inv _))).2.2.1
          have e1 : s1.tokens.length = s.tokens.length := by
            rw [le1.1, currFlag_tokens, next_tokens, currFlag_tokens]
          have p1 : s.pos + 1 ≤ s1.pos := by
            have := le1.2.1
            rw [currFlag_pos] at this
            omega
          split
          · rename_i heq2
            exact absurd heq2 (ih4 _ le1.2.2.1 (by omega))
          · exact ok_ne_oof
          · rename_i tb s2 heq2
            have le2 : stateLe s1 s2 := compound_statement_mono fuel _ le1.2.2.1 _ _ heq2
            have e2 : s2.tokens.length = s.tokens.length := by rw [le2.1]; exact e1
            have p2 : s.pos + 1 ≤ s2.pos := by have := le2.2.1; omega
            split
            · exact ok_ne_oof
            · split
              · rename_i heq3
                refine absurd heq3 (ih4 _ (next_inv _) ?_)
                simp only [next_pos, next_tokens, currFlag_pos, currFlag_tokens]
                have := le2.2.2.1
                omega
              · exact ok_ne_oof
              · exact ok_ne_oof
    · -- statement
      intro sem s hs hb
      rw [statement]
      split
      · rename_i heq
        exact absurd heq (ih1 _ hs (by omega))
      · exact ok_ne_oof
      · rename_i s1 heq
        have le1 : stateLe s s1 := selection_statement_mono fuel _ hs _ _ heq
        have e1 : s1.tokens.length = s.tokens.length := by rw [le1.1]
        have p1 := le1.2.1
        split
        · rename_i heq2
          exact absurd heq2 (ih4 _ le1.2.2.1 (by omega))
        · exact ok_ne_oof
        · rename_i s2 heq2
          have le2 : stateLe s s2 :=
            stateLe_trans le1 (compound_statement_mono fuel _ le1.2.2.1 _ _ heq2)
          have e2 : s2.tokens.length = s.tokens.length := by rw [le2.1]
          have p2 := le2.2.1
          split
          · rename_i heq3
            exact absurd heq3 (ih8 _ _ le2.2.2.1 (by omega))
          · exact ok_ne_oof
          · rename_i s3 heq3
            have le3 : stateLe s s3 :=
              stateLe_trans le2 (declaration_mono fuel _ _ le2.2.2.1 _ _ heq3)
            have e3 : s3.tokens.length = s.tokens.length := by rw [le3.1]
            have p3 := le3.2.1
            split
            · rename_i heq4
              exact absurd heq4 (expression_statement_fuel fuel sem _ le3.2.2.1 (by omega))
            · exact ok_ne_oof
            · exact ok_ne_oof
    · -- compound_tail
      intro s pos0 acc hs hb
      rw [compound_tail]
      simp only [currS]
      split
      · split
        · rename_i heq
          refine absurd heq (ih2 _ _ ?_ ?_)
          · rw [currFlag_pos, currFlag_tokens]; exact hs
          · simp only [currFlag_pos, currFlag_tokens]; omega
        · exact ok_ne_oof
        · rename_i st s1 heq
          have hst : (currFlag s).pos < s1.pos :=
            statement_strict fuel true _ (by rw [currFlag_pos, currFlag_tokens]; exact hs) _ _ heq
          rw [currFlag_pos] at hst
          have le1 : stateLe (currFlag s) s1 :=
            statement_mono fuel _ _ (by rw [currFlag_pos, currFlag_tokens]; exact hs) _ _ heq
          have e1 : s1.tokens.length = s.tokens.length := by rw [le1.1, currFlag_tokens]
          refine ih3 _ _ _ le1.2.2.1 ?_
          omega
      · exact ok_ne_oof
    · -- compound_statement
      intro s hs hb
      rw [compound_statement]
      simp only [currS]
      split
      · exact ok_ne_oof
      · rename_i hcond
        have hlt : s.pos < s.tokens.length :=
          pos_lt_of_false (p := fun t => !(t.type == lexeme.LeftBrace)) rfl hcond
        have hxp : (next (currFlag s)).pos = s.pos + 1 := next_currFlag_pos hlt
        have hxt : (next (currFlag s)).tokens.length = s.tokens.length := by
          rw [next_tokens, currFlag_tokens]
        refine ih3 _ _ _ (next_inv _) ?_
        omega
    · -- parameter_declaration
      intro s hs hb
      rw [parameter_declaration]
      simp only [currS]
      cases hp : param_pass (currTok (currFlag s)) (currFlag (currFlag s)) with
      | mk pass s1 =>
        have f1 := param_pass_facts (currTok (currFlag s)) (currFlag (currFlag s))
        rw [hp] at f1
        simp only [currFlag_pos, currFlag_tokens] at f1
        cases hm : param_mod (currTok s1) (currFlag s1) with
        | mk mod s2 =>
          have f2 := param_mod_facts (currTok s1) (currFlag s1)
          rw [hm] at f2
          simp only [currFlag_pos, currFlag_tokens] at f2
          try dsimp only at f1 f2
          obtain ⟨f1t, f1c⟩ := f1
          obtain ⟨f1p, f1l⟩ := f1c hs
          have hs1 : s1.pos ≤ s1.tokens.length := by omega
          obtain ⟨f2t, f2c⟩ := f2
          obtain ⟨f2p, f2l⟩ := f2c hs1
          have hs2 : s2.pos ≤ s2.tokens.length := by omega
          dsimp only
          split
          · rename_i heq
            refine absurd heq (ih8 _ _ hs2 ?_)
            omega
          · exact ok_ne_oof
          · exact ok_ne_oof
    · -- pdl_tail
      intro s openp acc hs hb
      rw [pdl_tail]
      simp only [currS]
      split
      · rename_i heq
        exact absurd heq (ih5 _ hs (by omega))
      · rename_i s1 heq
        split
        · exact ok_ne_oof
        · exact ok_ne_oof
      · rename_i p0 s1 heq
        have le1 : stateLe s s1 := parameter_declaration_mono fuel _ hs _ _ heq
        have e1 : s1.tokens.length = s.tokens.length := by rw [le1.1]
        have p1 := le1.2.1
        split
        · exact ok_ne_oof
        · split
          · exact ok_ne_oof
          · rename_i hrp hcomma
            have hlt : s1.pos < s1.tokens.length :=
              pos_lt_of_false (p := fun t => !(t.type == lexeme.Comma)) rfl hcomma
            have hxp : (next (currFlag s1)).pos = s1.pos + 1 := next_currFlag_pos hlt
            have hxt : (next (currFlag s1)).tokens.length = s.tokens.length := by
              rw [next_tokens, currFlag_tokens]; exact e1
            refine ih6 _ _ _ (next_inv _) ?_
            omega
    · -- parameter_declaration_list
      intro s hs hb
      rw [parameter_declaration_list]
      simp only [currS]
      split
      · exact ok_ne_oof
      · rename_i hcond
        have hlt : s.pos < s.tokens.length :=
          pos_lt_of_false (p := fun t => !(t.type == lexeme.LeftParen)) rfl hcond
        have hxp : (next (currFlag s)).pos = s.pos + 1 := next_currFlag_pos hlt
        have hxt : (next (currFlag s)).tokens.length = s.tokens.length := by
          rw [next_tokens, currFlag_tokens]
        refine ih6 _ _ _ (next_inv _) ?_
        omega
    · -- declaration
      intro sem s hs hb
      rw [declaration]
      split
      · exact ok_ne_oof
      · cases hu : unqualified_id s with
        | mk id s1 =>
          cases id with
          | none => exact ok_ne_oof
          | some id0 =>
            dsimp only
            obtain ⟨hlt, hseq⟩ := unqualified_id_success hu
            subst hseq
            simp only [currS]
            split
            · exact ok_ne_oof
            · rename_i hcolon
              have hlt2 : (next (currFlag s)).pos < (next (currFlag s)).tokens.length :=
                pos_lt_of_false (p := fun t => !(t.type == lexeme.Colon)) rfl hcolon
              have hxp1 : (next (currFlag s)).pos = s.pos + 1 := next_currFlag_pos hlt
              have hxp2 : (next (currFlag (next (currFlag s)))).pos =
                  (next (currFlag s)).pos + 1 := next_currFlag_pos hlt2
              have hxt : (next (currFlag (next (currFlag s)))).tokens.length =
                  s.tokens.length := by
                rw [next_tokens, currFlag_tokens, next_tokens, currFlag_tokens]
              have hxt1 : (next (currFlag s)).tokens.length = s.tokens.length := by
                rw [next_tokens, currFlag_tokens]
              split
              · rename_i heq
                exact absurd heq (ih7 _ (next_inv _) (by omega))
              · rename_i l0 s2 heq
                have le2 : stateLe (next (currFlag (next (currFlag s)))) s2 :=
                  parameter_declaration_list_mono fuel _ (next_inv _) _ _ heq
                have e2 : s2.tokens.length = s.tokens.length := by rw [le2.1]; exact hxt
                have p2 := le2.2.1
                refine ih9 _ _ _ _ le2.2.2.1 ?_
                omega
              · rename_i s2 heq
                have le2 : stateLe (next (currFlag (next (currFlag s)))) s2 :=
                  parameter_declaration_list_mono fuel _ (next_inv _) _ _ heq
                have e2 : s2.tokens.length = s.tokens.length := by rw [le2.1]; exact hxt
                have p2 := le2.2.1
                split
                · rename_i heq2
                  exact absurd heq2 (id_expression_fuel fuel _ le2.2.2.1 (by omega))
                · rename_i ie s3 heq2
                  have le3 : stateLe s2 s3 := id_expression_mono fuel _ le2.2.2.1 _ _ heq2
                  have e3 : s3.tokens.length = s.tokens.length := by rw [le3.1]; exact e2
                  have p3 := le3.2.1
                  refine ih9 _ _ _ _ le3.2.2.1 ?_
                  omega
                · rename_i s3 heq2
                  have le3 : stateLe s2 s3 := id_expression_mono fuel _ le2.2.2.1 _ _ heq2
                  have e3 : s3.tokens.length = s.tokens.length := by rw [le3.1]; exact e2
                  have p3 := le3.2.1
                  refine ih9 _ _ _ _ le3.2.2.1 ?_
                  omega
    · -- declaration_finish
      intro sem id0 ty s hs hb
      rw [declaration_finish]
      simp only [currS]
      split
      · rename_i hassign
        have hlt : s.pos < s.tokens.length :=
          pos_lt_of_true (p := fun t => t.type == lexeme.Assignment) rfl hassign
        have hxp : (next (currFlag s)).pos = s.pos + 1 := next_currFlag_pos hlt
        have hxt : (next (currFlag s)).tokens.length = s.tokens.length := by
          rw [next_tokens, currFlag_tokens]
        split
        · rename_i heq
          exact absurd heq (ih2 _ _ (next_inv _) (by omega))
        · exact ok_ne_oof
        · exact ok_ne_oof
      · split
        · exact ok_ne_oof
        · split <;> exact ok_ne_oof

/-- Projection: fuel sufficiency of `declaration`. -/
theorem declaration_fuel (fuel : Nat) :
    ∀ sem s, s.pos ≤ s.tokens.length →
      1 + 20 * s.tokens.length ≤ fuel + 20 * s.pos →
      declaration sem fuel s ≠ .oof :=
  (stmt_fuel fuel).2.2.2.2.2.2.2.1

/-- Fuel sufficiency of the translation-unit loop. -/
theorem tu_tail_fuel : ∀ fuel : Nat, ∀ s acc, s.pos ≤ s.tokens.length →
    2 + 20 * s.tokens.length ≤ fuel + 20 * s.pos →
    tu_tail fuel s acc ≠ .oof := by
  intro fuel
  induction fuel with
  | zero => intros; omega
  | succ fuel ih =>
    intro s acc hs hb
    rw [tu_tail]
    split
    · rename_i heq
      exact absurd heq (declaration_fuel fuel _ _ hs (by omega))
    · exact ok_ne_oof
    · rename_i d s1 heq
      have hst : s.pos < s1.pos := declaration_strict fuel true _ hs _ _ heq
      have le1 : stateLe s s1 := declaration_mono fuel _ _ hs _ _ heq
      have e1 : s1.tokens.length = s.tokens.length := by rw [le1.1]
      refine ih _ _ le1.2.2.1 ?_
      omega

/-- Fuel sufficiency of `translation_unit`. -/
theorem translation_unit_fuel (fuel : Nat) :
    ∀ s, s.pos ≤ s.tokens.length →
      3 + 20 * s.tokens.length ≤ fuel + 20 * s.pos →
      translation_unit fuel s ≠ .oof := by
  cases fuel with
  | zero => intros; omega
  | succ fuel =>
    intro s hs hb
    rw [translation_unit]
    split
    · rename_i heq
      exact absurd heq (tu_tail_fuel fuel _ _ hs (by omega))
    · exact ok_ne_oof

/-- With fuel `3 + 20 * n` for `n` input tokens, `parse` completes. -/
theorem parse_total (tokens : List token) :
    parse tokens (3 + 20 * tokens.length) ≠ .oof := by
  unfold parse
  cases ht : translation_unit (3 + 20 * tokens.length) (initState tokens) with
  | oof =>
    refine absurd ht (translation_unit_fuel _ _ (Nat.zero_le _) ?_)
    simp [initState]
  | ok tu s =>
    dsimp only
    split <;> (intro hh; simp at hh)


/-!  Small field lemmas used by the claim proofs. -/

/-- `next()` keeps the error sink. -/
theorem next_errors (s : PState) : (next s).errors = s.errors := rfl

/-- A `curr()` call keeps the error sink. -/
theorem currFlag_errors (s : PState) : (currFlag s).errors = s.errors :=
  (currFlag_fields s).2.2

/-- `error(msg)` appends exactly one diagnostic. -/
theorem errorS_errors_length (s : PState) (m : String) :
    (errorS s m).errors.length = s.errors.length + 1 := by
  unfold errorS currS
  simp [currFlag_errors]

/-- A failing `unqualified_id` leaves the state as `curr()` left it. -/
theorem unqualified_id_none {s s1 : PState} (h : unqualified_id s = (none, s1)) :
    s1 = currFlag s := by
  unfold unqualified_id at h
  simp only [currS] at h
  split at h
  · cases h; rfl
  · exact absurd h (by simp)

/-- The comma loop of `expression_list` only appends to its accumulator. -/
theorem el_tail_prefix (fuel : Nat) :
    ∀ s acc es s', expression_list_tail fuel s acc = .ok es s' →
      ∃ extra, es = acc ++ extra := by
  induction fuel with
  | zero => intro s acc es s' h; rw [expression_list_tail] at h; exact absurd h (by simp)
  | succ fuel ih =>
    intro s acc es s' h
    rw [expression_list_tail] at h
    simp only [currS] at h
    split at h
    · split at h
      · exact absurd h (by simp)
      · obtain ⟨extra, he⟩ := ih _ _ _ _ h
        subst he
        exact ⟨_, List.append_assoc _ _ _⟩
    · cases h
      exact ⟨[], by simp⟩

/-- The `(:: unqualified_id)+` loop reports a diagnostic whenever it
yields null. -/
theorem qualified_tail_none_errors (fuel : Nat) :
    ∀ s acc s', qualified_tail fuel s acc = .ok none s' →
      s.errors.length < s'.errors.length := by
  induction fuel with
  | zero => intro s acc s' h; rw [qualified_tail] at h; exact absurd h (by simp)
  | succ fuel ih =>
    intro s acc s' h
    rw [qualified_tail] at h
    simp only [currS] at h
    split at h
    · cases hu : unqualified_id (next (currFlag s)) with
      | mk id s2 =>
        rw [hu] at h
        cases id with
        | none =>
          cases h
          have he := unqualified_id_none hu
          subst he
          rw [errorS_errors_length]
          simp only [currFlag_errors, next_errors]
          omega
        | some i =>
          have hlt := ih _ _ _ h
          obtain ⟨_, hseq⟩ := unqualified_id_success hu
          subst hseq
          simp only [next_errors, currFlag_errors] at hlt
          omega
    · exact absurd h (by simp)

/-- Every null exit of `declaration_finish` reports a diagnostic. -/
theorem declaration_finish_none_errors (fuel : Nat) (sem : Bool)
    (id0 : unqualified_id_node) (ty : declaration_type) {s s' : PState}
    (h : declaration_finish sem fuel id0 ty s = .ok none s') :
    s.errors.length < s'.errors.length := by
  cases fuel with
  | zero => rw [declaration_finish] at h; exact absurd h (by simp)
  | succ fuel =>
    rw [declaration_finish] at h
    simp only [currS] at h
    split at h
    · split at h
      · exact absurd h (by simp)
      · rename_i s2 heq
        cases h
        have le2 := statement_mono fuel sem (next (currFlag s)) (next_inv _) none s2 heq
        have hel := le2.2.2.2
        simp only [next_errors, currFlag_errors] at hel
        rw [next_errors, errorS_errors_length]
        omega
      · exact absurd h (by simp)
    · split at h
      · exact absurd h (by simp)
      · split at h
        · cases h
          rw [errorS_errors_length]
          simp only [currFlag_errors]
          omega
        · exact absurd h (by simp)

/-- Appending on the right preserves sublists. -/
theorem sublist_appendl {α : Type} {l l' : List α} (h : l.Sublist l') (r : List α) :
    l.Sublist (l' ++ r) := h.trans (List.sublist_append_left l' r)

/-- Appending on the left preserves sublists. -/
theorem sublist_appendr {α : Type} {l l' : List α} (h : l.Sublist l') (r : List α) :
    l.Sublist (r ++ l') := h.trans (List.sublist_append_right r l')

/-!  The claims. -/

/-- C1 counterexample: on `x : int = a + ;` the parser appends a
diagnostic (the dangling `+`), yet `parse` reaches end-of-input and
returns true. -/
theorem C1_diagnostic_but_true :
    parse_returned (parse toks_error_but_done 100) = some true ∧
    parse_error_count (parse toks_error_but_done 100) = some 1 :=
  ⟨rfl, rfl⟩

/-- C1: amended — a completed `parse` returns false exactly when the
cursor failed to reach end-of-input; a hard failure (a diagnostic in the
error sink) alone does not force a false return. -/
theorem C1_false_iff_not_at_end (tokens : List token) (fuel : Nat)
    (h : parse tokens fuel ≠ PRes.oof) :
    parse_returned (parse tokens fuel) = some false ↔
      parse_final_pos (parse tokens fuel) ≠ some tokens.length := by
  cases hp : parse tokens fuel with
  | oof => exact absurd hp h
  | ok r s' =>
    obtain ⟨b, tu⟩ := r
    simp only [parse_returned, parse_final_pos]
    unfold parse at hp
    cases ht : translation_unit fuel (initState tokens) with
    | oof => rw [ht] at hp; exact absurd hp (by simp)
    | ok tu0 s0 =>
      rw [ht] at hp
      have hle := translation_unit_mono fuel (initState tokens) (by simp [initState]) tu0 s0 ht
      have htok : s0.tokens = tokens := hle.1
      dsimp only at hp
      split at hp
      · rename_i hnd
        simp only [PRes.ok.injEq, Prod.mk.injEq] at hp
        obtain ⟨⟨hb, -⟩, hs⟩ := hp
        subst hb
        subst hs
        simp only [doneB, Bool.not_eq_eq_eq_not, Bool.not_true, beq_eq_false_iff_ne] at hnd
        rw [htok] at hnd
        simp only [errorS_pos, ne_eq, Option.some.injEq]
        exact ⟨fun _ => hnd, fun _ => trivial⟩
      · rename_i hnd
        simp only [PRes.ok.injEq, Prod.mk.injEq] at hp
        obtain ⟨⟨hb, -⟩, hs⟩ := hp
        subst hb
        subst hs
        have hd : doneB s0 = true := by
          revert hnd
          cases doneB s0 <;> simp
        simp only [doneB, beq_iff_eq] at hd
        rw [htok] at hd
        simp only [ne_eq, Option.some.injEq]
        constructor
        · intro hc
          exact absurd hc (by simp)
        · intro hc
          exact absurd hd hc

/-- C1 witness: the biconditional instantiated on `x : int = a + ;`. -/
theorem C1_false_iff_not_at_end_witness :
    (parse_returned (parse toks_error_but_done 100) = some false ↔
      parse_final_pos (parse toks_error_but_done 100) ≠ some toks_error_but_done.length) :=
  C1_false_iff_not_at_end toks_error_but_done 100
    (fun hh => absurd (congrArg parse_returned hh) (by decide))

/-- C2 counterexample: parsing the expression-list `a , )` returns a node
whose second (post-comma) term holds a null expression. -/
theorem C2_comma_term_null :
    el_terms_present (expression_list 100 (initState toks_trailing_comma)) =
      some [true, false] := rfl

/-- C2: amended — the first term of every returned expression-list holds a
non-null expression (the lead expression is null-checked before the node
is built); terms added after a comma are pushed unchecked and may hold
null. -/
theorem C2_first_term_present (fuel : Nat) (s : PState) (l : List Bool)
    (h : el_terms_present (expression_list fuel s) = some l) :
    l.head? = some true := by
  unfold el_terms_present at h
  cases he : expression_list fuel s with
  | oof => rw [he] at h; exact absurd h (by simp)
  | ok r s1 =>
    rw [he] at h
    cases r with
    | none => exact absurd h (by simp)
    | some n =>
      cases n with
      | mk es =>
        simp only [Option.some.injEq] at h
        subst h
        cases fuel with
        | zero => rw [expression_list] at he; exact absurd he (by simp)
        | succ fuel =>
          rw [expression_list] at he
          simp only [currS] at he
          split at he
          · exact absurd he (by simp)
          · exact absurd he (by simp)
          · rename_i x s2 heq
            split at he
            · exact absurd he (by simp)
            · rename_i es2 s3 heq2
              obtain ⟨extra, hpre⟩ := el_tail_prefix fuel _ _ _ _ heq2
              simp only [PRes.ok.injEq, Option.some.injEq,
                expression_list_node.mk.injEq] at he
              obtain ⟨hes, -⟩ := he
              subst hes
              subst hpre
              simp

/-- C2 witness: the expression-list `a` has its sole (first) term present. -/
theorem C2_first_term_present_witness : ([true] : List Bool).head? = some true :=
  C2_first_term_present 100 (initState [tId "a" 1]) [true] rfl

/-- C3: on the single-token input `x`, `declaration` consumes the final
token with its lead unqualified-id and then calls `curr()` with the
cursor at end-of-input, violating the accessor's `!done()` precondition —
the embedding's `curr_end` instrumentation flag is raised during
`parse`. -/
theorem C3_curr_called_at_end :
    parse_curr_end (parse toks_single_identifier 100) = some true := rfl

/-- C4 counterexample: with the cursor at 0, `position + (-1)` lies below
the valid range, yet `peek(-1)` does not yield absent — the source checks
only the upper bound before indexing, so the embedding yields the junk
value of the out-of-range read. -/
theorem C4_peek_below_range :
    (s_single.pos : Int) + (-1) < 0 ∧ peek s_single (-1) = some invalidTok := by
  constructor
  · decide
  · rfl

/-- C4: amended — assuming `position + k` is not below the sequence start
(the source never checks this lower bound), `peek(k)` yields absent
exactly when `position + k` is past the end, and yields the token at
index `position + k` otherwise. -/
theorem C4_peek_spec (s : PState) (k : Int) (h : 0 ≤ (s.pos : Int) + k) :
    (peek s k = none ↔ (s.tokens.length : Int) ≤ (s.pos : Int) + k) ∧
    ((s.pos : Int) + k < (s.tokens.length : Int) →
      peek s k = some (s.tokens.getD ((s.pos : Int) + k).toNat invalidTok)) := by
  unfold peek
  constructor
  · constructor
    · intro hn
      split at hn
      · exact absurd hn (by simp)
      · rename_i hc
        omega
    · intro hle
      split
      · rename_i hc
        omega
      · rfl
  · intro hlt
    split
    · unfold getI
      have h2 : ((s.pos : Int) + k).toNat < s.tokens.length := by omega
      rw [dif_pos ⟨h, h2⟩, List.getD_eq_getElem _ _ h2]
      rfl
    · rename_i hc
      exact absurd hlt hc

/-- C4 witness: the amended peek specification instantiated at `k = 0` on
a one-token state. -/
theorem C4_peek_spec_witness :
    (peek s_single 0 = none ↔
      (s_single.tokens.length : Int) ≤ (s_single.pos : Int) + 0) ∧
    ((s_single.pos : Int) + 0 < (s_single.tokens.length : Int) →
      peek s_single 0 = some (s_single.tokens.getD
        ((s_single.pos : Int) + 0).toNat invalidTok)) :=
  C4_peek_spec s_single 0 (by decide)

/-- The unfolding of `declaration_node::visit` on a constructor. -/
theorem declaration_node_visit_eq (id : Option unqualified_id_node)
    (ty : declaration_type) (init : Option statement_node) (depth : Nat) :
    (declaration_node.mk id ty init).visit depth =
      [VEvent.start "declaration" depth] ++
        (match id with | none => [] | some u => u.visit (depth + 1)) ++
        (match ty with
         | .function l => parameter_declaration_list_node.visit l (depth + 2)
         | .object i => i.visit (depth + 2)) ++
        (match init with | none => [] | some st => statement_node.visit st (depth + 1)) ++
        [VEvent.fin "declaration" depth] := by
  unfold declaration_node.visit
  rfl

/-- C5 counterexample: in the visit trace of the declaration `x : int ;`
(started at depth 0), the type child's `id-expression` is entered at
depth 2, and at no point at the claimed depth 1. -/
theorem C5_type_child_two_deep :
    VEvent.start "id-expression" 2 ∈ parse_first_decl_trace (parse toks_x_int_semi 100) ∧
    VEvent.start "id-expression" 1 ∉ parse_first_decl_trace (parse toks_x_int_semi 100) := by
  constructor
  · decide
  · decide

/-- C5: amended — `declaration_node::visit` brackets its children between
`start(self, depth)` and `end(self, depth)`, visits the identifier and a
present initializer at `depth + 1`, but routes the type child through the
`visit<I>(v, depth + 1)` helper, which descends one more level: the type
child is visited at `depth + 2`, not `depth + 1`. -/
theorem C5_declaration_visit_depths (d : declaration_node) (depth : Nat) :
    (d.visit depth).head? = some (VEvent.start "declaration" depth) ∧
    (d.visit depth).getLast? = some (VEvent.fin "declaration" depth) ∧
    (∀ u, d.identifier = some u → (u.visit (depth + 1)).Sublist (d.visit depth)) ∧
    (∀ i, d.type = declaration_type.object i →
      (i.visit (depth + 2)).Sublist (d.visit depth)) ∧
    (∀ st, d.initializer = some st →
      (st.visit (depth + 1)).Sublist (d.visit depth)) := by
  cases d with
  | mk id ty init =>
    refine ⟨?_, ?_, ?_, ?_, ?_⟩
    · rw [declaration_node_visit_eq]
      rfl
    · rw [declaration_node_visit_eq]
      exact List.getLast?_concat _
    · intro u hu
      simp only [declaration_node.identifier] at hu
      subst hu
      rw [declaration_node_visit_eq]
      exact sublist_appendl (sublist_appendl
        (sublist_appendl (List.sublist_append_right _ _) _) _) _
    · intro i hi
      simp only [declaration_node.type] at hi
      subst hi
      rw [declaration_node_visit_eq]
      exact sublist_appendl (sublist_appendl (List.sublist_append_right _ _) _) _
    · intro st hst
      simp only [declaration_node.initializer] at hst
      subst hst
      rw [declaration_node_visit_eq]
      exact sublist_appendl (List.sublist_append_right _ _) _

/-- C6 counterexample: on `a :: +` the qualified-id fails (the `::` is
not followed by a nested name) with a diagnostic, and the cursor is left
at position 2 — not restored to the entry position 0. -/
theorem C6_qualified_id_no_rewind :
    qid_fail_state (qualified_id 100 (initState toks_scope_junk)) = some (2, 1) ∧
    (initState toks_scope_junk).pos = 0 :=
  ⟨rfl, rfl⟩

/-- C6: amended — `expression_list` restores the entry cursor position on
every failure; `qualified_id` and `declaration` restore it on their
silent failures (those that report no diagnostic), while their
diagnostic-reporting failure paths leave the cursor advanced. -/
theorem C6_rewind_on_failure (fuel : Nat) (s : PState)
    (hs : s.pos ≤ s.tokens.length) :
    (∀ s', expression_list fuel s = .ok none s' → s'.pos = s.pos) ∧
    (∀ s', qualified_id fuel s = .ok none s' →
      s'.errors.length = s.errors.length → s'.pos = s.pos) ∧
    (∀ sem s', declaration sem fuel s = .ok none s' →
      s'.errors.length = s.errors.length → s'.pos = s.pos) := by
  refine ⟨?_, ?_, ?_⟩
  · intro s' h
    cases fuel with
    | zero => rw [expression_list] at h; exact absurd h (by simp)
    | succ fuel =>
      rw [expression_list] at h
      simp only [currS] at h
      split at h
      · exact absurd h (by simp)
      · cases h; rfl
      · split at h
        · exact absurd h (by simp)
        · exact absurd h (by simp)
  · intro s' h herr
    cases fuel with
    | zero => rw [qualified_id] at h; exact absurd h (by simp)
    | succ fuel =>
      rw [qualified_id] at h
      cases hu : unqualified_id s with
      | mk id s1 =>
        rw [hu] at h
        cases id with
        | none => cases h; rfl
        | some id0 =>
          simp only [currS] at h
          split at h
          · cases h; rfl
          · have hgt := qualified_tail_none_errors fuel _ _ _ h
            obtain ⟨-, hseq⟩ := unqualified_id_success hu
            subst hseq
            simp only [currFlag_errors, next_errors] at hgt
            exact absurd herr (by omega)
  · intro sem s' h herr
    cases fuel with
    | zero => rw [declaration] at h; exact absurd h (by simp)
    | succ fuel =>
      rw [declaration] at h
      split at h
      · cases h; rfl
      · cases hu : unqualified_id s with
        | mk id s1 =>
          rw [hu] at h
          cases id with
          | none =>
            cases h
            rw [unqualified_id_none hu, currFlag_pos]
          | some id0 =>
            simp only [currS] at h
            split at h
            · cases h; rfl
            · obtain ⟨hlt, hseq⟩ := unqualified_id_success hu
              subst hseq
              split at h
              · exact absurd h (by simp)
              · rename_i l s3 heq
                have le3 := parameter_declaration_list_mono fuel _ (next_inv _) _ _ heq
                have hgt := declaration_finish_none_errors fuel sem id0 _ h
                have hee := le3.2.2.2
                simp only [next_errors, currFlag_errors] at hee
                exact absurd herr (by omega)
              · rename_i s3 heq
                have le3 := parameter_declaration_list_mono fuel _ (next_inv _) _ _ heq
                have hee := le3.2.2.2
                simp only [next_errors, currFlag_errors] at hee
                split at h
                · exact absurd h (by simp)
                · rename_i ie s4 heq2
                  have le4 := id_expression_mono fuel _ le3.2.2.1 _ _ heq2
                  have hgt := declaration_finish_none_errors fuel sem id0 _ h
                  have hee2 := le4.2.2.2
                  exact absurd herr (by omega)
                · rename_i s4 heq2
                  have le4 := id_expression_mono fuel _ le3.2.2.1 _ _ heq2
                  have hgt := declaration_finish_none_errors fuel sem id0 _ h
                  have hee2 := le4.2.2.2
                  exact absurd herr (by omega)

/-- C6 witness: the three rewinding productions instantiated on the
failing lead `a +` — `qualified_id` fails silently and the cursor is back
at the entry position. -/
theorem C6_rewind_on_failure_witness :
    (⟨toks_id_plus, 0, [], false⟩ : PState).pos = (initState toks_id_plus).pos :=
  (C6_rewind_on_failure 100 (initState toks_id_plus) (by decide)).2.1
    ⟨toks_id_plus, 0, [], false⟩ rfl rfl

/-- C7: the initializer of `x : int = a + b * c ;` parses with the
multiplication grouped below the addition — the declaration renders as
`(a + (b * c))`, never as `((a + b) * c)` — and the parse completes
cleanly. -/
theorem C7_precedence_grouping :
    parse_init_render (parse toks_mixed_prec 100) = some "(a + (b * c))" ∧
    parse_init_render (parse toks_mixed_prec 100) ≠ some "((a + b) * c)" ∧
    parse_returned (parse toks_mixed_prec 100) = some true ∧
    parse_error_count (parse toks_mixed_prec 100) = some 0 :=
  ⟨rfl, by decide, rfl, rfl⟩

/-- C8: every selection statement the parser returns owns a non-null
false-branch; without a source `else` it is the synthetic empty compound
at position (0,0) (checked here on `if a { }`), and with an `else` it is
the parsed compound with its source position (checked on
`if a { } else { }`, whose `else` block opens at column 15). -/
theorem C8_else_branch_total :
    (∀ fuel s b, sel_false_branch (selection_statement fuel s) = some b →
      b.isSome = true) ∧
    sel_false_branch (selection_statement 100 (initState toks_if)) =
      some (some (compound_statement_node.mk ⟨0, 0⟩ [])) ∧
    sel_false_branch (selection_statement 100 (initState toks_if_else)) =
      some (some (compound_statement_node.mk ⟨1, 15⟩ [])) := by
  refine ⟨?_, rfl, rfl⟩
  intro fuel s b h
  unfold sel_false_branch at h
  cases hsel : selection_statement fuel s with
  | oof => rw [hsel] at h; exact absurd h (by simp)
  | ok r s1 =>
    rw [hsel] at h
    cases r with
    | none => exact absurd h (by simp)
    | some n =>
      simp only [Option.some.injEq] at h
      subst h
      cases fuel with
      | zero => rw [selection_statement] at hsel; exact absurd hsel (by simp)
      | succ fuel =>
        rw [selection_statement] at hsel
        simp only [currS] at hsel
        split at hsel
        · exact absurd hsel (by simp)
        · split at hsel
          · exact absurd hsel (by simp)
          · exact absurd hsel (by simp)
          · split at hsel
            · exact absurd hsel (by simp)
            · exact absurd hsel (by simp)
            · split at hsel
              · simp only [PRes.ok.injEq, Option.some.injEq] at hsel
                obtain ⟨hn, -⟩ := hsel
                subst hn
                rfl
              · split at hsel
                · exact absurd hsel (by simp)
                · exact absurd hsel (by simp)
                · simp only [PRes.ok.injEq, Option.some.injEq] at hsel
                  obtain ⟨hn, -⟩ := hsel
                  subst hn
                  rfl

/-- The postfix-operator loop attaches an expression-list only to `(` and
`[` operators: every other collected operator — `.` included — carries
null. -/
theorem postfix_tail_dot_inv (fuel : Nat) :
    ∀ s acc ops s', postfix_tail fuel s acc = .ok ops s' →
      (∀ p ∈ acc, p.1.type = lexeme.Dot → p.2 = none) →
      ∀ p ∈ ops, p.1.type = lexeme.Dot → p.2 = none := by
  induction fuel with
  | zero =>
    intro s acc ops s' h hacc
    rw [postfix_tail] at h
    exact absurd h (by simp)
  | succ fuel ih =>
    intro s acc ops s' h hacc
    rw [postfix_tail] at h
    simp only [currS] at h
    split at h
    · split at h
      · rename_i hty
        split at h
        · exact absurd h (by simp)
        · refine ih _ _ _ _ h ?_
          intro p hp hdot
          rcases List.mem_append.1 hp with hp1 | hp2
          · exact hacc p hp1 hdot
          · rw [List.mem_singleton] at hp2
            subst hp2
            have hd2 : (currTok s).type = lexeme.Dot := hdot
            rw [hty] at hd2
            exact absurd hd2 (by decide)
      · rename_i hty
        split at h
        · exact absurd h (by simp)
        · refine ih _ _ _ _ h ?_
          intro p hp hdot
          rcases List.mem_append.1 hp with hp1 | hp2
          · exact hacc p hp1 hdot
          · rw [List.mem_singleton] at hp2
            subst hp2
            have hd2 : (currTok s).type = lexeme.Dot := hdot
            rw [hty] at hd2
            exact absurd hd2 (by decide)
      · refine ih _ _ _ _ h ?_
        intro p hp hdot
        rcases List.mem_append.1 hp with hp1 | hp2
        · exact hacc p hp1 hdot
        · rw [List.mem_singleton] at hp2
          subst hp2
          rfl
    · cases h
      exact hacc

/-- C9: a `.` token after a postfix chain is consumed and stored as a
postfix operator term with a null expression-list; on `a . b` the cursor
stops at position 2, so the identifier after the dot is not consumed —
member access is not parsed. -/
theorem C9_dot_operator_unattached :
    (∀ fuel s b, pf_dot_null (postfix_expression fuel s) = some b → b = true) ∧
    pf_ops_and_pos (postfix_expression 100 (initState toks_dot)) =
      some ([(".", false)], 2) := by
  refine ⟨?_, rfl⟩
  intro fuel s b h
  unfold pf_dot_null at h
  cases hp : postfix_expression fuel s with
  | oof => rw [hp] at h; exact absurd h (by simp)
  | ok r s1 =>
    rw [hp] at h
    cases r with
    | none => exact absurd h (by simp)
    | some n =>
      simp only [Option.some.injEq] at h
      subst h
      cases fuel with
      | zero => rw [postfix_expression] at hp; exact absurd hp (by simp)
      | succ fuel =>
        rw [postfix_expression] at hp
        split at hp
        · exact absurd hp (by simp)
        · exact absurd hp (by simp)
        · rename_i p0 s2 heq
          split at hp
          · exact absurd hp (by simp)
          · rename_i ops s3 heq2
            have hinv := postfix_tail_dot_inv fuel _ _ _ _ heq2
              (fun p hp0 _ => absurd hp0 (List.not_mem_nil p))
            simp only [PRes.ok.injEq, Option.some.injEq] at hp
            obtain ⟨hn, -⟩ := hp
            subst hn
            simp only [postfix_expression_node.ops]
            rw [List.all_eq_true]
            intro p hp0
            cases hb : p.1.type == lexeme.Dot with
            | false => simp [hb]
            | true =>
              have hd : p.1.type = lexeme.Dot := by simpa using hb
              have h2 := hinv p hp0 hd
              simp [hb, h2]

/-- C10: `parse` terminates on every finite token sequence — with fuel
`3 + 20 · n` for `n` input tokens every production completes, as every
loop iteration either consumes a token or exits, so the fuel-indexed
embedding never reports fuel exhaustion. -/
theorem C10_parse_terminates (tokens : List token) :
    parse tokens (3 + 20 * tokens.length) ≠ PRes.oof :=
  parse_total tokens
end cpp2
